import Mathlib

/-!
# Brainfuck interpreter (`src/interpreter.js`, `src/index.js`)

A shallow embedding of the execution engine and of the command line glue around it.

Modelling conventions.

* Instruction symbols are strings (`String`): the engine takes an array of values and
  uses each as a property name of the object `commands`.  The command line splits the
  program text into one-character strings, but the engine accepts any string, and a
  name that `commands` does not own is looked up in `Object.prototype` (`advance`).
* JavaScript values the engine can meet are of type `JSValue`.  Numbers are doubles:
  a sum is rounded to the nearest double, ties to the even significand (`roundInt`,
  `roundRat`), and the remainder `%` of two doubles is exact.  The exponent range of
  doubles is not modelled (no overflow to `Infinity`, no subnormal numbers), and the
  numbers of the configuration and of the input provider are taken to be doubles.
* The asynchronous input provider is a function from the number of values already
  taken to the value it resolves to next; the output sink is the list of the values
  it has been called with.  Both are taken to complete: an exception thrown by one of
  them would propagate out of the pull and is not modelled.
* The asynchronous generator is `advance` (one pull by the consumer) and `runtime`
  (the states yielded within a given number of pulls after the first, which yields
  the initial state, and how the sequence stands).
-/

namespace Interpreter

/-- Number of low bits a natural number `a` has beyond 53: the least `e` with
`a / 2 ^ e < 2 ^ 53` (the first argument bounds the search and is taken to be `a`). -/
def excessBits : Nat → Nat → Nat
  | 0, _ => 0
  | fuel + 1, a => if a < 2 ^ 53 then 0 else excessBits fuel (a / 2) + 1

/-- The double nearest to an integer, ties to the even significand: an integer of
magnitude below `2 ^ 53` is a double; a larger one keeps its 53 leading bits, rounded
on the bits that are dropped. -/
def roundInt (z : Int) : Int :=
  let a := z.natAbs
  if a < 2 ^ 53 then z
  else
    let e := excessBits a a
    let q := a / 2 ^ e
    let r := a % 2 ^ e
    let half := 2 ^ (e - 1)
    let m := if r < half then q else if half < r then q + 1 else if q % 2 = 0 then q else q + 1
    Int.sign z * ((m * 2 ^ e : Nat) : Int)

/-- The double nearest to a rational number, ties to the even significand: the number
is scaled by a power of two to a significand `x` with `2 ^ 52 ≤ x < 2 ^ 53`, which is
rounded to an integer. -/
def roundRat (q : ℚ) : ℚ :=
  if q = 0 then 0
  else
    let a := |q|
    let e : Int := Int.log 2 a - 52
    let x : ℚ := a / (2 : ℚ) ^ e
    let f : Int := ⌊x⌋
    let r : ℚ := x - (f : ℚ)
    let m : Int :=
      if r < 1 / 2 then f else if 1 / 2 < r then f + 1 else if f % 2 = 0 then f else f + 1
    (if q < 0 then -1 else 1) * (m : ℚ) * (2 : ℚ) ^ e

/-- JavaScript values an input provider may resolve to, or a tape cell may hold. -/
inductive JSValue where
  /-- a finite number with an integer value -/
  | int (z : Int)
  /-- a finite number that is not an integer -/
  | fraction (q : ℚ)
  /-- the number `NaN` -/
  | nan
  /-- the numbers `Infinity` and `-Infinity` -/
  | infinity (negative : Bool)
  /-- a value whose `typeof` is not `number`; reading a tape position that does not
  exist gives such a value (`undefined`) -/
  | nonNumber
  deriving DecidableEq

namespace JSValue

/-- The test `typeof v === "number"`. -/
def isNumber : JSValue → Bool
  | nonNumber => false
  | _ => true

/-- The comparison `v < n` for a number `v` and an integer `n`. -/
def lt : JSValue → Int → Bool
  | int z, n => decide (z < n)
  | fraction q, n => decide (q < (n : ℚ))
  | nan, _ => false
  | infinity negative, _ => negative
  | nonNumber, _ => false

/-- The comparison `v >= n` for a number `v` and an integer `n`. -/
def ge : JSValue → Int → Bool
  | int z, n => decide (n ≤ z)
  | fraction q, n => decide ((n : ℚ) ≤ q)
  | nan, _ => false
  | infinity negative, _ => !negative
  | nonNumber, _ => false

/-- The number a rational denotes, as a value: `int` when it is an integer. -/
def ofRat (q : ℚ) : JSValue :=
  if q.den = 1 then int q.num else fraction q

/-- The sum `v + n` for a tape value `v` and an integer `n`, rounded as the addition of
doubles rounds it (`undefined + n` is `NaN`). -/
def add : JSValue → Int → JSValue
  | int z, n => int (roundInt (z + n))
  | fraction q, n => ofRat (roundRat (q + (n : ℚ)))
  | nan, _ => nan
  | infinity negative, _ => infinity negative
  | nonNumber, _ => nan

/-- The remainder `v % n` for a tape value `v` and a natural number `n`: the result has
the sign of the dividend, and it is `NaN` when `n` is `0` or `v` is not finite. -/
def mod : JSValue → Nat → JSValue
  | int z, n => if n = 0 then nan else int (Int.tmod z (n : Int))
  | fraction q, n =>
      if n = 0 then nan
      else fraction (q - (n : ℚ) * ((Int.tdiv (q / (n : ℚ)).num ((q / (n : ℚ)).den : Int) : Int) : ℚ))
  | nan, _ => nan
  | infinity _, _ => nan
  | nonNumber, _ => nan

/-- The value is a finite number `x` with `0 ≤ x < cellSize`, integer or not. -/
def InRange (cellSize : Nat) : JSValue → Prop
  | int z => 0 ≤ z ∧ z < (cellSize : Int)
  | fraction q => 0 ≤ q ∧ q < (cellSize : ℚ)
  | nan => False
  | infinity _ => False
  | nonNumber => False

instance (cellSize : Nat) (v : JSValue) : Decidable (v.InRange cellSize) := by
  cases v <;> unfold InRange <;> infer_instance

end JSValue

/-- Copy of `array` in which the element at `position` is replaced by `value`
(`splice(position, 1, value)` on a copy: past the end, `value` is appended). -/
def _replaceInArray {α : Type} (array : List α) (position : Nat) (value : α) : List α :=
  array.take position ++ value :: array.drop (position + 1)

/-- Direction of a scan of `_findMatchingToken`. -/
inductive Direction where
  | asc
  | desc
  deriving DecidableEq

/-- The ascending loop of `_findMatchingToken`, over the tokens not yet visited:
`_matchingTokenPos` is the position of the head of that list, `first` is
`tokenArray[tokenPosition]`.  The result is the position at which the loop breaks;
running off the end gives `null`. -/
def scanAsc (first : Option String) (matchingToken : String) :
    List String → Nat → Int → Option Nat
  | [], _, _ => none
  | token :: rest, _matchingTokenPos, _nestingLevel =>
      if some token = first then
        if _nestingLevel + 1 = 0 then some _matchingTokenPos
        else scanAsc first matchingToken rest (_matchingTokenPos + 1) (_nestingLevel + 1)
      else if token = matchingToken then
        if _nestingLevel - 1 = 0 then some _matchingTokenPos
        else scanAsc first matchingToken rest (_matchingTokenPos + 1) (_nestingLevel - 1)
      else scanAsc first matchingToken rest (_matchingTokenPos + 1) _nestingLevel

/-- The descending loop of `_findMatchingToken`, from `_matchingTokenPos` down to `0`.
A break at a position beyond the end of the array is answered `null` by the final
range test. -/
def scanDesc (tokenArray : List String) (first : Option String) (matchingToken : String) :
    Nat → Int → Option Nat
  | 0, _nestingLevel =>
      if tokenArray[0]? = first then
        if _nestingLevel + 1 = 0 then (if 0 < tokenArray.length then some 0 else none)
        else none
      else if tokenArray[0]? = some matchingToken then
        if _nestingLevel - 1 = 0 then (if 0 < tokenArray.length then some 0 else none)
        else none
      else none
  | _matchingTokenPos + 1, _nestingLevel =>
      if tokenArray[_matchingTokenPos + 1]? = first then
        if _nestingLevel + 1 = 0 then
          (if _matchingTokenPos + 1 < tokenArray.length then some (_matchingTokenPos + 1) else none)
        else scanDesc tokenArray first matchingToken _matchingTokenPos (_nestingLevel + 1)
      else if tokenArray[_matchingTokenPos + 1]? = some matchingToken then
        if _nestingLevel - 1 = 0 then
          (if _matchingTokenPos + 1 < tokenArray.length then some (_matchingTokenPos + 1) else none)
        else scanDesc tokenArray first matchingToken _matchingTokenPos (_nestingLevel - 1)
      else scanDesc tokenArray first matchingToken _matchingTokenPos _nestingLevel

/-- Position of the token matching the one at `tokenPosition`, or `none` for `null`. -/
def _findMatchingToken (tokenArray : List String) (tokenPosition : Nat) (matchingToken : String)
    (direction : Direction := Direction.asc) : Option Nat :=
  match direction with
  | Direction.asc =>
      scanAsc tokenArray[tokenPosition]? matchingToken (tokenArray.drop tokenPosition)
        tokenPosition 0
  | Direction.desc =>
      scanDesc tokenArray tokenArray[tokenPosition]? matchingToken tokenPosition 0

/-- Change of `_nestingLevel` when the loop visits `token`. -/
def nestingChange (first : Option String) (matchingToken : String) (token : String) : Int :=
  if some token = first then 1 else if token = matchingToken then -1 else 0

/-- Sum of the changes of `_nestingLevel` over the positions below `k`. -/
def levelUpTo (first : Option String) (matchingToken : String) (tokenArray : List String)
    (k : Nat) : Int :=
  ((tokenArray.take k).map (nestingChange first matchingToken)).sum

/-- The record `RuntimeState`. -/
structure RuntimeState where
  program : List String
  stack : List JSValue
  dataPointer : Nat
  instructionPointer : Nat
  deriving DecidableEq

/-- The value of `stack[dataPointer]`: `undefined` when there is no such position. -/
def RuntimeState.cell (s : RuntimeState) : JSValue :=
  s.stack.getD s.dataPointer JSValue.nonNumber

/-- The state before any instruction has run. -/
def _initState (program : List String) (stackSize : Nat) : RuntimeState :=
  { program := program
    stack := List.replicate stackSize (JSValue.int 0)
    dataPointer := 0
    instructionPointer := 0 }

/-- The symbols configured for the eight instructions. -/
structure CommandMappings where
  INCREMENT_DATA_POINTER : String
  DECREMENT_DATA_POINTER : String
  INCREMENT_DATA_VALUE : String
  DECREMENT_DATA_VALUE : String
  OUTPUT_DATA_VALUE : String
  READ_INPUT_VALUE : String
  JUMP_FORWARD : String
  JUMP_BACKWARDS : String
  deriving DecidableEq

/-- The eight symbols are pairwise different. -/
def CommandMappings.Distinct (cm : CommandMappings) : Prop :=
  [cm.INCREMENT_DATA_POINTER, cm.DECREMENT_DATA_POINTER, cm.INCREMENT_DATA_VALUE,
    cm.DECREMENT_DATA_VALUE, cm.OUTPUT_DATA_VALUE, cm.READ_INPUT_VALUE, cm.JUMP_FORWARD,
    cm.JUMP_BACKWARDS].Nodup

instance (cm : CommandMappings) : Decidable cm.Distinct :=
  inferInstanceAs (Decidable (List.Nodup _))

/-- The configuration of `runtime`, without the two callbacks; the defaults are those of
the parameter list. -/
structure RuntimeConfig where
  commandMappings : CommandMappings
  stackSize : Nat := 30000
  cellSize : Nat := 0xFF
  deriving DecidableEq

/-- The errors thrown by the engine, with what their messages report. -/
inductive RuntimeError where
  /-- `DATA POINTER ERROR: Tried to access illegal stack position` -/
  | dataPointerError (position : Int) (instructionPointer : Nat)
  /-- `INVALID INPUT ERROR: Only numeric inputs are allowed` -/
  | nonNumericInput (value : JSValue) (instructionPointer : Nat)
  /-- `INVALID INPUT ERROR: Inputs values must be between 0 and cellSize` -/
  | inputOutOfRange (cellSize : Nat) (value : JSValue) (instructionPointer : Nat)
  /-- `PARSING ERROR: unmatched ... instruction` -/
  | unmatched (instruction : String) (instructionPointer : Nat)
  /-- `PARSING ERROR: Invalid instruction` -/
  | invalidInstruction (instruction : String) (instructionPointer : Nat)
  /-- a `TypeError` of the JavaScript runtime, none of the errors the engine throws
  itself: the value found under the instruction could not be called as a command -/
  | typeError (instruction : String) (instructionPointer : Nat)
  deriving DecidableEq

/-- The error is one of the two `INVALID INPUT ERROR`s. -/
def RuntimeError.isInvalidInput : RuntimeError → Bool
  | nonNumericInput _ _ => true
  | inputOutOfRange _ _ _ => true
  | _ => false

/-- Command of `INCREMENT_DATA_POINTER`. -/
def incrementDataPointer (cfg : RuntimeConfig) (s : RuntimeState) :
    Except RuntimeError RuntimeState :=
  let _dataPointer := s.dataPointer + 1
  if _dataPointer = cfg.stackSize then
    Except.error (RuntimeError.dataPointerError (_dataPointer : Int) s.instructionPointer)
  else
    Except.ok { s with dataPointer := _dataPointer, instructionPointer := s.instructionPointer + 1 }

/-- Command of `DECREMENT_DATA_POINTER`. -/
def decrementDataPointer (s : RuntimeState) : Except RuntimeError RuntimeState :=
  let _dataPointer : Int := (s.dataPointer : Int) - 1
  if _dataPointer < 0 then
    Except.error (RuntimeError.dataPointerError _dataPointer s.instructionPointer)
  else
    Except.ok { s with
      dataPointer := _dataPointer.toNat, instructionPointer := s.instructionPointer + 1 }

/-- Command of `INCREMENT_DATA_VALUE`. -/
def incrementDataValue (cfg : RuntimeConfig) (s : RuntimeState) : RuntimeState :=
  let _newValue := (s.cell.add 1).mod cfg.cellSize
  { s with
    stack := _replaceInArray s.stack s.dataPointer _newValue
    instructionPointer := s.instructionPointer + 1 }

/-- Command of `DECREMENT_DATA_VALUE`. -/
def decrementDataValue (cfg : RuntimeConfig) (s : RuntimeState) : RuntimeState :=
  let _newValue := ((s.cell.add (cfg.cellSize : Int)).add (-1)).mod cfg.cellSize
  { s with
    stack := _replaceInArray s.stack s.dataPointer _newValue
    instructionPointer := s.instructionPointer + 1 }

/-- Command of `OUTPUT_DATA_VALUE`: the value handed to `onOutputData`, and the next state. -/
def outputDataValue (s : RuntimeState) : JSValue × RuntimeState :=
  (s.cell, { s with instructionPointer := s.instructionPointer + 1 })

/-- Command of `READ_INPUT_VALUE`, given the value `onReadInput` resolved to. -/
def readInputValue (cfg : RuntimeConfig) (_inputValue : JSValue) (s : RuntimeState) :
    Except RuntimeError RuntimeState :=
  if _inputValue.isNumber = false then
    Except.error (RuntimeError.nonNumericInput _inputValue s.instructionPointer)
  else if _inputValue.lt 0 || _inputValue.ge (cfg.cellSize : Int) then
    Except.error (RuntimeError.inputOutOfRange cfg.cellSize _inputValue s.instructionPointer)
  else
    Except.ok { s with
      stack := _replaceInArray s.stack s.dataPointer _inputValue
      instructionPointer := s.instructionPointer + 1 }

/-- Command of `JUMP_FORWARD`. -/
def jumpForward (cm : CommandMappings) (s : RuntimeState) : Except RuntimeError RuntimeState :=
  match _findMatchingToken s.program s.instructionPointer cm.JUMP_BACKWARDS with
  | none => Except.error (RuntimeError.unmatched cm.JUMP_FORWARD s.instructionPointer)
  | some _matchingInstrPosition =>
      Except.ok { s with
        instructionPointer :=
          if s.cell = JSValue.int 0 then _matchingInstrPosition + 1
          else s.instructionPointer + 1 }

/-- Command of `JUMP_BACKWARDS`. -/
def jumpBackwards (cm : CommandMappings) (s : RuntimeState) : Except RuntimeError RuntimeState :=
  match _findMatchingToken s.program s.instructionPointer cm.JUMP_FORWARD Direction.desc with
  | none => Except.error (RuntimeError.unmatched cm.JUMP_BACKWARDS s.instructionPointer)
  | some _matchingInstrPosition =>
      Except.ok { s with
        instructionPointer :=
          if s.cell ≠ JSValue.int 0 then _matchingInstrPosition + 1
          else s.instructionPointer + 1 }

/-- The eight entries of the object `commands`. -/
inductive Command where
  | incrementDataPointer
  | decrementDataPointer
  | incrementDataValue
  | decrementDataValue
  | outputDataValue
  | readInputValue
  | jumpForward
  | jumpBackwards
  deriving DecidableEq

/-- The lookup `commands[nextInstruction]`.  The object is built from eight computed
keys in the order of `Command`; when two keys are the same symbol the later entry has
replaced the earlier one, so the lookup tries the last key first.  These are the
properties of the object itself; a key that is none of them is looked up in
`Object.prototype`, see `objectPrototypeKeys` and `advance`. -/
def commands (cm : CommandMappings) (nextInstruction : String) : Option Command :=
  if nextInstruction = cm.JUMP_BACKWARDS then some Command.jumpBackwards
  else if nextInstruction = cm.JUMP_FORWARD then some Command.jumpForward
  else if nextInstruction = cm.READ_INPUT_VALUE then some Command.readInputValue
  else if nextInstruction = cm.OUTPUT_DATA_VALUE then some Command.outputDataValue
  else if nextInstruction = cm.DECREMENT_DATA_VALUE then some Command.decrementDataValue
  else if nextInstruction = cm.INCREMENT_DATA_VALUE then some Command.incrementDataValue
  else if nextInstruction = cm.DECREMENT_DATA_POINTER then some Command.decrementDataPointer
  else if nextInstruction = cm.INCREMENT_DATA_POINTER then some Command.incrementDataPointer
  else none

/-- The names of the properties an object literal inherits from `Object.prototype`:
`commands[nextInstruction]` is not `null` for them. -/
def objectPrototypeKeys : List String :=
  ["constructor", "__defineGetter__", "__defineSetter__", "hasOwnProperty",
    "__lookupGetter__", "__lookupSetter__", "isPrototypeOf", "propertyIsEnumerable",
    "toString", "valueOf", "__proto__", "toLocaleString"]

/-- The engine between two pulls: the current state, how many values have been taken
from the input provider, and the values handed to the output sink so far. -/
structure Machine where
  state : RuntimeState
  inputsRead : Nat
  outputs : List JSValue
  deriving DecidableEq

/-- The call `await command(state)` with its effects on the two collaborators. -/
def execute (cfg : RuntimeConfig) (onReadInput : Nat → JSValue) (command : Command)
    (m : Machine) : Except RuntimeError Machine :=
  match command with
  | Command.incrementDataPointer =>
      (incrementDataPointer cfg m.state).map fun s => { m with state := s }
  | Command.decrementDataPointer =>
      (decrementDataPointer m.state).map fun s => { m with state := s }
  | Command.incrementDataValue => Except.ok { m with state := incrementDataValue cfg m.state }
  | Command.decrementDataValue => Except.ok { m with state := decrementDataValue cfg m.state }
  | Command.outputDataValue =>
      Except.ok { m with
        state := (outputDataValue m.state).2
        outputs := m.outputs ++ [(outputDataValue m.state).1] }
  | Command.readInputValue =>
      (readInputValue cfg (onReadInput m.inputsRead) m.state).map fun s =>
        { m with state := s, inputsRead := m.inputsRead + 1 }
  | Command.jumpForward =>
      (jumpForward cfg.commandMappings m.state).map fun s => { m with state := s }
  | Command.jumpBackwards =>
      (jumpBackwards cfg.commandMappings m.state).map fun s => { m with state := s }

/-- What one pull after the first gives the consumer. -/
inductive Advance where
  /-- the loop condition fails: the generator returns -/
  | finished
  /-- the generator throws -/
  | failed (e : RuntimeError)
  /-- the generator yields the next state -/
  | yielded (m : Machine)
  deriving DecidableEq

/-- One turn of the `while` loop of the generator.  When the instruction is none of the
keys of `commands`, the lookup goes to `Object.prototype`: under `constructor` it finds
`Object`, and `Object(state)` is `state`, so the same state is yielded again; under the
other inherited names it finds a value that is no command, and the turn ends in a
`TypeError` before anything is yielded (the methods throw when called without receiver,
except `toString`, which answers a string, whose `program` is `undefined` and cannot be
indexed; `__proto__` is an object that cannot be called); under any other name it finds
nothing and the engine throws its own error. -/
def advance (cfg : RuntimeConfig) (onReadInput : Nat → JSValue) (m : Machine) : Advance :=
  match m.state.program[m.state.instructionPointer]? with
  | none => Advance.finished
  | some nextInstruction =>
      match commands cfg.commandMappings nextInstruction with
      | none =>
          if nextInstruction = "constructor" then Advance.yielded m
          else if nextInstruction ∈ objectPrototypeKeys then
            Advance.failed (RuntimeError.typeError nextInstruction m.state.instructionPointer)
          else
            Advance.failed
              (RuntimeError.invalidInstruction nextInstruction m.state.instructionPointer)
      | some command =>
          match execute cfg onReadInput command m with
          | Except.error e => Advance.failed e
          | Except.ok m' => Advance.yielded m'

/-- How the sequence stands after a number of pulls. -/
inductive Outcome where
  /-- the sequence has ended normally -/
  | completed
  /-- the sequence has ended with an error -/
  | failed (e : RuntimeError)
  /-- the sequence has not ended yet -/
  | pending
  deriving DecidableEq

/-- What the consumer has seen: the machines at each yield, in order, and the outcome. -/
structure Run where
  yielded : List Machine
  outcome : Outcome
  deriving DecidableEq

/-- The states yielded, in order. -/
def Run.states (r : Run) : List RuntimeState :=
  r.yielded.map Machine.state

/-- The values handed to the output sink, in order. -/
def Run.outputs (r : Run) : List JSValue :=
  match r.yielded.getLast? with
  | none => []
  | some m => m.outputs

/-- The loop of the generator from machine `m`, for at most `pulls` pulls. -/
def runFrom (cfg : RuntimeConfig) (onReadInput : Nat → JSValue) : Nat → Machine → Run
  | 0, _ => { yielded := [], outcome := Outcome.pending }
  | pulls + 1, m =>
      match advance cfg onReadInput m with
      | Advance.finished => { yielded := [], outcome := Outcome.completed }
      | Advance.failed e => { yielded := [], outcome := Outcome.failed e }
      | Advance.yielded m' =>
          { yielded := m' :: (runFrom cfg onReadInput pulls m').yielded
            outcome := (runFrom cfg onReadInput pulls m').outcome }

/-- The iterable returned by `runtime`, pulled `pulls + 1` times: the first pull yields
the initial state. -/
def runtime (program : List String) (cfg : RuntimeConfig) (onReadInput : Nat → JSValue)
    (pulls : Nat) : Run :=
  let m : Machine :=
    { state := _initState program cfg.stackSize, inputsRead := 0, outputs := [] }
  { yielded := m :: (runFrom cfg onReadInput pulls m).yielded
    outcome := (runFrom cfg onReadInput pulls m).outcome }

/-- Number of `opening` symbols minus number of `closing` symbols among the first `k`
symbols of the program. -/
def depthUpTo (opening closing : String) (program : List String) (k : Nat) : Int :=
  ((program.take k).count opening : Int) - ((program.take k).count closing : Int)

/-- The program is well formed: reading from the left, no closing symbol comes without
an opening one before it, and every opening symbol is closed at the end. -/
def Balanced (opening closing : String) (program : List String) : Prop :=
  (∀ k, k ≤ program.length → 0 ≤ depthUpTo opening closing program k) ∧
    depthUpTo opening closing program program.length = 0

instance (opening closing : String) (program : List String) :
    Decidable (Balanced opening closing program) :=
  inferInstanceAs (Decidable (_ ∧ _))

/-- The symbols at the positions `a`, ..., `b` of the program. -/
def segment (program : List String) (a b : Nat) : List String :=
  (program.take (b + 1)).drop a

/-- There are as many `s` as `t` at the positions `a`, ..., `b` of the program. -/
def SegmentBalanced (program : List String) (s t : String) (a b : Nat) : Prop :=
  (segment program a b).count s = (segment program a b).count t

instance (program : List String) (s t : String) (a b : Nat) :
    Decidable (SegmentBalanced program s t a b) :=
  inferInstanceAs (Decidable (_ = _))

/-- Reference for the ascending search, in the words of the specification: `j` is the
first position from `i` on at which the symbols `s` and `t` seen since `i` are in equal
number. -/
def ReferenceAscending (program : List String) (s t : String) (i j : Nat) : Prop :=
  i ≤ j ∧ j < program.length ∧ SegmentBalanced program s t i j ∧
    ∀ j', i ≤ j' → j' < j → ¬ SegmentBalanced program s t i j'

/-- Reference for the descending search, in the words of the specification: `j` is the
last position up to `i` from which the symbols `s` and `t` up to `i` are in equal
number. -/
def ReferenceDescending (program : List String) (s t : String) (i j : Nat) : Prop :=
  j ≤ i ∧ SegmentBalanced program s t j i ∧
    ∀ j', j < j' → j' ≤ i → ¬ SegmentBalanced program s t j' i

/-- Pulling from machine `m` yields the machines `ys`, in this order, the last of them
being `m'` (and `m'` is `m` when `ys` is empty). -/
def Path (cfg : RuntimeConfig) (onReadInput : Nat → JSValue) :
    Machine → List Machine → Machine → Prop
  | m, [], m' => m = m'
  | m, y :: ys, m' => advance cfg onReadInput m = Advance.yielded y ∧ Path cfg onReadInput y ys m'

/-- The structural invariant of the machines of a run of `program` under `cfg`. -/
def WellFormed (program : List String) (cfg : RuntimeConfig) (m : Machine) : Prop :=
  m.state.program = program ∧ m.state.stack.length = cfg.stackSize ∧
    m.state.dataPointer < cfg.stackSize ∧ m.state.instructionPointer ≤ program.length

/-- Every cell holds an integer of the range of `cellSize`. -/
def CellsInRange (cfg : RuntimeConfig) (stack : List JSValue) : Prop :=
  ∀ c ∈ stack, ∃ v : Int, c = JSValue.int v ∧ 0 ≤ v ∧ v < (cfg.cellSize : Int)

end Interpreter

namespace Index

open Interpreter

/-- The mapping of `src/index.js`. -/
def commandMappings : CommandMappings :=
  { INCREMENT_DATA_POINTER := ">"
    DECREMENT_DATA_POINTER := "<"
    INCREMENT_DATA_VALUE := "+"
    DECREMENT_DATA_VALUE := "-"
    OUTPUT_DATA_VALUE := "."
    READ_INPUT_VALUE := ","
    JUMP_FORWARD := "["
    JUMP_BACKWARDS := "]" }

/-- The configuration of `src/index.js`, without the two callbacks. -/
def parserConfig : RuntimeConfig :=
  { commandMappings := commandMappings
    stackSize := 30
    cellSize := 0xFF }

/-- The characters the regular expression of `main` leaves in place: its class, read
without the negation, is the range from `+` to `>` together with `<`, `[`, `]`, `,`
and `.`; every run of other characters is replaced by the empty string. -/
def kept (c : Char) : Bool :=
  (decide ('+' ≤ c) && decide (c ≤ '>')) || c == '<' || c == '[' || c == ']' || c == ','
    || c == '.'

/-- The constant `program` of `main`: the program text without the characters the
regular expression removes, split into strings of one character. -/
def program (programStr : String) : List String :=
  (programStr.toList.filter kept).map String.singleton

end Index

namespace Interpreter

/-! ## The bracket matcher -/

theorem nestingChange_ge (first : Option String) (c t : String) :
    -1 ≤ nestingChange first c t := by
  unfold nestingChange
  split_ifs <;> omega

theorem levelUpTo_succ (first : Option String) (c : String) (tokens : List String) (k : Nat)
    (hk : k < tokens.length) :
    levelUpTo first c tokens (k + 1) = levelUpTo first c tokens k + nestingChange first c tokens[k] := by
  unfold levelUpTo
  rw [List.take_succ, List.getElem?_eq_getElem hk, List.map_append, List.sum_append]
  simp

theorem scanAsc_cons (first : Option String) (c t : String) (rest : List String) (pos : Nat) (n : Int)
    (hn : n ≠ 0) :
    scanAsc first c (t :: rest) pos n =
      if n + nestingChange first c t = 0 then some pos
      else scanAsc first c rest (pos + 1) (n + nestingChange first c t) := by
  unfold nestingChange
  rw [scanAsc]
  by_cases h1 : some t = first
  · simp [h1]
  · by_cases h2 : t = c
    · subst h2
      simp [h1, sub_eq_add_neg]
    · simp [h1, h2, hn]

theorem scanAsc_drop_iff (first : Option String) (c : String) (tokens : List String) :
    ∀ (d pos : Nat) (n : Int) (r : Nat), tokens.length = pos + d → 0 < n →
      (scanAsc first c (tokens.drop pos) pos n = some r ↔
        pos ≤ r ∧ r < tokens.length ∧
          n + (levelUpTo first c tokens (r + 1) - levelUpTo first c tokens pos) = 0 ∧
          ∀ k, pos ≤ k → k ≤ r →
            0 < n + (levelUpTo first c tokens k - levelUpTo first c tokens pos)) := by
  intro d
  induction d with
  | zero =>
      intro pos n r hlen hn
      have hdrop : tokens.drop pos = [] := List.drop_eq_nil_of_le (by omega)
      rw [hdrop]
      simp only [scanAsc]
      constructor
      · intro h; cases h
      · rintro ⟨h1, h2, -⟩; omega
  | succ d ih =>
      intro pos n r hlen hn
      have hpos : pos < tokens.length := by omega
      have hdrop : tokens.drop pos = tokens[pos] :: tokens.drop (pos + 1) :=
        List.drop_eq_getElem_cons hpos
      have hL := levelUpTo_succ first c tokens pos hpos
      have hge := nestingChange_ge first c tokens[pos]
      rw [hdrop, scanAsc_cons first c _ _ _ _ (by omega)]
      by_cases h0 : n + nestingChange first c tokens[pos] = 0
      · rw [if_pos h0]
        constructor
        · intro h
          have hr : pos = r := by simpa using h
          subst hr
          refine ⟨le_refl _, hpos, by rw [hL]; omega, ?_⟩
          intro k hk1 hk2
          have : k = pos := by omega
          subst this
          omega
        · rintro ⟨h1, h2, h3, h4⟩
          by_cases hr : r = pos
          · rw [hr]
          · exfalso
            have := h4 (pos + 1) (by omega) (by omega)
            rw [hL] at this
            omega
      · rw [if_neg h0, ih (pos + 1) (n + nestingChange first c tokens[pos]) r (by omega) (by omega)]
        rw [hL]
        constructor
        · rintro ⟨h1, h2, h3, h4⟩
          refine ⟨by omega, h2, by omega, ?_⟩
          intro k hk1 hk2
          by_cases hk : k = pos
          · subst hk; omega
          · have := h4 k (by omega) hk2
            omega
        · rintro ⟨h1, h2, h3, h4⟩
          have hne : r ≠ pos := by
            intro hr
            subst hr
            rw [hL] at h3
            omega
          refine ⟨by omega, h2, by omega, ?_⟩
          intro k hk1 hk2
          have := h4 k (by omega) hk2
          omega

theorem scanDesc_zero (first : Option String) (c : String) (tokens : List String) (n : Int)
    (h0 : 0 < tokens.length) (hn : n ≠ 0) :
    scanDesc tokens first c 0 n =
      if n + nestingChange first c tokens[0] = 0 then some 0 else none := by
  unfold nestingChange
  rw [scanDesc, List.getElem?_eq_getElem h0]
  by_cases h1 : some tokens[0] = first
  · simp [h1, h0]
  · by_cases h2 : tokens[0] = c
    · have h1' : ¬ some c = first := by rw [← h2]; exact h1
      simp [h1', h2, h0, sub_eq_add_neg]
    · simp [h1, h2, hn]

theorem scanDesc_succ (first : Option String) (c : String) (tokens : List String) (j : Nat) (n : Int)
    (hj : j + 1 < tokens.length) (hn : n ≠ 0) :
    scanDesc tokens first c (j + 1) n =
      if n + nestingChange first c tokens[j + 1] = 0 then some (j + 1)
      else scanDesc tokens first c j (n + nestingChange first c tokens[j + 1]) := by
  unfold nestingChange
  rw [scanDesc, List.getElem?_eq_getElem hj]
  by_cases h1 : some tokens[j + 1] = first
  · simp [h1, hj]
  · by_cases h2 : tokens[j + 1] = c
    · have h1' : ¬ some c = first := by rw [← h2]; exact h1
      simp [h1', h2, hj, sub_eq_add_neg]
    · simp [h1, h2, hn]

theorem scanDesc_iff (first : Option String) (c : String) (tokens : List String) :
    ∀ (j : Nat) (n : Int) (r : Nat), j < tokens.length → 0 < n →
      (scanDesc tokens first c j n = some r ↔
        r ≤ j ∧ n + (levelUpTo first c tokens (j + 1) - levelUpTo first c tokens r) = 0 ∧
          ∀ k, r < k → k ≤ j + 1 →
            0 < n + (levelUpTo first c tokens (j + 1) - levelUpTo first c tokens k)) := by
  intro j
  induction j with
  | zero =>
      intro n r hj hn
      have hL : levelUpTo first c tokens 1
          = levelUpTo first c tokens 0 + nestingChange first c tokens[0] :=
        levelUpTo_succ first c tokens 0 hj
      simp only [zero_add]
      rw [scanDesc_zero first c tokens n hj (by omega)]
      by_cases h0 : n + nestingChange first c tokens[0] = 0
      · rw [if_pos h0]
        constructor
        · intro h
          have hr : 0 = r := by simpa using h
          subst hr
          refine ⟨le_refl _, by rw [hL]; omega, ?_⟩
          intro k hk1 hk2
          have : k = 1 := by omega
          subst this
          omega
        · rintro ⟨h1, -⟩
          have : r = 0 := by omega
          rw [this]
      · rw [if_neg h0]
        constructor
        · intro h; cases h
        · rintro ⟨h1, h2, -⟩
          have : r = 0 := by omega
          subst this
          rw [hL] at h2
          omega
  | succ j ih =>
      intro n r hj hn
      have hL := levelUpTo_succ first c tokens (j + 1) hj
      have hge := nestingChange_ge first c tokens[j + 1]
      rw [scanDesc_succ first c tokens j n hj (by omega)]
      by_cases h0 : n + nestingChange first c tokens[j + 1] = 0
      · rw [if_pos h0]
        constructor
        · intro h
          have hr : j + 1 = r := by simpa using h
          subst hr
          refine ⟨le_refl _, by rw [hL]; omega, ?_⟩
          intro k hk1 hk2
          have : k = j + 1 + 1 := by omega
          subst this
          omega
        · rintro ⟨h1, h2, h3⟩
          by_cases hr : r = j + 1
          · rw [hr]
          · exfalso
            have := h3 (j + 1) (by omega) (by omega)
            rw [hL] at this
            omega
      · rw [if_neg h0, ih (n + nestingChange first c tokens[j + 1]) r (by omega) (by omega)]
        rw [hL]
        constructor
        · rintro ⟨h1, h2, h3⟩
          refine ⟨by omega, by omega, ?_⟩
          intro k hk1 hk2
          by_cases hk : k = j + 1 + 1
          · subst hk; omega
          · have := h3 k hk1 (by omega)
            omega
        · rintro ⟨h1, h2, h3⟩
          have hne : r ≠ j + 1 := by
            intro hr
            subst hr
            omega
          refine ⟨by omega, by omega, ?_⟩
          intro k hk1 hk2
          have := h3 k hk1 (by omega)
          omega

/-- Ascending search from an existing position `i`: the answer is the first position
after `i` at which the nesting level is back to its value before `i`. -/
theorem findMatchingToken_asc_iff (tokens : List String) (i : Nat) (c : String) (r : Nat)
    (hi : i < tokens.length) :
    _findMatchingToken tokens i c = some r ↔
      i < r ∧ r < tokens.length ∧
        levelUpTo (some tokens[i]) c tokens (r + 1) = levelUpTo (some tokens[i]) c tokens i ∧
        ∀ k, i < k → k ≤ r →
          levelUpTo (some tokens[i]) c tokens i < levelUpTo (some tokens[i]) c tokens k := by
  have hL := levelUpTo_succ (some tokens[i]) c tokens i hi
  have hd : nestingChange (some tokens[i]) c tokens[i] = 1 := by simp [nestingChange]
  rw [hd] at hL
  unfold _findMatchingToken
  simp only []
  rw [List.getElem?_eq_getElem hi, List.drop_eq_getElem_cons hi, scanAsc]
  simp only [if_true, zero_add, one_ne_zero, if_false]
  rw [scanAsc_drop_iff (some tokens[i]) c tokens (tokens.length - (i + 1)) (i + 1) 1 r
    (by omega) (by omega), hL]
  constructor
  · rintro ⟨h1, h2, h3, h4⟩
    refine ⟨by omega, h2, by omega, ?_⟩
    intro k hk1 hk2
    have := h4 k (by omega) hk2
    omega
  · rintro ⟨h1, h2, h3, h4⟩
    refine ⟨by omega, h2, by omega, ?_⟩
    intro k hk1 hk2
    have := h4 k (by omega) hk2
    omega

/-- Descending search from an existing position `j`: the answer is the last position
before `j` from which the nesting level up to `j` is balanced. -/
theorem findMatchingToken_desc_iff (tokens : List String) (j : Nat) (c : String) (r : Nat)
    (hj : j < tokens.length) :
    _findMatchingToken tokens j c Direction.desc = some r ↔
      r < j ∧
        levelUpTo (some tokens[j]) c tokens (j + 1) = levelUpTo (some tokens[j]) c tokens r ∧
        ∀ k, r < k → k ≤ j →
          levelUpTo (some tokens[j]) c tokens k < levelUpTo (some tokens[j]) c tokens (j + 1) := by
  have hL := levelUpTo_succ (some tokens[j]) c tokens j hj
  have hd : nestingChange (some tokens[j]) c tokens[j] = 1 := by simp [nestingChange]
  rw [hd] at hL
  unfold _findMatchingToken
  simp only []
  rw [List.getElem?_eq_getElem hj]
  cases j with
  | zero =>
      rw [scanDesc]
      simp
  | succ j =>
      rw [scanDesc]
      rw [List.getElem?_eq_getElem hj]
      simp only [if_true, zero_add, one_ne_zero, if_false]
      rw [scanDesc_iff (some tokens[j + 1]) c tokens j 1 r (by omega) (by omega), hL]
      constructor
      · rintro ⟨h1, h2, h3⟩
        refine ⟨by omega, by omega, ?_⟩
        intro k hk1 hk2
        have := h3 k hk1 (by omega)
        omega
      · rintro ⟨h1, h2, h3⟩
        refine ⟨by omega, by omega, ?_⟩
        intro k hk1 hk2
        have := h3 k hk1 (by omega)
        omega

theorem nestingChange_swap (b c t : String) (hbc : b ≠ c) :
    nestingChange (some c) b t = - nestingChange (some b) c t := by
  unfold nestingChange
  by_cases h1 : t = b
  · subst h1
    simp [hbc]
  · by_cases h2 : t = c
    · subst h2
      simp [h1]
    · simp [h1, h2]

theorem levelUpTo_swap (b c : String) (tokens : List String) (k : Nat) (hbc : b ≠ c) :
    levelUpTo (some c) b tokens k = - levelUpTo (some b) c tokens k := by
  unfold levelUpTo
  induction tokens.take k with
  | nil => simp
  | cons t l ih =>
      simp only [List.map_cons, List.sum_cons, ih, nestingChange_swap b c t hbc]
      ring

/-- The ascending match of an existing position `i` is a position `j` after `i` that
holds the matching token, and the descending match of `j` is `i`. -/
theorem findMatchingToken_symmetric (tokens : List String) (i j : Nat) (c : String)
    (hi : i < tokens.length) (h : _findMatchingToken tokens i c = some j) :
    i < j ∧ tokens[j]? = some c ∧ tokens[i] ≠ c ∧
      _findMatchingToken tokens j tokens[i] Direction.desc = some i := by
  obtain ⟨h1, h2, h3, h4⟩ := (findMatchingToken_asc_iff tokens i c j hi).1 h
  have hLj := levelUpTo_succ (some tokens[i]) c tokens j h2
  have hj := h4 j h1 (le_refl _)
  have hd : nestingChange (some tokens[i]) c tokens[j] < 0 := by omega
  have hjc : tokens[j] = c ∧ tokens[j] ≠ tokens[i] := by
    unfold nestingChange at hd
    by_cases e1 : some tokens[j] = some tokens[i]
    · rw [if_pos e1] at hd
      omega
    · rw [if_neg e1] at hd
      by_cases e2 : tokens[j] = c
      · exact ⟨e2, fun e => e1 (by rw [e])⟩
      · rw [if_neg e2] at hd
        omega
  have hbc : tokens[i] ≠ c := fun e => hjc.2 (by rw [hjc.1, e])
  refine ⟨h1, by rw [List.getElem?_eq_getElem h2, hjc.1], hbc, ?_⟩
  rw [findMatchingToken_desc_iff tokens j tokens[i] i h2, hjc.1]
  refine ⟨h1, ?_, ?_⟩
  · rw [levelUpTo_swap _ _ _ _ hbc, levelUpTo_swap _ _ _ _ hbc, h3]
  · intro k hk1 hk2
    rw [levelUpTo_swap _ _ _ _ hbc, levelUpTo_swap _ _ _ _ hbc, h3]
    have := h4 k hk1 hk2
    omega

/-! ## Rounding of sums -/

theorem roundInt_of_lt (z : Int) (h : z.natAbs < 2 ^ 53) : roundInt z = z := by
  unfold roundInt
  simp only [h, if_true]

theorem roundInt_two_pow : roundInt (2 ^ 53) = 2 ^ 53 := by decide

/-- A natural number up to `2 ^ 53` is a double. -/
theorem roundInt_of_le (z : Int) (h0 : 0 ≤ z) (h1 : z ≤ 2 ^ 53) : roundInt z = z := by
  by_cases h : z = 2 ^ 53
  · rw [h]
    exact roundInt_two_pow
  · exact roundInt_of_lt z (by omega)

theorem pow_excessBits_le : ∀ (fuel a : Nat), 1 ≤ a → 2 ^ excessBits fuel a ≤ a := by
  intro fuel
  induction fuel with
  | zero => intro a h; simpa [excessBits] using h
  | succ fuel ih =>
      intro a h
      unfold excessBits
      split_ifs with hlt
      · simpa using h
      · have h2 : 1 ≤ a / 2 := by omega
        have := ih (a / 2) h2
        rw [Nat.pow_succ]
        omega

theorem roundInt_pos (z : Int) (h : 1 ≤ z) : 1 ≤ roundInt z := by
  unfold roundInt
  simp only []
  split_ifs with h1 h2 h3 h4
  · exact h
  all_goals
    have hs : Int.sign z = 1 := Int.sign_eq_one_of_pos (by omega)
    have hp := pow_excessBits_le z.natAbs z.natAbs (by omega)
    have hq : 1 ≤ z.natAbs / 2 ^ excessBits z.natAbs z.natAbs :=
      (Nat.one_le_div_iff (by positivity)).2 hp
    have hpos : 1 ≤ 2 ^ excessBits z.natAbs z.natAbs := Nat.one_le_two_pow
    rw [hs, one_mul]
    norm_cast
    nlinarith

theorem roundInt_nonneg (z : Int) (h : 0 ≤ z) : 0 ≤ roundInt z := by
  by_cases h0 : z = 0
  · subst h0
    decide
  · have := roundInt_pos z (by omega)
    omega

/-! ## Commands -/

theorem replaceInArray_length {α : Type} (array : List α) (position : Nat) (value : α)
    (h : position < array.length) : (_replaceInArray array position value).length = array.length := by
  unfold _replaceInArray
  simp only [List.length_append, List.length_take, List.length_cons, List.length_drop]
  omega

theorem incrementDataPointer_ok_iff (cfg : RuntimeConfig) (s s' : RuntimeState) :
    incrementDataPointer cfg s = Except.ok s' ↔
      s.dataPointer + 1 ≠ cfg.stackSize ∧
        s' = { s with
          dataPointer := s.dataPointer + 1, instructionPointer := s.instructionPointer + 1 } := by
  unfold incrementDataPointer
  by_cases h : s.dataPointer + 1 = cfg.stackSize
  · simp [h]
  · simp [h, eq_comm]

theorem decrementDataPointer_ok_iff (s s' : RuntimeState) :
    decrementDataPointer s = Except.ok s' ↔
      0 < s.dataPointer ∧
        s' = { s with
          dataPointer := s.dataPointer - 1, instructionPointer := s.instructionPointer + 1 } := by
  unfold decrementDataPointer
  by_cases h : (s.dataPointer : Int) - 1 < 0
  · have h0 : s.dataPointer = 0 := by omega
    simp [h0]
  · have h0 : 0 < s.dataPointer := by omega
    have h1 : ((s.dataPointer : Int) - 1).toNat = s.dataPointer - 1 := by omega
    simp [h, h0, h1, eq_comm]

theorem readInputValue_ok_iff (cfg : RuntimeConfig) (v : JSValue) (s s' : RuntimeState) :
    readInputValue cfg v s = Except.ok s' ↔
      v.isNumber = true ∧ v.lt 0 = false ∧ v.ge (cfg.cellSize : Int) = false ∧
        s' = { s with
          stack := _replaceInArray s.stack s.dataPointer v
          instructionPointer := s.instructionPointer + 1 } := by
  unfold readInputValue
  by_cases h1 : v.isNumber = false
  · simp [h1]
  · by_cases h2 : (v.lt 0 || v.ge (cfg.cellSize : Int)) = true
    · simp only [h1, h2, if_false, if_true]
      simp only [Bool.or_eq_true] at h2
      constructor
      · intro h; cases h
      · rintro ⟨-, h3, h4, -⟩
        rcases h2 with h2 | h2
        · rw [h3] at h2; cases h2
        · rw [h4] at h2; cases h2
    · simp only [h1, h2, if_false]
      simp only [Bool.or_eq_true, not_or, Bool.not_eq_true] at h2
      simp only [Bool.not_eq_false] at h1
      simp [h1, h2.1, h2.2, eq_comm]

theorem jumpForward_ok_iff (cm : CommandMappings) (s s' : RuntimeState) :
    jumpForward cm s = Except.ok s' ↔
      ∃ j, _findMatchingToken s.program s.instructionPointer cm.JUMP_BACKWARDS = some j ∧
        s' = { s with
          instructionPointer :=
            if s.cell = JSValue.int 0 then j + 1 else s.instructionPointer + 1 } := by
  unfold jumpForward
  cases h : _findMatchingToken s.program s.instructionPointer cm.JUMP_BACKWARDS with
  | none => simp
  | some j => simp [eq_comm]

theorem jumpBackwards_ok_iff (cm : CommandMappings) (s s' : RuntimeState) :
    jumpBackwards cm s = Except.ok s' ↔
      ∃ i, _findMatchingToken s.program s.instructionPointer cm.JUMP_FORWARD Direction.desc
          = some i ∧
        s' = { s with
          instructionPointer :=
            if s.cell ≠ JSValue.int 0 then i + 1 else s.instructionPointer + 1 } := by
  unfold jumpBackwards
  cases h : _findMatchingToken s.program s.instructionPointer cm.JUMP_FORWARD Direction.desc with
  | none => simp
  | some j => simp [eq_comm]

theorem findMatchingToken_lt (tokens : List String) (i : Nat) (c : String) (d : Direction) (r : Nat)
    (hi : i < tokens.length) (h : _findMatchingToken tokens i c d = some r) :
    r < tokens.length := by
  cases d with
  | asc => exact ((findMatchingToken_asc_iff tokens i c r hi).1 h).2.1
  | desc =>
      have := ((findMatchingToken_desc_iff tokens i c r hi).1 h).1
      omega

/-- What a successful `execute` does to the state, command by command. -/
theorem execute_ok_state (cfg : RuntimeConfig) (onReadInput : Nat → JSValue) (command : Command)
    (m m' : Machine) (h : execute cfg onReadInput command m = Except.ok m') :
    (command = Command.incrementDataPointer ∧ incrementDataPointer cfg m.state = Except.ok m'.state) ∨
    (command = Command.decrementDataPointer ∧ decrementDataPointer m.state = Except.ok m'.state) ∨
    (command = Command.incrementDataValue ∧ m'.state = incrementDataValue cfg m.state) ∨
    (command = Command.decrementDataValue ∧ m'.state = decrementDataValue cfg m.state) ∨
    (command = Command.outputDataValue ∧ m'.state = (outputDataValue m.state).2) ∨
    (command = Command.readInputValue ∧
      readInputValue cfg (onReadInput m.inputsRead) m.state = Except.ok m'.state) ∨
    (command = Command.jumpForward ∧ jumpForward cfg.commandMappings m.state = Except.ok m'.state) ∨
    (command = Command.jumpBackwards ∧
      jumpBackwards cfg.commandMappings m.state = Except.ok m'.state) := by
  cases command <;> simp only [execute] at h
  · cases h1 : incrementDataPointer cfg m.state with
    | error e => rw [h1] at h; cases h
    | ok s => rw [h1] at h; cases h; simp
  · cases h1 : decrementDataPointer m.state with
    | error e => rw [h1] at h; cases h
    | ok s => rw [h1] at h; cases h; simp
  · cases h; simp
  · cases h; simp
  · cases h; simp
  · cases h1 : readInputValue cfg (onReadInput m.inputsRead) m.state with
    | error e => rw [h1] at h; cases h
    | ok s => rw [h1] at h; cases h; simp
  · cases h1 : jumpForward cfg.commandMappings m.state with
    | error e => rw [h1] at h; cases h
    | ok s => rw [h1] at h; cases h; simp
  · cases h1 : jumpBackwards cfg.commandMappings m.state with
    | error e => rw [h1] at h; cases h
    | ok s => rw [h1] at h; cases h; simp

/-- A pull that yields has executed a command of the engine, or has met the inherited
`constructor` and yields the machine it started from. -/
theorem advance_yielded_cases (cfg : RuntimeConfig) (onReadInput : Nat → JSValue)
    (m m' : Machine) (h : advance cfg onReadInput m = Advance.yielded m') :
    (m.state.program[m.state.instructionPointer]? = some "constructor" ∧
        commands cfg.commandMappings "constructor" = none ∧ m' = m) ∨
      ∃ t command, m.state.program[m.state.instructionPointer]? = some t ∧
        commands cfg.commandMappings t = some command ∧
        execute cfg onReadInput command m = Except.ok m' := by
  unfold advance at h
  cases h1 : m.state.program[m.state.instructionPointer]? with
  | none => rw [h1] at h; cases h
  | some t =>
      rw [h1] at h
      simp only [] at h
      cases h2 : commands cfg.commandMappings t with
      | none =>
          rw [h2] at h
          simp only [] at h
          by_cases hc : t = "constructor"
          · rw [if_pos hc] at h
            subst hc
            cases h
            exact Or.inl ⟨rfl, h2, rfl⟩
          · rw [if_neg hc] at h
            split_ifs at h
      | some command =>
          rw [h2] at h
          simp only [] at h
          cases h3 : execute cfg onReadInput command m with
          | error e => rw [h3] at h; cases h
          | ok m2 =>
              rw [h3] at h
              cases h
              exact Or.inr ⟨t, command, rfl, h2, h3⟩

theorem advance_of_execute (cfg : RuntimeConfig) (onReadInput : Nat → JSValue) (m m' : Machine)
    (t : String) (command : Command)
    (ht : m.state.program[m.state.instructionPointer]? = some t)
    (hc : commands cfg.commandMappings t = some command)
    (he : execute cfg onReadInput command m = Except.ok m') :
    advance cfg onReadInput m = Advance.yielded m' := by
  unfold advance
  simp only [ht, hc, he]

/-! ## Invariants of a run -/

theorem wellFormed_init (program : List String) (cfg : RuntimeConfig) (hN : 1 ≤ cfg.stackSize) :
    WellFormed program cfg
      { state := _initState program cfg.stackSize, inputsRead := 0, outputs := [] } := by
  unfold WellFormed _initState
  simp
  omega

theorem advance_wellFormed (program : List String) (cfg : RuntimeConfig)
    (onReadInput : Nat → JSValue) (m m' : Machine) (hm : WellFormed program cfg m)
    (h : advance cfg onReadInput m = Advance.yielded m') : WellFormed program cfg m' := by
  rcases advance_yielded_cases cfg onReadInput m m' h with
    ⟨-, -, rfl⟩ | ⟨t, command, ht, -, he⟩
  · exact hm
  obtain ⟨hp, hlen, hdp, -⟩ := hm
  obtain ⟨hip, -⟩ := List.getElem?_eq_some_iff.1 ht
  rw [hp] at hip
  unfold WellFormed
  rcases execute_ok_state cfg onReadInput command m m' he with
    ⟨-, h1⟩ | ⟨-, h1⟩ | ⟨-, h1⟩ | ⟨-, h1⟩ | ⟨-, h1⟩ | ⟨-, h1⟩ | ⟨-, h1⟩ | ⟨-, h1⟩
  · obtain ⟨h2, h3⟩ := (incrementDataPointer_ok_iff cfg m.state m'.state).1 h1
    rw [h3]
    exact ⟨hp, hlen, by simp only []; omega, by simp only []; omega⟩
  · obtain ⟨h2, h3⟩ := (decrementDataPointer_ok_iff m.state m'.state).1 h1
    rw [h3]
    exact ⟨hp, hlen, by simp only []; omega, by simp only []; omega⟩
  · rw [h1]
    unfold incrementDataValue
    exact ⟨hp, by simp only []; rw [replaceInArray_length _ _ _ (by omega)]; exact hlen, hdp,
      by simp only []; omega⟩
  · rw [h1]
    unfold decrementDataValue
    exact ⟨hp, by simp only []; rw [replaceInArray_length _ _ _ (by omega)]; exact hlen, hdp,
      by simp only []; omega⟩
  · rw [h1]
    unfold outputDataValue
    exact ⟨hp, hlen, hdp, by simp only []; omega⟩
  · obtain ⟨-, -, -, h3⟩ := (readInputValue_ok_iff cfg _ m.state m'.state).1 h1
    rw [h3]
    exact ⟨hp, by simp only []; rw [replaceInArray_length _ _ _ (by omega)]; exact hlen, hdp,
      by simp only []; omega⟩
  · obtain ⟨j, hj, h3⟩ := (jumpForward_ok_iff cfg.commandMappings m.state m'.state).1 h1
    have hjl := findMatchingToken_lt _ _ _ _ _ (by rw [hp]; exact hip) hj
    rw [hp] at hjl
    rw [h3]
    refine ⟨hp, hlen, hdp, ?_⟩
    simp only []
    split_ifs <;> omega
  · obtain ⟨j, hj, h3⟩ := (jumpBackwards_ok_iff cfg.commandMappings m.state m'.state).1 h1
    have hjl := findMatchingToken_lt _ _ _ _ _ (by rw [hp]; exact hip) hj
    rw [hp] at hjl
    rw [h3]
    refine ⟨hp, hlen, hdp, ?_⟩
    simp only []
    split_ifs <;> omega

/-- A property of the first machine that every successful pull preserves holds of every
machine yielded. -/
theorem runFrom_yielded_induction (cfg : RuntimeConfig) (onReadInput : Nat → JSValue)
    (P : Machine → Prop)
    (hstep : ∀ m m', P m → advance cfg onReadInput m = Advance.yielded m' → P m') :
    ∀ (pulls : Nat) (m0 : Machine), P m0 →
      ∀ m ∈ (runFrom cfg onReadInput pulls m0).yielded, P m := by
  intro pulls
  induction pulls with
  | zero =>
      intro m0 _ m hm
      simp [runFrom] at hm
  | succ pulls ih =>
      intro m0 h0 m hm
      rw [runFrom] at hm
      cases ha : advance cfg onReadInput m0 with
      | finished => rw [ha] at hm; simp at hm
      | failed e => rw [ha] at hm; simp at hm
      | yielded m1 =>
          rw [ha] at hm
          simp only [List.mem_cons] at hm
          rcases hm with hm | hm
          · rw [hm]; exact hstep m0 m1 h0 ha
          · exact ih m1 (hstep m0 m1 h0 ha) m hm

theorem runtime_yielded_induction (program : List String) (cfg : RuntimeConfig)
    (onReadInput : Nat → JSValue) (P : Machine → Prop)
    (h0 : P { state := _initState program cfg.stackSize, inputsRead := 0, outputs := [] })
    (hstep : ∀ m m', P m → advance cfg onReadInput m = Advance.yielded m' → P m')
    (pulls : Nat) : ∀ m ∈ (runtime program cfg onReadInput pulls).yielded, P m := by
  intro m hm
  unfold runtime at hm
  simp only [List.mem_cons] at hm
  rcases hm with hm | hm
  · rw [hm]; exact h0
  · exact runFrom_yielded_induction cfg onReadInput P hstep pulls _ h0 m hm

theorem runtime_wellFormed (program : List String) (cfg : RuntimeConfig)
    (onReadInput : Nat → JSValue) (hN : 1 ≤ cfg.stackSize) (pulls : Nat) :
    ∀ m ∈ (runtime program cfg onReadInput pulls).yielded, WellFormed program cfg m :=
  runtime_yielded_induction program cfg onReadInput (WellFormed program cfg)
    (wellFormed_init program cfg hN)
    (fun m m' hm h => advance_wellFormed program cfg onReadInput m m' hm h) pulls

/-- The machine at index `k` of a run is the last one when the next pull ends the
sequence, and the outcome is the one of that pull if the consumer made it. -/
theorem runFrom_last (cfg : RuntimeConfig) (onReadInput : Nat → JSValue) :
    ∀ (pulls : Nat) (m0 : Machine) (k : Nat) (m : Machine),
      (m0 :: (runFrom cfg onReadInput pulls m0).yielded)[k]? = some m →
      (∀ m', advance cfg onReadInput m ≠ Advance.yielded m') →
      (runFrom cfg onReadInput pulls m0).yielded.length = k ∧
        (k < pulls →
          (advance cfg onReadInput m = Advance.finished →
            (runFrom cfg onReadInput pulls m0).outcome = Outcome.completed) ∧
          (∀ e, advance cfg onReadInput m = Advance.failed e →
            (runFrom cfg onReadInput pulls m0).outcome = Outcome.failed e)) := by
  intro pulls
  induction pulls with
  | zero =>
      intro m0 k m hk _
      cases k with
      | zero => simp [runFrom]
      | succ k => simp [runFrom] at hk
  | succ pulls ih =>
      intro m0 k m hk hend
      cases k with
      | zero =>
          simp only [List.getElem?_cons_zero, Option.some.injEq] at hk
          subst hk
          rw [runFrom]
          cases ha : advance cfg onReadInput m0 with
          | finished => simp
          | failed e => simp
          | yielded m1 => exact absurd ha (hend m1)
      | succ k =>
          simp only [List.getElem?_cons_succ] at hk
          rw [runFrom] at hk ⊢
          cases ha : advance cfg onReadInput m0 with
          | finished => rw [ha] at hk; simp at hk
          | failed e => rw [ha] at hk; simp at hk
          | yielded m1 =>
              rw [ha] at hk
              simp only [] at hk ⊢
              obtain ⟨h1, h2⟩ := ih m1 k m hk hend
              refine ⟨by simp [h1], fun hlt => h2 (by omega)⟩

theorem mem_replaceInArray {α : Type} (array : List α) (position : Nat) (value c : α)
    (h : c ∈ _replaceInArray array position value) : c ∈ array ∨ c = value := by
  unfold _replaceInArray at h
  simp only [List.mem_append, List.mem_cons] at h
  rcases h with h | h | h
  · exact Or.inl (List.mem_of_mem_take h)
  · exact Or.inr h
  · exact Or.inl (List.mem_of_mem_drop h)

theorem cell_of_cellsInRange (cfg : RuntimeConfig) (s : RuntimeState)
    (hdp : s.dataPointer < s.stack.length) (hc : CellsInRange cfg s.stack) :
    ∃ v : Int, s.cell = JSValue.int v ∧ 0 ≤ v ∧ v < (cfg.cellSize : Int) := by
  unfold RuntimeState.cell
  rw [List.getD_eq_getElem _ _ hdp]
  exact hc _ (List.getElem_mem hdp)

theorem cellsInRange_replace (cfg : RuntimeConfig) (stack : List JSValue) (position : Nat)
    (v : Int) (hc : CellsInRange cfg stack) (h0 : 0 ≤ v) (h1 : v < (cfg.cellSize : Int)) :
    CellsInRange cfg (_replaceInArray stack position (JSValue.int v)) := by
  intro c hcm
  rcases mem_replaceInArray _ _ _ _ hcm with h | h
  · exact hc c h
  · exact ⟨v, h, h0, h1⟩

theorem advance_cellsInRange (program : List String) (cfg : RuntimeConfig)
    (onReadInput : Nat → JSValue) (hcs : 1 ≤ cfg.cellSize)
    (hin : ∀ k, ∃ z : Int, onReadInput k = JSValue.int z) (m m' : Machine)
    (hm : WellFormed program cfg m ∧ CellsInRange cfg m.state.stack)
    (h : advance cfg onReadInput m = Advance.yielded m') :
    WellFormed program cfg m' ∧ CellsInRange cfg m'.state.stack := by
  refine ⟨advance_wellFormed program cfg onReadInput m m' hm.1 h, ?_⟩
  rcases advance_yielded_cases cfg onReadInput m m' h with
    ⟨-, -, hsame⟩ | ⟨t, command, -, -, he⟩
  · rw [hsame]
    exact hm.2
  obtain ⟨⟨hp, hlen, hdp, -⟩, hc⟩ := hm
  obtain ⟨v, hv, hv0, hv1⟩ := cell_of_cellsInRange cfg m.state (by omega) hc
  have hcs0 : cfg.cellSize ≠ 0 := by omega
  have hpos : (0 : Int) < (cfg.cellSize : Int) := by omega
  rcases execute_ok_state cfg onReadInput command m m' he with
    ⟨-, h1⟩ | ⟨-, h1⟩ | ⟨-, h1⟩ | ⟨-, h1⟩ | ⟨-, h1⟩ | ⟨-, h1⟩ | ⟨-, h1⟩ | ⟨-, h1⟩
  · rw [((incrementDataPointer_ok_iff cfg m.state m'.state).1 h1).2]
    exact hc
  · rw [((decrementDataPointer_ok_iff m.state m'.state).1 h1).2]
    exact hc
  · rw [h1]
    unfold incrementDataValue
    simp only [hv, JSValue.add, JSValue.mod, hcs0, if_false]
    exact cellsInRange_replace cfg _ _ _ hc
      (Int.tmod_nonneg _ (roundInt_nonneg _ (by omega))) (Int.tmod_lt_of_pos _ hpos)
  · rw [h1]
    unfold decrementDataValue
    simp only [hv, JSValue.add, JSValue.mod, hcs0, if_false]
    have hsum := roundInt_pos (v + (cfg.cellSize : Int)) (by omega)
    exact cellsInRange_replace cfg _ _ _ hc
      (Int.tmod_nonneg _ (roundInt_nonneg _ (by omega))) (Int.tmod_lt_of_pos _ hpos)
  · rw [h1]
    exact hc
  · obtain ⟨-, h2, h3, h4⟩ := (readInputValue_ok_iff cfg _ m.state m'.state).1 h1
    obtain ⟨z, hz⟩ := hin m.inputsRead
    rw [hz] at h2 h3 h4
    simp only [JSValue.lt, JSValue.ge, decide_eq_false_iff_not, not_lt, not_le] at h2 h3
    rw [h4]
    exact cellsInRange_replace cfg _ _ _ hc h2 h3
  · obtain ⟨j, -, h3⟩ := (jumpForward_ok_iff cfg.commandMappings m.state m'.state).1 h1
    rw [h3]
    exact hc
  · obtain ⟨j, -, h3⟩ := (jumpBackwards_ok_iff cfg.commandMappings m.state m'.state).1 h1
    rw [h3]
    exact hc

theorem advance_instructionPointer (program : List String) (cfg : RuntimeConfig)
    (onReadInput : Nat → JSValue) (m m' : Machine)
    (hm : m.state.program = program ∧ m.state.instructionPointer ≤ program.length)
    (h : advance cfg onReadInput m = Advance.yielded m') :
    m'.state.program = program ∧ m'.state.instructionPointer ≤ program.length := by
  rcases advance_yielded_cases cfg onReadInput m m' h with
    ⟨-, -, rfl⟩ | ⟨t, command, ht, -, he⟩
  · exact hm
  obtain ⟨hp, -⟩ := hm
  obtain ⟨hip, -⟩ := List.getElem?_eq_some_iff.1 ht
  rw [hp] at hip
  rcases execute_ok_state cfg onReadInput command m m' he with
    ⟨-, h1⟩ | ⟨-, h1⟩ | ⟨-, h1⟩ | ⟨-, h1⟩ | ⟨-, h1⟩ | ⟨-, h1⟩ | ⟨-, h1⟩ | ⟨-, h1⟩
  · rw [((incrementDataPointer_ok_iff cfg m.state m'.state).1 h1).2]
    exact ⟨hp, by simp only []; omega⟩
  · rw [((decrementDataPointer_ok_iff m.state m'.state).1 h1).2]
    exact ⟨hp, by simp only []; omega⟩
  · rw [h1]
    exact ⟨hp, by simp only [incrementDataValue]; omega⟩
  · rw [h1]
    exact ⟨hp, by simp only [decrementDataValue]; omega⟩
  · rw [h1]
    exact ⟨hp, by simp only [outputDataValue]; omega⟩
  · rw [((readInputValue_ok_iff cfg _ m.state m'.state).1 h1).2.2.2]
    exact ⟨hp, by simp only []; omega⟩
  · obtain ⟨j, hj, h3⟩ := (jumpForward_ok_iff cfg.commandMappings m.state m'.state).1 h1
    have hjl := findMatchingToken_lt _ _ _ _ _ (by rw [hp]; exact hip) hj
    rw [hp] at hjl
    rw [h3]
    refine ⟨hp, ?_⟩
    simp only []
    split_ifs <;> omega
  · obtain ⟨j, hj, h3⟩ := (jumpBackwards_ok_iff cfg.commandMappings m.state m'.state).1 h1
    have hjl := findMatchingToken_lt _ _ _ _ _ (by rw [hp]; exact hip) hj
    rw [hp] at hjl
    rw [h3]
    refine ⟨hp, ?_⟩
    simp only []
    split_ifs <;> omega

theorem runtime_instructionPointer (program : List String) (cfg : RuntimeConfig)
    (onReadInput : Nat → JSValue) (pulls : Nat) :
    ∀ m ∈ (runtime program cfg onReadInput pulls).yielded,
      m.state.program = program ∧ m.state.instructionPointer ≤ program.length :=
  runtime_yielded_induction program cfg onReadInput
    (fun m => m.state.program = program ∧ m.state.instructionPointer ≤ program.length)
    ⟨rfl, Nat.zero_le _⟩
    (fun m m' hm h => advance_instructionPointer program cfg onReadInput m m' hm h) pulls

theorem advance_finished_iff (cfg : RuntimeConfig) (onReadInput : Nat → JSValue) (m : Machine) :
    advance cfg onReadInput m = Advance.finished ↔
      m.state.program.length ≤ m.state.instructionPointer := by
  unfold advance
  cases h1 : m.state.program[m.state.instructionPointer]? with
  | none =>
      simp only [true_iff]
      exact List.getElem?_eq_none_iff.1 h1
  | some t =>
      have hlt := (List.getElem?_eq_some_iff.1 h1).1
      cases h2 : commands cfg.commandMappings t with
      | none =>
          simp only [h2]
          constructor
          · intro h
            split_ifs at h
          · intro h
            omega
      | some command =>
          cases h3 : execute cfg onReadInput command m with
          | error e => simp only [h2, h3]; constructor <;> intro h <;> [cases h; omega]
          | ok m2 => simp only [h2, h3]; constructor <;> intro h <;> [cases h; omega]

/-! ## The claims -/

/-- C1: with a tape of at least one cell, every state the engine yields has its data
pointer inside the tape; from such a state the two pointer commands either move the
pointer by one inside the tape or throw the data pointer error, with the position they
tried and the instruction position, and a pull that dispatches one of them on the edge
of the tape fails without yielding a state. -/
theorem dataPointer_in_bounds (program : List String) (cfg : RuntimeConfig)
    (onReadInput : Nat → JSValue) (hN : 1 ≤ cfg.stackSize) (pulls : Nat) (m : Machine)
    (hm : m ∈ (runtime program cfg onReadInput pulls).yielded) :
    m.state.dataPointer < cfg.stackSize ∧
    (∀ s', incrementDataPointer cfg m.state = Except.ok s' →
      s'.dataPointer = m.state.dataPointer + 1 ∧ s'.dataPointer < cfg.stackSize) ∧
    (m.state.dataPointer + 1 = cfg.stackSize →
      incrementDataPointer cfg m.state = Except.error
        (RuntimeError.dataPointerError (cfg.stackSize : Int) m.state.instructionPointer)) ∧
    (∀ s', decrementDataPointer m.state = Except.ok s' →
      s'.dataPointer + 1 = m.state.dataPointer) ∧
    (m.state.dataPointer = 0 →
      decrementDataPointer m.state = Except.error
        (RuntimeError.dataPointerError (-1) m.state.instructionPointer)) ∧
    (∀ t, m.state.program[m.state.instructionPointer]? = some t →
      commands cfg.commandMappings t = some Command.incrementDataPointer →
      m.state.dataPointer + 1 = cfg.stackSize →
      advance cfg onReadInput m = Advance.failed
        (RuntimeError.dataPointerError (cfg.stackSize : Int) m.state.instructionPointer)) ∧
    (∀ t, m.state.program[m.state.instructionPointer]? = some t →
      commands cfg.commandMappings t = some Command.decrementDataPointer →
      m.state.dataPointer = 0 →
      advance cfg onReadInput m = Advance.failed
        (RuntimeError.dataPointerError (-1) m.state.instructionPointer)) := by
  obtain ⟨-, -, hdp, -⟩ := runtime_wellFormed program cfg onReadInput hN pulls m hm
  have hinc : m.state.dataPointer + 1 = cfg.stackSize →
      incrementDataPointer cfg m.state = Except.error
        (RuntimeError.dataPointerError (cfg.stackSize : Int) m.state.instructionPointer) := by
    intro h
    unfold incrementDataPointer
    simp only [h, if_true]
  have hdec : m.state.dataPointer = 0 →
      decrementDataPointer m.state = Except.error
        (RuntimeError.dataPointerError (-1) m.state.instructionPointer) := by
    intro h
    unfold decrementDataPointer
    simp [h]
  refine ⟨hdp, ?_, hinc, ?_, hdec, ?_, ?_⟩
  · intro s' h
    obtain ⟨h1, h2⟩ := (incrementDataPointer_ok_iff cfg m.state s').1 h
    rw [h2]
    exact ⟨rfl, by simp only []; omega⟩
  · intro s' h
    obtain ⟨h1, h2⟩ := (decrementDataPointer_ok_iff m.state s').1 h
    rw [h2]
    simp only []
    omega
  · intro t ht hc h
    unfold advance
    simp only [ht, hc, execute, hinc h, Except.map]
  · intro t ht hc h
    unfold advance
    simp only [ht, hc, execute, hdec h, Except.map]

theorem dataPointer_in_bounds_witness :
    1 ≤ ({ commandMappings := Index.commandMappings, stackSize := 2 } : RuntimeConfig).stackSize ∧
    ({ state := { program := [">", ">"], stack := [JSValue.int 0, JSValue.int 0],
                  dataPointer := 1, instructionPointer := 1 },
       inputsRead := 0, outputs := [] } : Machine) ∈
      (runtime [">", ">"] { commandMappings := Index.commandMappings, stackSize := 2 }
        (fun _ => JSValue.int 0) 2).yielded ∧
    advance { commandMappings := Index.commandMappings, stackSize := 2 } (fun _ => JSValue.int 0)
      { state := { program := [">", ">"], stack := [JSValue.int 0, JSValue.int 0],
                   dataPointer := 1, instructionPointer := 1 },
        inputsRead := 0, outputs := [] } =
      Advance.failed (RuntimeError.dataPointerError 2 1) :=
  ⟨by decide, by decide,
    (dataPointer_in_bounds [">", ">"] { commandMappings := Index.commandMappings, stackSize := 2 }
      (fun _ => JSValue.int 0) (by decide) 2 _ (by decide)).2.2.2.2.2.1 ">" (by decide) (by decide)
      (by decide)⟩

/-- C2: with a tape of `N ≥ 1` cells, a cell modulus of at least one and an input
provider that only supplies integers, every state the engine yields has a tape of
exactly `N` cells, each an integer `v` with `0 ≤ v < cellSize`; in the first state all
cells are `0`. -/
theorem tape_cells_in_range (program : List String) (cfg : RuntimeConfig)
    (onReadInput : Nat → JSValue) (hN : 1 ≤ cfg.stackSize) (hcs : 1 ≤ cfg.cellSize)
    (hin : ∀ k, ∃ z : Int, onReadInput k = JSValue.int z) (pulls : Nat) :
    (∀ m ∈ (runtime program cfg onReadInput pulls).yielded,
      m.state.stack.length = cfg.stackSize ∧
        ∀ c ∈ m.state.stack, ∃ v : Int, c = JSValue.int v ∧ 0 ≤ v ∧ v < (cfg.cellSize : Int)) ∧
    ∃ m0, (runtime program cfg onReadInput pulls).yielded.head? = some m0 ∧
      m0.state.stack = List.replicate cfg.stackSize (JSValue.int 0) := by
  constructor
  · intro m hm
    have h := runtime_yielded_induction program cfg onReadInput
      (fun m => WellFormed program cfg m ∧ CellsInRange cfg m.state.stack)
      ⟨wellFormed_init program cfg hN, by
        intro c hc
        simp only [_initState] at hc
        exact ⟨0, List.eq_of_mem_replicate hc, le_refl _, by omega⟩⟩
      (fun m m' hm h => advance_cellsInRange program cfg onReadInput hcs hin m m' hm h) pulls m hm
    exact ⟨h.1.2.1, h.2⟩
  · exact ⟨_, rfl, rfl⟩

theorem tape_cells_in_range_witness :
    1 ≤ Index.parserConfig.stackSize ∧ 1 ≤ Index.parserConfig.cellSize ∧
    (∀ k : Nat, ∃ z : Int, (fun _ => JSValue.int 7) k = JSValue.int z) ∧
    ∀ m ∈ (runtime [",", "-"] Index.parserConfig (fun _ => JSValue.int 7) 3).yielded,
      m.state.stack.length = Index.parserConfig.stackSize ∧
        ∀ c ∈ m.state.stack, ∃ v : Int, c = JSValue.int v ∧ 0 ≤ v ∧
          v < (Index.parserConfig.cellSize : Int) :=
  ⟨by decide, by decide, fun _ => ⟨7, rfl⟩,
    (tape_cells_in_range [",", "-"] Index.parserConfig (fun _ => JSValue.int 7) (by decide)
      (by decide) (fun _ => ⟨7, rfl⟩) 3).1⟩

/-- C3: in every state the engine yields the instruction pointer is at most the length of
the program; a yielded state whose instruction pointer equals that length is the last
of the sequence, the next pull ending it normally; and a jump executed at a position of
the program never sends the instruction pointer beyond the length of the program. -/
theorem instructionPointer_in_bounds (program : List String) (cfg : RuntimeConfig)
    (onReadInput : Nat → JSValue) (pulls k : Nat) (m : Machine)
    (hk : (runtime program cfg onReadInput pulls).yielded[k]? = some m) :
    m.state.instructionPointer ≤ program.length ∧
    (m.state.instructionPointer = program.length →
      advance cfg onReadInput m = Advance.finished ∧
      (runtime program cfg onReadInput pulls).yielded.length = k + 1 ∧
      (k < pulls → (runtime program cfg onReadInput pulls).outcome = Outcome.completed)) ∧
    (m.state.instructionPointer < program.length →
      (∀ s', jumpForward cfg.commandMappings m.state = Except.ok s' →
        s'.instructionPointer ≤ program.length) ∧
      (∀ s', jumpBackwards cfg.commandMappings m.state = Except.ok s' →
        s'.instructionPointer ≤ program.length)) := by
  have hmem : m ∈ (runtime program cfg onReadInput pulls).yielded := List.mem_iff_getElem?.2 ⟨k, hk⟩
  obtain ⟨hp, hip⟩ := runtime_instructionPointer program cfg onReadInput pulls m hmem
  refine ⟨hip, ?_, ?_⟩
  · intro he
    have hfin : advance cfg onReadInput m = Advance.finished :=
      (advance_finished_iff cfg onReadInput m).2 (by rw [hp]; omega)
    unfold runtime at hk ⊢
    simp only [] at hk ⊢
    obtain ⟨h1, h2⟩ := runFrom_last cfg onReadInput pulls _ k m hk
      (fun m' h => by rw [hfin] at h; cases h)
    exact ⟨hfin, by simp [h1], fun hlt => (h2 hlt).1 hfin⟩
  · intro hlt
    constructor
    · intro s' h
      obtain ⟨j, hj, h3⟩ := (jumpForward_ok_iff cfg.commandMappings m.state s').1 h
      have hjl := findMatchingToken_lt _ _ _ _ _ (by rw [hp]; exact hlt) hj
      rw [hp] at hjl
      rw [h3]
      simp only []
      split_ifs <;> omega
    · intro s' h
      obtain ⟨j, hj, h3⟩ := (jumpBackwards_ok_iff cfg.commandMappings m.state s').1 h
      have hjl := findMatchingToken_lt _ _ _ _ _ (by rw [hp]; exact hlt) hj
      rw [hp] at hjl
      rw [h3]
      simp only []
      split_ifs <;> omega

theorem instructionPointer_in_bounds_witness :
    (runtime ["[", "x", "]"] { commandMappings := Index.commandMappings, stackSize := 1 }
        (fun _ => JSValue.int 0) 2).yielded[1]? =
      some { state := { program := ["[", "x", "]"], stack := [JSValue.int 0],
                        dataPointer := 0, instructionPointer := 3 },
             inputsRead := 0, outputs := [] } ∧
    (runtime ["[", "x", "]"] { commandMappings := Index.commandMappings, stackSize := 1 }
        (fun _ => JSValue.int 0) 2).yielded.length = 1 + 1 ∧
    (runtime ["[", "x", "]"] { commandMappings := Index.commandMappings, stackSize := 1 }
        (fun _ => JSValue.int 0) 2).outcome = Outcome.completed :=
  ⟨by decide,
    ((instructionPointer_in_bounds ["[", "x", "]"]
      { commandMappings := Index.commandMappings, stackSize := 1 } (fun _ => JSValue.int 0) 2 1
      _ rfl).2.1 rfl).2.1,
    ((instructionPointer_in_bounds ["[", "x", "]"]
      { commandMappings := Index.commandMappings, stackSize := 1 } (fun _ => JSValue.int 0) 2 1
      _ rfl).2.1 rfl).2.2 (by decide)⟩

/-- C4: when position `i` of the program holds the jump-forward symbol and the matcher
pairs it with position `j`, position `j` holds the jump-backwards symbol; executing the
instruction at `i` sets the instruction pointer to `j + 1` if the current cell is `0` and
to `i + 1` otherwise; executing the instruction at `j` sets it to `i + 1` if the current
cell is not `0` and to `j + 1` otherwise; the tape, the data pointer and the two
collaborators are left as they were. -/
theorem jump_semantics (cfg : RuntimeConfig) (onReadInput : Nat → JSValue)
    (program : List String) (stack : List JSValue) (dataPointer i j inputsRead : Nat)
    (outputs : List JSValue)
    (hi : program[i]? = some cfg.commandMappings.JUMP_FORWARD)
    (hm : _findMatchingToken program i cfg.commandMappings.JUMP_BACKWARDS = some j) :
    program[j]? = some cfg.commandMappings.JUMP_BACKWARDS ∧
    advance cfg onReadInput
        { state := { program := program, stack := stack, dataPointer := dataPointer,
                     instructionPointer := i },
          inputsRead := inputsRead, outputs := outputs } =
      Advance.yielded
        { state := { program := program, stack := stack, dataPointer := dataPointer,
                     instructionPointer :=
                       if stack.getD dataPointer JSValue.nonNumber = JSValue.int 0 then j + 1
                       else i + 1 },
          inputsRead := inputsRead, outputs := outputs } ∧
    advance cfg onReadInput
        { state := { program := program, stack := stack, dataPointer := dataPointer,
                     instructionPointer := j },
          inputsRead := inputsRead, outputs := outputs } =
      Advance.yielded
        { state := { program := program, stack := stack, dataPointer := dataPointer,
                     instructionPointer :=
                       if stack.getD dataPointer JSValue.nonNumber ≠ JSValue.int 0 then i + 1
                       else j + 1 },
          inputsRead := inputsRead, outputs := outputs } := by
  obtain ⟨hil, hie⟩ := List.getElem?_eq_some_iff.1 hi
  obtain ⟨hij, hj, hne, hback⟩ := findMatchingToken_symmetric program i j _ hil hm
  rw [hie] at hne hback
  refine ⟨hj, ?_, ?_⟩
  · have hc : commands cfg.commandMappings cfg.commandMappings.JUMP_FORWARD
        = some Command.jumpForward := by
      simp [commands, hne]
    simp only [advance, hi, hc, execute, jumpForward, hm, Except.map, RuntimeState.cell]
  · have hc : commands cfg.commandMappings cfg.commandMappings.JUMP_BACKWARDS
        = some Command.jumpBackwards := by
      simp [commands]
    simp only [advance, hj, hc, execute, jumpBackwards, hback, Except.map, RuntimeState.cell]

theorem jump_semantics_witness :
    ["+", "[", "-", "]"][1]? = some Index.parserConfig.commandMappings.JUMP_FORWARD ∧
    _findMatchingToken ["+", "[", "-", "]"] 1 Index.parserConfig.commandMappings.JUMP_BACKWARDS
      = some 3 ∧
    advance Index.parserConfig (fun _ => JSValue.int 0)
        { state := { program := ["+", "[", "-", "]"], stack := [JSValue.int 1],
                     dataPointer := 0, instructionPointer := 3 },
          inputsRead := 0, outputs := [] } =
      Advance.yielded
        { state := { program := ["+", "[", "-", "]"], stack := [JSValue.int 1],
                     dataPointer := 0,
                     instructionPointer :=
                       if [JSValue.int 1].getD 0 JSValue.nonNumber ≠ JSValue.int 0 then 1 + 1
                       else 3 + 1 },
          inputsRead := 0, outputs := [] } :=
  ⟨by decide, by decide,
    (jump_semantics Index.parserConfig (fun _ => JSValue.int 0) ["+", "[", "-", "]"]
      [JSValue.int 1] 0 1 3 0 [] (by decide) (by decide)).2.2⟩

/-- C5: a jump command throws the unmatched-bracket error, naming its own symbol and
the instruction position, exactly when the matcher answers `null` from that position
(ascending for the jump forward, descending for the jump backwards), whatever the tape
holds, and it returns a state otherwise; the program `]` alone yields the initial state
and then fails at instruction position `0`. -/
theorem unmatched_jump (cm : CommandMappings) (s : RuntimeState) (onReadInput : Nat → JSValue)
    (pulls : Nat) :
    (jumpForward cm s = Except.error (RuntimeError.unmatched cm.JUMP_FORWARD s.instructionPointer)
      ↔ _findMatchingToken s.program s.instructionPointer cm.JUMP_BACKWARDS = none) ∧
    ((∃ s', jumpForward cm s = Except.ok s')
      ↔ _findMatchingToken s.program s.instructionPointer cm.JUMP_BACKWARDS ≠ none) ∧
    (jumpBackwards cm s
        = Except.error (RuntimeError.unmatched cm.JUMP_BACKWARDS s.instructionPointer)
      ↔ _findMatchingToken s.program s.instructionPointer cm.JUMP_FORWARD Direction.desc
          = none) ∧
    ((∃ s', jumpBackwards cm s = Except.ok s')
      ↔ _findMatchingToken s.program s.instructionPointer cm.JUMP_FORWARD Direction.desc
          ≠ none) ∧
    (runtime ["]"] Index.parserConfig onReadInput (pulls + 1)).states
      = [_initState ["]"] Index.parserConfig.stackSize] ∧
    (runtime ["]"] Index.parserConfig onReadInput (pulls + 1)).outcome
      = Outcome.failed (RuntimeError.unmatched "]" 0) := by
  refine ⟨?_, ?_, ?_, ?_, rfl, rfl⟩
  · unfold jumpForward
    cases _findMatchingToken s.program s.instructionPointer cm.JUMP_BACKWARDS <;> simp
  · unfold jumpForward
    cases _findMatchingToken s.program s.instructionPointer cm.JUMP_BACKWARDS <;> simp
  · unfold jumpBackwards
    cases _findMatchingToken s.program s.instructionPointer cm.JUMP_FORWARD Direction.desc <;> simp
  · unfold jumpBackwards
    cases _findMatchingToken s.program s.instructionPointer cm.JUMP_FORWARD Direction.desc <;> simp

theorem readInputValue_error_iff (cfg : RuntimeConfig) (v : JSValue) (s : RuntimeState) :
    (∃ e, readInputValue cfg v s = Except.error e) ↔
      ¬ (v.isNumber = true ∧ v.lt 0 = false ∧ v.ge (cfg.cellSize : Int) = false) := by
  constructor
  · rintro ⟨e, he⟩ ⟨h1, h2, h3⟩
    have := (readInputValue_ok_iff cfg v s _).2 ⟨h1, h2, h3, rfl⟩
    rw [he] at this
    cases this
  · intro h
    cases hr : readInputValue cfg v s with
    | error e => exact ⟨e, rfl⟩
    | ok s' =>
        obtain ⟨h1, h2, h3, -⟩ := (readInputValue_ok_iff cfg v s s').1 hr
        exact absurd ⟨h1, h2, h3⟩ h

theorem inRange_iff (cellSize : Nat) (v : JSValue) (hv : v ≠ JSValue.nan) :
    (v.isNumber = true ∧ v.lt 0 = false ∧ v.ge (cellSize : Int) = false) ↔
      v.InRange cellSize := by
  cases v with
  | int z => simp [JSValue.isNumber, JSValue.lt, JSValue.ge, JSValue.InRange]
  | fraction q => simp [JSValue.isNumber, JSValue.lt, JSValue.ge, JSValue.InRange]
  | nan => exact absurd rfl hv
  | infinity negative =>
      cases negative <;> simp [JSValue.isNumber, JSValue.lt, JSValue.ge, JSValue.InRange]
  | nonNumber => simp [JSValue.isNumber, JSValue.InRange]

/-- C6, as the code has it: a number that is not an integer is accepted.  With the
configuration of the command line, the value `5/2` supplied to `,` is stored in the
current cell and the run ends normally. -/
theorem readInputValue_fraction_accepted :
    readInputValue Index.parserConfig (JSValue.fraction (5 / 2)) (_initState [","] 30) =
      Except.ok
        { program := [","],
          stack := JSValue.fraction (5 / 2) :: List.replicate 29 (JSValue.int 0),
          dataPointer := 0, instructionPointer := 1 } ∧
    (runtime [","] Index.parserConfig (fun _ => JSValue.fraction (5 / 2)) 2).outcome
      = Outcome.completed := by
  have h : readInputValue Index.parserConfig (JSValue.fraction (5 / 2)) (_initState [","] 30) =
      Except.ok
        { program := [","],
          stack := JSValue.fraction (5 / 2) :: List.replicate 29 (JSValue.int 0),
          dataPointer := 0, instructionPointer := 1 } := by
    rw [readInputValue_ok_iff]
    refine ⟨rfl, ?_, ?_, rfl⟩
    · simp only [JSValue.lt, decide_eq_false_iff_not]
      norm_num
    · simp only [JSValue.ge, decide_eq_false_iff_not, Index.parserConfig]
      norm_num
  refine ⟨h, ?_⟩
  have h0 : [","][0]? = some "," := rfl
  have hc : commands Index.parserConfig.commandMappings "," = some Command.readInputValue := by
    decide
  have h1 : ([","] : List String)[1]? = none := rfl
  simp only [runtime, runFrom, advance, _initState, h0, hc, execute] at h ⊢
  simp only [Index.parserConfig] at h ⊢
  simp only [h, Except.map, h1]

/-- C6, amended: for every supplied value other than `NaN`, the read-input command throws
exactly when the value is not a number `x` with `0 ≤ x < cellSize`, the error being one of
the two invalid-input errors; otherwise it stores the value in the current cell and
advances the instruction pointer by one.  With `cellSize = 255` the program `,` fails,
after the initial state, when the provider returns `300`. -/
theorem read_input_validation (cfg : RuntimeConfig) (v : JSValue) (s : RuntimeState)
    (pulls : Nat) (hv : v ≠ JSValue.nan) :
    ((∃ e, readInputValue cfg v s = Except.error e) ↔ ¬ v.InRange cfg.cellSize) ∧
    (∀ e, readInputValue cfg v s = Except.error e → e.isInvalidInput = true) ∧
    (v.InRange cfg.cellSize →
      readInputValue cfg v s = Except.ok
        { s with
          stack := _replaceInArray s.stack s.dataPointer v
          instructionPointer := s.instructionPointer + 1 }) ∧
    (runtime [","] Index.parserConfig (fun _ => JSValue.int 300) (pulls + 1)).states
      = [_initState [","] Index.parserConfig.stackSize] ∧
    (runtime [","] Index.parserConfig (fun _ => JSValue.int 300) (pulls + 1)).outcome
      = Outcome.failed (RuntimeError.inputOutOfRange 255 (JSValue.int 300) 0) := by
  refine ⟨?_, ?_, ?_, rfl, rfl⟩
  · rw [readInputValue_error_iff, inRange_iff _ _ hv]
  · intro e he
    unfold readInputValue at he
    split_ifs at he <;> cases he <;> rfl
  · intro h
    obtain ⟨h1, h2, h3⟩ := (inRange_iff cfg.cellSize v hv).2 h
    exact (readInputValue_ok_iff cfg v s _).2 ⟨h1, h2, h3, rfl⟩

theorem read_input_validation_witness :
    JSValue.int 300 ≠ JSValue.nan ∧
    ((∃ e, readInputValue Index.parserConfig (JSValue.int 300) (_initState [","] 30)
        = Except.error e) ↔ ¬ (JSValue.int 300).InRange Index.parserConfig.cellSize) :=
  ⟨by decide,
    (read_input_validation Index.parserConfig (JSValue.int 300) (_initState [","] 30) 0
      (by decide)).1⟩

theorem runFrom_incrementDataPointer (cfg : RuntimeConfig) (onReadInput : Nat → JSValue)
    (hc : commands cfg.commandMappings cfg.commandMappings.INCREMENT_DATA_POINTER
      = some Command.incrementDataPointer) :
    ∀ (d k pulls : Nat), k + d + 1 = cfg.stackSize → d < pulls →
      runFrom cfg onReadInput pulls
          { state :=
              { program := List.replicate cfg.stackSize cfg.commandMappings.INCREMENT_DATA_POINTER,
                stack := List.replicate cfg.stackSize (JSValue.int 0),
                dataPointer := k, instructionPointer := k },
            inputsRead := 0, outputs := [] } =
        { yielded := (List.range' (k + 1) d).map fun n =>
            { state :=
                { program :=
                    List.replicate cfg.stackSize cfg.commandMappings.INCREMENT_DATA_POINTER,
                  stack := List.replicate cfg.stackSize (JSValue.int 0),
                  dataPointer := n, instructionPointer := n },
              inputsRead := 0, outputs := [] },
          outcome := Outcome.failed
            (RuntimeError.dataPointerError (cfg.stackSize : Int) (cfg.stackSize - 1)) } := by
  intro d
  induction d with
  | zero =>
      intro k pulls hk hp
      obtain ⟨p, rfl⟩ : ∃ p, pulls = p + 1 := ⟨pulls - 1, by omega⟩
      have ht : (List.replicate cfg.stackSize cfg.commandMappings.INCREMENT_DATA_POINTER)[k]?
          = some cfg.commandMappings.INCREMENT_DATA_POINTER := by
        rw [List.getElem?_replicate]
        simp
        omega
      have hk' : cfg.stackSize - 1 = k := by omega
      simp only [runFrom, advance, ht, hc, execute, incrementDataPointer, Except.map]
      simp [show k + 1 = cfg.stackSize by omega, hk']
  | succ d ih =>
      intro k pulls hk hp
      obtain ⟨p, rfl⟩ : ∃ p, pulls = p + 1 := ⟨pulls - 1, by omega⟩
      have ht : (List.replicate cfg.stackSize cfg.commandMappings.INCREMENT_DATA_POINTER)[k]?
          = some cfg.commandMappings.INCREMENT_DATA_POINTER := by
        rw [List.getElem?_replicate]
        simp
        omega
      have hne : ¬ k + 1 = cfg.stackSize := by omega
      simp only [runFrom, advance, ht, hc, execute, incrementDataPointer, Except.map, hne, if_false]
      rw [ih (k + 1) p (by omega) (by omega)]
      simp [List.range'_succ]

/-- C7: on a tape of `N ≥ 1` cells, the program made of `N` increment-data-pointer
instructions yields exactly `N` states, the `k`-th with data pointer and instruction
pointer `k` and a tape of zeros, and then fails with the data pointer error reporting
position `N` at instruction position `N - 1`, however often the consumer pulls. -/
theorem run_off_right_end (cfg : RuntimeConfig) (onReadInput : Nat → JSValue) (pulls : Nat)
    (hN : 1 ≤ cfg.stackSize)
    (hc : commands cfg.commandMappings cfg.commandMappings.INCREMENT_DATA_POINTER
      = some Command.incrementDataPointer)
    (hp : cfg.stackSize ≤ pulls) :
    (runtime (List.replicate cfg.stackSize cfg.commandMappings.INCREMENT_DATA_POINTER) cfg
        onReadInput pulls).states =
      (List.range cfg.stackSize).map (fun k =>
        { program := List.replicate cfg.stackSize cfg.commandMappings.INCREMENT_DATA_POINTER,
          stack := List.replicate cfg.stackSize (JSValue.int 0),
          dataPointer := k, instructionPointer := k }) ∧
    (runtime (List.replicate cfg.stackSize cfg.commandMappings.INCREMENT_DATA_POINTER) cfg
        onReadInput pulls).outcome =
      Outcome.failed (RuntimeError.dataPointerError (cfg.stackSize : Int) (cfg.stackSize - 1)) := by
  have h := runFrom_incrementDataPointer cfg onReadInput hc (cfg.stackSize - 1) 0 pulls
    (by omega) (by omega)
  unfold runtime Run.states
  simp only [_initState]
  rw [h]
  refine ⟨?_, rfl⟩
  obtain ⟨n, hn⟩ : ∃ n, cfg.stackSize = n + 1 := ⟨cfg.stackSize - 1, by omega⟩
  rw [hn]
  simp [List.range_eq_range', List.range'_succ, Function.comp_def]

theorem run_off_right_end_witness :
    (runtime [">"] { commandMappings := Index.commandMappings, stackSize := 1 }
        (fun _ => JSValue.int 0) 1).states =
      [{ program := [">"], stack := [JSValue.int 0], dataPointer := 0,
         instructionPointer := 0 }] ∧
    (runtime [">"] { commandMappings := Index.commandMappings, stackSize := 1 }
        (fun _ => JSValue.int 0) 1).outcome =
      Outcome.failed (RuntimeError.dataPointerError 1 0) :=
  run_off_right_end { commandMappings := Index.commandMappings, stackSize := 1 }
    (fun _ => JSValue.int 0) 1 (by decide) (by decide) (by decide)

/-- How a run ended tells what the pull after the last machine gave. -/
theorem runFrom_outcome (cfg : RuntimeConfig) (onReadInput : Nat → JSValue) :
    ∀ (pulls : Nat) (m0 : Machine),
      ((runFrom cfg onReadInput pulls m0).outcome = Outcome.pending →
        (runFrom cfg onReadInput pulls m0).yielded.length = pulls) ∧
      ((runFrom cfg onReadInput pulls m0).outcome = Outcome.completed →
        ∃ m, (m0 :: (runFrom cfg onReadInput pulls m0).yielded)[
            (runFrom cfg onReadInput pulls m0).yielded.length]? = some m ∧
          advance cfg onReadInput m = Advance.finished) ∧
      (∀ e, (runFrom cfg onReadInput pulls m0).outcome = Outcome.failed e →
        ∃ m, (m0 :: (runFrom cfg onReadInput pulls m0).yielded)[
            (runFrom cfg onReadInput pulls m0).yielded.length]? = some m ∧
          advance cfg onReadInput m = Advance.failed e ∧
          (runFrom cfg onReadInput pulls m0).yielded.length < pulls) := by
  intro pulls
  induction pulls with
  | zero =>
      intro m0
      simp [runFrom]
  | succ pulls ih =>
      intro m0
      rw [runFrom]
      cases ha : advance cfg onReadInput m0 with
      | finished => simp [ha]
      | failed e =>
          refine ⟨by simp, by simp, ?_⟩
          intro e' he
          simp only [Outcome.failed.injEq] at he
          subst he
          exact ⟨m0, by simp, ha, by simp⟩
      | yielded m1 =>
          obtain ⟨h1, h2, h3⟩ := ih m1
          simp only [List.length_cons, List.getElem?_cons_succ]
          refine ⟨fun h => by rw [h1 h], h2, ?_⟩
          intro e he
          obtain ⟨m, hm1, hm2, hm3⟩ := h3 e he
          exact ⟨m, hm1, hm2, by omega⟩

theorem except_map_error {α β : Type} (f : α → β) (x : Except RuntimeError α) (e : RuntimeError)
    (h : x.map f = Except.error e) : x = Except.error e := by
  cases x with
  | error e' => simpa [Except.map] using h
  | ok a => simp [Except.map] at h

/-- The errors each command can throw. -/
theorem execute_error_kind (cfg : RuntimeConfig) (onReadInput : Nat → JSValue)
    (command : Command) (m : Machine) (e : RuntimeError)
    (h : execute cfg onReadInput command m = Except.error e) :
    ((command = Command.incrementDataPointer ∨ command = Command.decrementDataPointer) ∧
      ∃ p, e = RuntimeError.dataPointerError p m.state.instructionPointer) ∨
    (command = Command.readInputValue ∧ e.isInvalidInput = true) ∨
    ((command = Command.jumpForward ∨ command = Command.jumpBackwards) ∧
      ∃ t, e = RuntimeError.unmatched t m.state.instructionPointer) := by
  cases command <;> simp only [execute] at h
  · have hr := except_map_error _ _ _ h
    unfold incrementDataPointer at hr
    simp only [] at hr
    split_ifs at hr
    cases hr
    exact Or.inl ⟨Or.inl rfl, _, rfl⟩
  · have hr := except_map_error _ _ _ h
    unfold decrementDataPointer at hr
    simp only [] at hr
    split_ifs at hr
    cases hr
    exact Or.inl ⟨Or.inr rfl, _, rfl⟩
  · cases h
  · cases h
  · cases h
  · have hr := except_map_error _ _ _ h
    unfold readInputValue at hr
    split_ifs at hr <;> cases hr <;> exact Or.inr (Or.inl ⟨rfl, rfl⟩)
  · have hr := except_map_error _ _ _ h
    unfold jumpForward at hr
    split at hr
    · cases hr
      exact Or.inr (Or.inr ⟨Or.inl rfl, _, rfl⟩)
    · cases hr
  · have hr := except_map_error _ _ _ h
    unfold jumpBackwards at hr
    split at hr
    · cases hr
      exact Or.inr (Or.inr ⟨Or.inr rfl, _, rfl⟩)
    · cases hr

theorem execute_error_ne_invalidInstruction (cfg : RuntimeConfig) (onReadInput : Nat → JSValue)
    (command : Command) (m : Machine) (e : RuntimeError)
    (h : execute cfg onReadInput command m = Except.error e) (t : String) (k : Nat) :
    e ≠ RuntimeError.invalidInstruction t k := by
  intro he
  subst he
  rcases execute_error_kind cfg onReadInput command m _ h with
    ⟨-, p, hp⟩ | ⟨-, hp⟩ | ⟨-, p, hp⟩
  · cases hp
  · cases hp
  · cases hp

/-- The engine throws its own invalid-instruction error exactly at an instruction that
is neither a key of `commands` nor a name inherited from `Object.prototype`. -/
theorem advance_invalidInstruction_iff (cfg : RuntimeConfig) (onReadInput : Nat → JSValue)
    (m : Machine) (t : String) (k : Nat) :
    advance cfg onReadInput m = Advance.failed (RuntimeError.invalidInstruction t k) ↔
      m.state.instructionPointer = k ∧ m.state.program[k]? = some t ∧
        commands cfg.commandMappings t = none ∧ t ∉ objectPrototypeKeys := by
  constructor
  · intro h
    unfold advance at h
    cases h1 : m.state.program[m.state.instructionPointer]? with
    | none => rw [h1] at h; cases h
    | some t' =>
        rw [h1] at h
        simp only [] at h
        cases h2 : commands cfg.commandMappings t' with
        | none =>
            rw [h2] at h
            simp only [] at h
            split_ifs at h with hc hk
            · cases h
            · simp only [Advance.failed.injEq, RuntimeError.invalidInstruction.injEq] at h
              obtain ⟨rfl, rfl⟩ := h
              exact ⟨rfl, h1, h2, hk⟩
        | some command =>
            rw [h2] at h
            simp only [] at h
            cases h3 : execute cfg onReadInput command m with
            | error e =>
                rw [h3] at h
                simp only [Advance.failed.injEq] at h
                exact absurd h (execute_error_ne_invalidInstruction cfg onReadInput command m e h3 t k)
            | ok m' => rw [h3] at h; cases h
  · rintro ⟨rfl, h1, h2, h3⟩
    have hc : t ≠ "constructor" := by
      intro h
      rw [h] at h3
      exact h3 (by decide)
    unfold advance
    simp only [h1, h2, hc, h3, if_false]

theorem runFrom_constructor (cfg : RuntimeConfig) (onReadInput : Nat → JSValue) (m : Machine)
    (h : advance cfg onReadInput m = Advance.yielded m) :
    ∀ pulls, runFrom cfg onReadInput pulls m =
      { yielded := List.replicate pulls m, outcome := Outcome.pending } := by
  intro pulls
  induction pulls with
  | zero => rfl
  | succ pulls ih =>
      rw [runFrom, h]
      simp only [ih, List.replicate_succ]

/-- C8, as the code has it: an instruction that is none of the configured symbols is not
always rejected.  The name `constructor` is found in the prototype of the object
`commands`, so with the configuration of the command line the program made of the single
instruction `constructor` yields its initial state again at every pull and never fails,
whatever the number of pulls. -/
theorem constructor_never_rejected (onReadInput : Nat → JSValue) (pulls : Nat) :
    commands Index.parserConfig.commandMappings "constructor" = none ∧
    (runtime ["constructor"] Index.parserConfig onReadInput pulls).states =
      List.replicate (pulls + 1) (_initState ["constructor"] 30) ∧
    (runtime ["constructor"] Index.parserConfig onReadInput pulls).outcome
      = Outcome.pending := by
  have hc : commands Index.parserConfig.commandMappings "constructor" = none := by decide
  have hadv : advance Index.parserConfig onReadInput
      { state := _initState ["constructor"] Index.parserConfig.stackSize, inputsRead := 0,
        outputs := [] } =
      Advance.yielded
        { state := _initState ["constructor"] Index.parserConfig.stackSize, inputsRead := 0,
          outputs := [] } := by
    unfold advance
    have h0 : (_initState ["constructor"] Index.parserConfig.stackSize).program[
        (_initState ["constructor"] Index.parserConfig.stackSize).instructionPointer]?
        = some "constructor" := rfl
    simp only [h0, hc, if_true]
  refine ⟨hc, ?_, ?_⟩
  · unfold runtime Run.states
    simp only [runFrom_constructor _ _ _ hadv pulls, List.replicate_succ, List.map_cons,
      List.map_replicate]
    rfl
  · unfold runtime
    simp only [runFrom_constructor _ _ _ hadv pulls]

theorem advance_noJump (program : List String) (cfg : RuntimeConfig) (onReadInput : Nat → JSValue)
    (hnj : ∀ t ∈ program, (commands cfg.commandMappings t).isSome = true ∧
      commands cfg.commandMappings t ≠ some Command.jumpForward ∧
      commands cfg.commandMappings t ≠ some Command.jumpBackwards)
    (m m' : Machine) (hp : m.state.program = program)
    (h : advance cfg onReadInput m = Advance.yielded m') :
    m'.state.program = program ∧
      m'.state.instructionPointer = m.state.instructionPointer + 1 := by
  rcases advance_yielded_cases cfg onReadInput m m' h with
    ⟨hcon, hnone, -⟩ | ⟨t, command, ht, hc, he⟩
  · have hmem : "constructor" ∈ program := by
      rw [← hp]
      exact List.mem_iff_getElem?.2 ⟨_, hcon⟩
    have := (hnj _ hmem).1
    rw [hnone] at this
    cases this
  have htm : t ∈ program := by
    rw [← hp]
    exact List.mem_iff_getElem?.2 ⟨_, ht⟩
  obtain ⟨-, hf, hb⟩ := hnj t htm
  rw [hc] at hf hb
  rcases execute_ok_state cfg onReadInput command m m' he with
    ⟨-, h1⟩ | ⟨-, h1⟩ | ⟨-, h1⟩ | ⟨-, h1⟩ | ⟨-, h1⟩ | ⟨-, h1⟩ | ⟨hcmd, -⟩ | ⟨hcmd, -⟩
  · rw [((incrementDataPointer_ok_iff cfg m.state m'.state).1 h1).2]
    exact ⟨hp, rfl⟩
  · rw [((decrementDataPointer_ok_iff m.state m'.state).1 h1).2]
    exact ⟨hp, rfl⟩
  · rw [h1]
    exact ⟨hp, rfl⟩
  · rw [h1]
    exact ⟨hp, rfl⟩
  · rw [h1]
    exact ⟨hp, rfl⟩
  · rw [((readInputValue_ok_iff cfg _ m.state m'.state).1 h1).2.2.2]
    exact ⟨hp, rfl⟩
  · exact absurd (by rw [hcmd]) hf
  · exact absurd (by rw [hcmd]) hb

theorem runFrom_noJump_index (program : List String) (cfg : RuntimeConfig)
    (onReadInput : Nat → JSValue)
    (hnj : ∀ t ∈ program, (commands cfg.commandMappings t).isSome = true ∧
      commands cfg.commandMappings t ≠ some Command.jumpForward ∧
      commands cfg.commandMappings t ≠ some Command.jumpBackwards) :
    ∀ (pulls : Nat) (m0 : Machine), m0.state.program = program →
      ∀ (k : Nat) (m : Machine), (m0 :: (runFrom cfg onReadInput pulls m0).yielded)[k]? = some m →
        m.state.program = program ∧
          m.state.instructionPointer = m0.state.instructionPointer + k := by
  intro pulls
  induction pulls with
  | zero =>
      intro m0 hp k m hk
      cases k with
      | zero =>
          simp only [List.getElem?_cons_zero, Option.some.injEq] at hk
          subst hk
          exact ⟨hp, rfl⟩
      | succ k => simp [runFrom] at hk
  | succ pulls ih =>
      intro m0 hp k m hk
      cases k with
      | zero =>
          simp only [List.getElem?_cons_zero, Option.some.injEq] at hk
          subst hk
          exact ⟨hp, rfl⟩
      | succ k =>
          simp only [List.getElem?_cons_succ] at hk
          rw [runFrom] at hk
          cases ha : advance cfg onReadInput m0 with
          | finished => rw [ha] at hk; simp at hk
          | failed e => rw [ha] at hk; simp at hk
          | yielded m1 =>
              rw [ha] at hk
              simp only [] at hk
              obtain ⟨h1, h2⟩ := advance_noJump program cfg onReadInput hnj m0 m1 hp ha
              obtain ⟨h3, h4⟩ := ih m1 h1 k m hk
              exact ⟨h3, by rw [h4, h2]; omega⟩

/-- C9, as the code has it: a program without jumps can fail.  With the configuration of
the command line the program `<` yields the initial state only, one state and not two,
and then fails with the data pointer error. -/
theorem fails_without_jumps :
    (runtime ["<"] Index.parserConfig (fun _ => JSValue.int 0) 2).states
      = [_initState ["<"] 30] ∧
    (runtime ["<"] Index.parserConfig (fun _ => JSValue.int 0) 2).outcome
      = Outcome.failed (RuntimeError.dataPointerError (-1) 0) := by
  decide

/-- C9, amended: in a run of a program made only of the six instructions that are not
jumps, unless an instruction fails, the run ends normally with program length + 1
states, the last of them with the instruction pointer at the program length.  The run
is pulled to its end: `pulls`, the number of pulls after the one that yields the
initial state, exceeds the program length. -/
theorem no_jump_run (program : List String) (cfg : RuntimeConfig) (onReadInput : Nat → JSValue)
    (pulls : Nat)
    (hnj : ∀ t ∈ program, (commands cfg.commandMappings t).isSome = true ∧
      commands cfg.commandMappings t ≠ some Command.jumpForward ∧
      commands cfg.commandMappings t ≠ some Command.jumpBackwards)
    (hp : program.length < pulls) :
    (∃ e, (runtime program cfg onReadInput pulls).outcome = Outcome.failed e) ∨
    ((runtime program cfg onReadInput pulls).outcome = Outcome.completed ∧
      (runtime program cfg onReadInput pulls).states.length = program.length + 1 ∧
      ∃ m, (runtime program cfg onReadInput pulls).yielded.getLast? = some m ∧
        m.state.instructionPointer = program.length) := by
  have hidx : ∀ (k : Nat) (m : Machine), (runtime program cfg onReadInput pulls).yielded[k]? = some m →
      m.state.program = program ∧ m.state.instructionPointer = k := by
    intro k m hk
    unfold runtime at hk
    simp only [] at hk
    have := runFrom_noJump_index program cfg onReadInput hnj pulls _ rfl k m hk
    simpa [_initState] using this
  have hpos : 0 < (runtime program cfg onReadInput pulls).yielded.length := by
    unfold runtime
    simp
  have hsl : (runtime program cfg onReadInput pulls).states.length
      = (runtime program cfg onReadInput pulls).yielded.length := by
    unfold Run.states
    rw [List.length_map]
  have hlen : (runtime program cfg onReadInput pulls).yielded.length ≤ program.length + 1 := by
    have hget : (runtime program cfg onReadInput pulls).yielded[
        (runtime program cfg onReadInput pulls).yielded.length - 1]? =
        some ((runtime program cfg onReadInput pulls).yielded[
          (runtime program cfg onReadInput pulls).yielded.length - 1]) :=
      List.getElem?_eq_getElem (by omega)
    have h1 := (hidx _ _ hget).2
    have h2 := (runtime_instructionPointer program cfg onReadInput pulls _
      (List.mem_iff_getElem?.2 ⟨_, hget⟩)).2
    omega
  cases hout : (runtime program cfg onReadInput pulls).outcome with
  | failed e => exact Or.inl ⟨e, rfl⟩
  | pending =>
      exfalso
      have h1 : (runtime program cfg onReadInput pulls).yielded.length = pulls + 1 := by
        unfold runtime at hout ⊢
        simp only [List.length_cons] at hout ⊢
        rw [(runFrom_outcome cfg onReadInput pulls _).1 hout]
      omega
  | completed =>
      refine Or.inr ⟨rfl, ?_⟩
      have hcomp' := hout
      unfold runtime at hcomp'
      simp only [] at hcomp'
      obtain ⟨m, hm1, hm2⟩ := (runFrom_outcome cfg onReadInput pulls _).2.1 hcomp'
      have hm1' : (runtime program cfg onReadInput pulls).yielded[
          (runtime program cfg onReadInput pulls).yielded.length - 1]? = some m := by
        unfold runtime
        simpa using hm1
      obtain ⟨hpm, hip⟩ := hidx _ m hm1'
      have hfin := (advance_finished_iff cfg onReadInput m).1 hm2
      rw [hpm] at hfin
      refine ⟨by omega, m, ?_, by omega⟩
      rw [List.getLast?_eq_getElem?]
      exact hm1'

theorem no_jump_run_witness :
    (∀ t ∈ ["+", "."], (commands Index.parserConfig.commandMappings t).isSome = true ∧
      commands Index.parserConfig.commandMappings t ≠ some Command.jumpForward ∧
      commands Index.parserConfig.commandMappings t ≠ some Command.jumpBackwards) ∧
    ["+", "."].length < 3 ∧
    ((∃ e, (runtime ["+", "."] Index.parserConfig (fun _ => JSValue.int 0) 3).outcome
        = Outcome.failed e) ∨
    ((runtime ["+", "."] Index.parserConfig (fun _ => JSValue.int 0) 3).outcome
        = Outcome.completed ∧
      (runtime ["+", "."] Index.parserConfig (fun _ => JSValue.int 0) 3).states.length
        = ["+", "."].length + 1 ∧
      ∃ m, (runtime ["+", "."] Index.parserConfig (fun _ => JSValue.int 0) 3).yielded.getLast?
          = some m ∧ m.state.instructionPointer = ["+", "."].length)) :=
  ⟨by decide, by decide,
    no_jump_run ["+", "."] Index.parserConfig (fun _ => JSValue.int 0) 3 (by decide)
      (by decide)⟩

/-- C10, as the code has it: at the last position of the tape the increment of the data
pointer fails.  On a tape of one cell, position `0` is valid and the command throws. -/
theorem increment_fails_at_last_cell :
    (_initState [">", "<"] 1).dataPointer < 1 ∧
    incrementDataPointer { commandMappings := Index.commandMappings, stackSize := 1 }
        (_initState [">", "<"] 1) =
      Except.error (RuntimeError.dataPointerError 1 0) :=
  ⟨by decide, rfl⟩

/-- C10, amended: from a state whose data pointer `d` is not the last position of the
tape (`d + 1 < N`), incrementing and then decrementing the data pointer succeeds and
gives back the same state with the instruction pointer advanced by two: the data pointer
is `d` again and the tape is the same.  At the last position (`d + 1 = N`) the increment
throws the data pointer error. -/
theorem pointer_round_trip (cfg : RuntimeConfig) (s : RuntimeState)
    (hd : s.dataPointer + 1 < cfg.stackSize) :
    ∃ s1, incrementDataPointer cfg s = Except.ok s1 ∧
      s1.dataPointer = s.dataPointer + 1 ∧
      decrementDataPointer s1 =
        Except.ok { s with instructionPointer := s.instructionPointer + 2 } := by
  refine ⟨{ s with
    dataPointer := s.dataPointer + 1, instructionPointer := s.instructionPointer + 1 }, ?_, rfl, ?_⟩
  · exact (incrementDataPointer_ok_iff cfg s _).2 ⟨by omega, rfl⟩
  · exact (decrementDataPointer_ok_iff _ _).2 ⟨by simp, by simp⟩

theorem pointer_round_trip_witness :
    (_initState [">", "<"] 30).dataPointer + 1 < Index.parserConfig.stackSize ∧
    ∃ s1, incrementDataPointer Index.parserConfig (_initState [">", "<"] 30) = Except.ok s1 ∧
      s1.dataPointer = (_initState [">", "<"] 30).dataPointer + 1 ∧
      decrementDataPointer s1 =
        Except.ok { _initState [">", "<"] 30 with
          instructionPointer := (_initState [">", "<"] 30).instructionPointer + 2 } :=
  ⟨by decide, pointer_round_trip Index.parserConfig (_initState [">", "<"] 30) (by decide)⟩

/-! ## The bracket matcher, continued -/

/-- The descending match of an existing position `j` is a position `i` before `j` that
holds the matching token, and the ascending match of `i` is `j`. -/
theorem findMatchingToken_symmetric_desc (tokens : List String) (i j : Nat) (c : String)
    (hj : j < tokens.length) (h : _findMatchingToken tokens j c Direction.desc = some i) :
    i < j ∧ tokens[i]? = some c ∧ tokens[j] ≠ c ∧
      _findMatchingToken tokens i tokens[j] = some j := by
  obtain ⟨h1, h2, h3⟩ := (findMatchingToken_desc_iff tokens j c i hj).1 h
  have hil : i < tokens.length := by omega
  have hLi := levelUpTo_succ (some tokens[j]) c tokens i hil
  have hd : nestingChange (some tokens[j]) c tokens[i] < 0 := by
    by_cases hij : i + 1 = j + 1
    · omega
    · have := h3 (i + 1) (by omega) (by omega)
      omega
  have hic : tokens[i] = c ∧ tokens[i] ≠ tokens[j] := by
    unfold nestingChange at hd
    by_cases e1 : some tokens[i] = some tokens[j]
    · rw [if_pos e1] at hd
      omega
    · rw [if_neg e1] at hd
      by_cases e2 : tokens[i] = c
      · exact ⟨e2, fun e => e1 (by rw [e])⟩
      · rw [if_neg e2] at hd
        omega
  have hbc : tokens[j] ≠ c := fun e => hic.2 (by rw [hic.1, e])
  refine ⟨h1, by rw [List.getElem?_eq_getElem hil, hic.1], hbc, ?_⟩
  rw [findMatchingToken_asc_iff tokens i tokens[j] j hil, hic.1]
  refine ⟨h1, hj, ?_, ?_⟩
  · rw [levelUpTo_swap _ _ _ _ hbc, levelUpTo_swap _ _ _ _ hbc, h2]
  · intro k hk1 hk2
    rw [levelUpTo_swap _ _ _ _ hbc, levelUpTo_swap _ _ _ _ hbc]
    have := h3 k hk1 hk2
    omega

/-- C20: when position `j` holds the jump-backwards symbol, the current cell is not `0`
and the descending match of `j` is `i`, then position `i` holds the jump-forward symbol,
its ascending match exists and is `j`, and executing the jump backwards at `j` gives
exactly the state that executing the jump forward at `i` gives, with instruction
pointer `i + 1`. -/
theorem back_jump_shortcut (cfg : RuntimeConfig) (onReadInput : Nat → JSValue)
    (program : List String) (stack : List JSValue) (dataPointer i j inputsRead : Nat)
    (outputs : List JSValue)
    (hj : program[j]? = some cfg.commandMappings.JUMP_BACKWARDS)
    (hcell : stack.getD dataPointer JSValue.nonNumber ≠ JSValue.int 0)
    (hm : _findMatchingToken program j cfg.commandMappings.JUMP_FORWARD Direction.desc
      = some i) :
    program[i]? = some cfg.commandMappings.JUMP_FORWARD ∧
    _findMatchingToken program i cfg.commandMappings.JUMP_BACKWARDS = some j ∧
    jumpBackwards cfg.commandMappings
        { program := program, stack := stack, dataPointer := dataPointer,
          instructionPointer := j } =
      jumpForward cfg.commandMappings
        { program := program, stack := stack, dataPointer := dataPointer,
          instructionPointer := i } ∧
    advance cfg onReadInput
        { state := { program := program, stack := stack, dataPointer := dataPointer,
                     instructionPointer := j },
          inputsRead := inputsRead, outputs := outputs } =
      Advance.yielded
        { state := { program := program, stack := stack, dataPointer := dataPointer,
                     instructionPointer := i + 1 },
          inputsRead := inputsRead, outputs := outputs } ∧
    advance cfg onReadInput
        { state := { program := program, stack := stack, dataPointer := dataPointer,
                     instructionPointer := i },
          inputsRead := inputsRead, outputs := outputs } =
      Advance.yielded
        { state := { program := program, stack := stack, dataPointer := dataPointer,
                     instructionPointer := i + 1 },
          inputsRead := inputsRead, outputs := outputs } := by
  obtain ⟨hjl, hje⟩ := List.getElem?_eq_some_iff.1 hj
  obtain ⟨hij, hi, hne, hfwd⟩ := findMatchingToken_symmetric_desc program i j _ hjl hm
  rw [hje] at hne hfwd
  have hcf : commands cfg.commandMappings cfg.commandMappings.JUMP_FORWARD
      = some Command.jumpForward := by
    simp [commands, Ne.symm hne]
  have hcb : commands cfg.commandMappings cfg.commandMappings.JUMP_BACKWARDS
      = some Command.jumpBackwards := by
    simp [commands]
  refine ⟨hi, hfwd, ?_, ?_, ?_⟩
  · simp only [jumpBackwards, jumpForward, hm, hfwd, RuntimeState.cell, hcell, ne_eq,
      not_false_eq_true, if_true, if_false]
  · simp only [advance, hj, hcb, execute, jumpBackwards, hm, Except.map, RuntimeState.cell,
      hcell, ne_eq, not_false_eq_true, if_true]
  · simp only [advance, hi, hcf, execute, jumpForward, hfwd, Except.map, RuntimeState.cell,
      hcell, if_false]

theorem back_jump_shortcut_witness :
    ["+", "[", "-", "]"][3]? = some Index.parserConfig.commandMappings.JUMP_BACKWARDS ∧
    [JSValue.int 1].getD 0 JSValue.nonNumber ≠ JSValue.int 0 ∧
    _findMatchingToken ["+", "[", "-", "]"] 3 Index.parserConfig.commandMappings.JUMP_FORWARD
      Direction.desc = some 1 ∧
    jumpBackwards Index.parserConfig.commandMappings
        { program := ["+", "[", "-", "]"], stack := [JSValue.int 1], dataPointer := 0,
          instructionPointer := 3 } =
      jumpForward Index.parserConfig.commandMappings
        { program := ["+", "[", "-", "]"], stack := [JSValue.int 1], dataPointer := 0,
          instructionPointer := 1 } :=
  ⟨by decide, by decide, by decide,
    (back_jump_shortcut Index.parserConfig (fun _ => JSValue.int 0) ["+", "[", "-", "]"]
      [JSValue.int 1] 0 1 3 0 [] (by decide) (by decide) (by decide)).2.2.1⟩

theorem sum_nestingChange (s t : String) (hst : s ≠ t) (l : List String) :
    (l.map (nestingChange (some s) t)).sum = (l.count s : Int) - (l.count t : Int) := by
  induction l with
  | nil => simp
  | cons x l ih =>
      simp only [List.map_cons, List.sum_cons, ih, List.count_cons, nestingChange]
      by_cases h1 : x = s
      · subst h1
        simp [hst]
        omega
      · by_cases h2 : x = t
        · subst h2
          simp [h1]
          omega
        · simp [h1, h2]

theorem levelUpTo_eq_depthUpTo (s t : String) (hst : s ≠ t) (program : List String) (k : Nat) :
    levelUpTo (some s) t program k = depthUpTo s t program k := by
  unfold levelUpTo depthUpTo
  exact sum_nestingChange s t hst _

theorem segmentBalanced_iff (program : List String) (s t : String) (hst : s ≠ t) (a b : Nat)
    (hab : a ≤ b + 1) :
    SegmentBalanced program s t a b ↔
      levelUpTo (some s) t program (b + 1) = levelUpTo (some s) t program a := by
  have hsplit : program.take (b + 1) = program.take a ++ segment program a b := by
    unfold segment
    have h := List.take_append_drop a (program.take (b + 1))
    rw [List.take_take, Nat.min_eq_left hab] at h
    exact h.symm
  unfold SegmentBalanced
  rw [levelUpTo_eq_depthUpTo s t hst, levelUpTo_eq_depthUpTo s t hst]
  unfold depthUpTo
  rw [hsplit, List.count_append, List.count_append]
  constructor
  · intro h
    rw [h]
    push_cast
    ring
  · intro h
    push_cast at h
    have h' : ((segment program a b).count s : Int) = ((segment program a b).count t : Int) := by
      linarith
    exact_mod_cast h'

/-- C15: in a well-formed program (with different opening and closing symbols), the
ascending search from a position `i` that holds an opening jump returns a position `j`,
and the descending search from `j` for the opening symbol returns `i`. -/
theorem matching_symmetric_of_balanced (cm : CommandMappings) (program : List String) (i : Nat)
    (hne : cm.JUMP_FORWARD ≠ cm.JUMP_BACKWARDS)
    (hb : Balanced cm.JUMP_FORWARD cm.JUMP_BACKWARDS program)
    (hi : program[i]? = some cm.JUMP_FORWARD) :
    ∃ j, _findMatchingToken program i cm.JUMP_BACKWARDS = some j ∧
      _findMatchingToken program j cm.JUMP_FORWARD Direction.desc = some i := by
  obtain ⟨hil, hie⟩ := List.getElem?_eq_some_iff.1 hi
  obtain ⟨hb1, hb2⟩ := hb
  have hD : ∀ k, levelUpTo (some program[i]) cm.JUMP_BACKWARDS program k
      = depthUpTo cm.JUMP_FORWARD cm.JUMP_BACKWARDS program k := by
    intro k
    rw [hie]
    exact levelUpTo_eq_depthUpTo _ _ hne program k
  have hstep : levelUpTo (some program[i]) cm.JUMP_BACKWARDS program (i + 1)
      = levelUpTo (some program[i]) cm.JUMP_BACKWARDS program i + 1 := by
    rw [levelUpTo_succ _ _ _ _ hil]
    simp [nestingChange]
  have hex : ∃ k, i + 1 < k ∧ k ≤ program.length ∧
      levelUpTo (some program[i]) cm.JUMP_BACKWARDS program k
        ≤ levelUpTo (some program[i]) cm.JUMP_BACKWARDS program i := by
    refine ⟨program.length, ?_, le_refl _, ?_⟩
    · by_contra hlt
      have hlen : i + 1 = program.length := by omega
      have h0 := hb1 i (by omega)
      rw [← hD] at h0
      rw [← hD, ← hlen, hstep] at hb2
      omega
    · rw [hD, hD, hb2]
      exact hb1 i (by omega)
  have hk0 := Nat.find_spec hex
  have hmin := fun k (h : k < Nat.find hex) => Nat.find_min hex h
  obtain ⟨r, hr⟩ : ∃ r, Nat.find hex = r + 1 := ⟨Nat.find hex - 1, by omega⟩
  rw [hr] at hk0 hmin
  have hgt : ∀ k, i < k → k ≤ r →
      levelUpTo (some program[i]) cm.JUMP_BACKWARDS program i
        < levelUpTo (some program[i]) cm.JUMP_BACKWARDS program k := by
    intro k hk1 hk2
    by_cases hk : k = i + 1
    · rw [hk, hstep]
      omega
    · have := hmin k (by omega)
      simp only [not_and, not_le] at this
      exact this (by omega) (by omega)
  have hrl : r < program.length := by omega
  have hLr := levelUpTo_succ (some program[i]) cm.JUMP_BACKWARDS program r hrl
  have hge := nestingChange_ge (some program[i]) cm.JUMP_BACKWARDS program[r]
  have hr1 := hgt r (by omega) (le_refl _)
  have hfwd : _findMatchingToken program i cm.JUMP_BACKWARDS = some r := by
    rw [findMatchingToken_asc_iff program i _ r hil]
    exact ⟨by omega, hrl, by omega, hgt⟩
  refine ⟨r, hfwd, ?_⟩
  have := (findMatchingToken_symmetric program i r _ hil hfwd).2.2.2
  rw [hie] at this
  exact this

theorem matching_symmetric_of_balanced_witness :
    Index.commandMappings.JUMP_FORWARD ≠ Index.commandMappings.JUMP_BACKWARDS ∧
    Balanced Index.commandMappings.JUMP_FORWARD Index.commandMappings.JUMP_BACKWARDS
      ["[", "[", "-", "]", "]"] ∧
    ["[", "[", "-", "]", "]"][1]? = some Index.commandMappings.JUMP_FORWARD ∧
    ∃ j, _findMatchingToken ["[", "[", "-", "]", "]"] 1 Index.commandMappings.JUMP_BACKWARDS
        = some j ∧
      _findMatchingToken ["[", "[", "-", "]", "]"] j Index.commandMappings.JUMP_FORWARD
        Direction.desc = some 1 :=
  ⟨by decide, by decide, by decide,
    matching_symmetric_of_balanced Index.commandMappings ["[", "[", "-", "]", "]"] 1
      (by decide) (by decide) (by decide)⟩

theorem findMatchingToken_asc_reference (program : List String) (i j : Nat) (t : String)
    (hi : i < program.length) (ht : program[i] ≠ t) :
    _findMatchingToken program i t = some j ↔ ReferenceAscending program program[i] t i j := by
  have hstep : levelUpTo (some program[i]) t program (i + 1)
      = levelUpTo (some program[i]) t program i + 1 := by
    rw [levelUpTo_succ _ _ _ _ hi]
    simp [nestingChange]
  rw [findMatchingToken_asc_iff program i t j hi]
  unfold ReferenceAscending
  constructor
  · rintro ⟨h1, h2, h3, h4⟩
    refine ⟨by omega, h2, (segmentBalanced_iff program _ t ht i j (by omega)).2 h3, ?_⟩
    intro j' hj1 hj2 hsb
    have h5 := (segmentBalanced_iff program _ t ht i j' (by omega)).1 hsb
    have h6 := h4 (j' + 1) (by omega) (by omega)
    omega
  · rintro ⟨h1, h2, h3, h4⟩
    have h5 := (segmentBalanced_iff program _ t ht i j (by omega)).1 h3
    have hij : i < j := by
      by_contra hcon
      have : j = i := by omega
      subst this
      omega
    refine ⟨hij, h2, h5, ?_⟩
    have hall : ∀ n, i + 1 + n ≤ j →
        levelUpTo (some program[i]) t program i
          < levelUpTo (some program[i]) t program (i + 1 + n) := by
      intro n
      induction n with
      | zero =>
          intro _
          rw [Nat.add_zero, hstep]
          omega
      | succ n ih =>
          intro hn
          have h6 := ih (by omega)
          have hL := levelUpTo_succ (some program[i]) t program (i + 1 + n) (by omega)
          have hge := nestingChange_ge (some program[i]) t program[i + 1 + n]
          have h7 : ¬ SegmentBalanced program program[i] t i (i + 1 + n) :=
            h4 (i + 1 + n) (by omega) (by omega)
          rw [segmentBalanced_iff program _ t ht i (i + 1 + n) (by omega)] at h7
          have h8 : i + 1 + (n + 1) = i + 1 + n + 1 := by omega
          rw [h8]
          omega
    intro k hk1 hk2
    have := hall (k - (i + 1)) (by omega)
    rw [show i + 1 + (k - (i + 1)) = k by omega] at this
    exact this

theorem findMatchingToken_desc_reference (program : List String) (i j : Nat) (t : String)
    (hi : i < program.length) (ht : program[i] ≠ t) :
    _findMatchingToken program i t Direction.desc = some j ↔
      ReferenceDescending program program[i] t i j := by
  have hstep : levelUpTo (some program[i]) t program (i + 1)
      = levelUpTo (some program[i]) t program i + 1 := by
    rw [levelUpTo_succ _ _ _ _ hi]
    simp [nestingChange]
  rw [findMatchingToken_desc_iff program i t j hi]
  unfold ReferenceDescending
  constructor
  · rintro ⟨h1, h2, h3⟩
    refine ⟨by omega, (segmentBalanced_iff program _ t ht j i (by omega)).2 h2, ?_⟩
    intro j' hj1 hj2 hsb
    have h5 := (segmentBalanced_iff program _ t ht j' i (by omega)).1 hsb
    have h6 := h3 j' hj1 hj2
    omega
  · rintro ⟨h1, h2, h3⟩
    have h5 := (segmentBalanced_iff program _ t ht j i (by omega)).1 h2
    have hji : j < i := by
      by_contra hcon
      have : j = i := by omega
      subst this
      omega
    refine ⟨hji, h5, ?_⟩
    have hall : ∀ n, n ≤ i → j < i - n →
        levelUpTo (some program[i]) t program (i - n)
          < levelUpTo (some program[i]) t program (i + 1) := by
      intro n
      induction n with
      | zero =>
          intro _ _
          rw [Nat.sub_zero, hstep]
          omega
      | succ n ih =>
          intro hn hjn
          have h6 := ih (by omega) (by omega)
          have hL := levelUpTo_succ (some program[i]) t program (i - (n + 1)) (by omega)
          have hge := nestingChange_ge (some program[i]) t program[i - (n + 1)]
          have h7 : ¬ SegmentBalanced program program[i] t (i - (n + 1)) i :=
            h3 (i - (n + 1)) hjn (by omega)
          rw [segmentBalanced_iff program _ t ht (i - (n + 1)) i (by omega)] at h7
          have h8 : i - (n + 1) + 1 = i - n := by omega
          rw [h8] at hL
          omega
    intro k hk1 hk2
    have := hall (i - k) (by omega) (by omega)
    rw [show i - (i - k) = k by omega] at this
    exact this

/-- C18: from a position `i` of the program that holds `s`, and for a target `t ≠ s`,
the ascending search returns `j` exactly when `j` is the first position from `i` on at
which the numbers of `s` and `t` seen since `i` are equal, and `null` exactly when
there is no such position; the descending search returns `j` exactly when `j` is the
last position up to `i` from which those numbers are equal, and `null` exactly when
there is none; a position returned is never `i` and holds `t`. -/
theorem matcher_reference (program : List String) (i : Nat) (t : String)
    (hi : i < program.length) (ht : program[i] ≠ t) :
    (∀ j, _findMatchingToken program i t = some j ↔
      ReferenceAscending program program[i] t i j) ∧
    (_findMatchingToken program i t = none ↔
      ¬ ∃ j, i ≤ j ∧ j < program.length ∧ SegmentBalanced program program[i] t i j) ∧
    (∀ j, _findMatchingToken program i t Direction.desc = some j ↔
      ReferenceDescending program program[i] t i j) ∧
    (_findMatchingToken program i t Direction.desc = none ↔
      ¬ ∃ j, j ≤ i ∧ SegmentBalanced program program[i] t j i) ∧
    (∀ d j, _findMatchingToken program i t d = some j → j ≠ i ∧ program[j]? = some t) := by
  refine ⟨fun j => findMatchingToken_asc_reference program i j t hi ht, ?_,
    fun j => findMatchingToken_desc_reference program i j t hi ht, ?_, ?_⟩
  · constructor
    · rintro hnone ⟨j, hj⟩
      have hex : ∃ j, i ≤ j ∧ j < program.length ∧ SegmentBalanced program program[i] t i j :=
        ⟨j, hj⟩
      have hspec := Nat.find_spec hex
      have href : ReferenceAscending program program[i] t i (Nat.find hex) :=
        ⟨hspec.1, hspec.2.1, hspec.2.2, fun j' h1 h2 hsb =>
          Nat.find_min hex h2 ⟨h1, by omega, hsb⟩⟩
      rw [← findMatchingToken_asc_reference program i _ t hi ht, hnone] at href
      cases href
    · intro hno
      cases hf : _findMatchingToken program i t with
      | none => rfl
      | some j =>
          obtain ⟨h1, h2, h3, -⟩ := (findMatchingToken_asc_reference program i j t hi ht).1 hf
          exact absurd ⟨j, h1, h2, h3⟩ hno
  · constructor
    · rintro hnone ⟨j, hj1, hj2⟩
      have hex : ∃ d, d ≤ i ∧ SegmentBalanced program program[i] t (i - d) i :=
        ⟨i - j, by omega, by rw [show i - (i - j) = j by omega]; exact hj2⟩
      have hspec := Nat.find_spec hex
      have href : ReferenceDescending program program[i] t i (i - Nat.find hex) :=
        ⟨by omega, hspec.2, fun j' h1 h2 hsb =>
          Nat.find_min hex (show i - j' < Nat.find hex by omega)
            ⟨by omega, by rw [show i - (i - j') = j' by omega]; exact hsb⟩⟩
      rw [← findMatchingToken_desc_reference program i _ t hi ht, hnone] at href
      cases href
    · intro hno
      cases hf : _findMatchingToken program i t Direction.desc with
      | none => rfl
      | some j =>
          obtain ⟨h1, h2, -⟩ := (findMatchingToken_desc_reference program i j t hi ht).1 hf
          exact absurd ⟨j, h1, h2⟩ hno
  · intro d j hf
    cases d with
    | asc =>
        obtain ⟨h1, h2, -, -⟩ := findMatchingToken_symmetric program i j t hi hf
        exact ⟨by omega, h2⟩
    | desc =>
        obtain ⟨h1, h2, -, -⟩ := findMatchingToken_symmetric_desc program j i t hi hf
        exact ⟨by omega, h2⟩

theorem matcher_reference_witness :
    (∀ j, _findMatchingToken ["[", "[", "-", "]", "]"] 0 "]" = some j ↔
      ReferenceAscending ["[", "[", "-", "]", "]"] "[" "]" 0 j) ∧
    ReferenceAscending ["[", "[", "-", "]", "]"] "[" "]" 0 4 :=
  ⟨(matcher_reference ["[", "[", "-", "]", "]"] 0 "]" (by decide) (by decide)).1,
    ((matcher_reference ["[", "[", "-", "]", "]"] 0 "]" (by decide) (by decide)).1 4).1
      (by decide)⟩

/-! ## Cell arithmetic -/

theorem replaceInArray_eq_set {α : Type} (array : List α) (position : Nat) (value : α)
    (h : position < array.length) :
    _replaceInArray array position value = array.set position value := by
  unfold _replaceInArray
  rw [List.set_eq_take_append_cons_drop, if_pos h]

theorem cell_eq_of_getElem? (s : RuntimeState) (x : JSValue)
    (h : s.stack[s.dataPointer]? = some x) : s.cell = x := by
  unfold RuntimeState.cell
  rw [List.getD_eq_getElem?_getD, h]
  rfl

theorem tmod_natCast (a n : Nat) : Int.tmod (a : Int) (n : Int) = ((a % n : Nat) : Int) := by
  rw [Int.tmod_eq_emod (by omega) (by omega)]
  norm_cast

/-- On a cell holding the natural number `v`, with `v + 1` a double, the increment stores
`(v + 1) mod cellSize`. -/
theorem incrementDataValue_nat (cfg : RuntimeConfig) (s : RuntimeState) (v : Nat)
    (hcs : 1 ≤ cfg.cellSize) (hv : s.stack[s.dataPointer]? = some (JSValue.int (v : Int)))
    (hex : v + 1 ≤ 2 ^ 53) :
    incrementDataValue cfg s =
      { s with
        stack := s.stack.set s.dataPointer (JSValue.int (((v + 1) % cfg.cellSize : Nat) : Int))
        instructionPointer := s.instructionPointer + 1 } := by
  have hdp : s.dataPointer < s.stack.length := (List.getElem?_eq_some_iff.1 hv).1
  have hcs0 : cfg.cellSize ≠ 0 := by omega
  unfold incrementDataValue
  rw [cell_eq_of_getElem? s _ hv]
  simp only [JSValue.add, JSValue.mod, hcs0, if_false]
  rw [replaceInArray_eq_set _ _ _ hdp, roundInt_of_le _ (by omega) (by omega)]
  rw [show ((v : Int) + 1) = ((v + 1 : Nat) : Int) by push_cast; rfl, tmod_natCast]

/-- On a cell holding the natural number `v`, with `v + cellSize` a double, the decrement
stores `(v + cellSize - 1) mod cellSize`. -/
theorem decrementDataValue_nat (cfg : RuntimeConfig) (s : RuntimeState) (v : Nat)
    (hcs : 1 ≤ cfg.cellSize) (hv : s.stack[s.dataPointer]? = some (JSValue.int (v : Int)))
    (hex : v + cfg.cellSize ≤ 2 ^ 53) :
    decrementDataValue cfg s =
      { s with
        stack := s.stack.set s.dataPointer
          (JSValue.int (((v + (cfg.cellSize - 1)) % cfg.cellSize : Nat) : Int))
        instructionPointer := s.instructionPointer + 1 } := by
  have hdp : s.dataPointer < s.stack.length := (List.getElem?_eq_some_iff.1 hv).1
  have hcs0 : cfg.cellSize ≠ 0 := by omega
  unfold decrementDataValue
  rw [cell_eq_of_getElem? s _ hv]
  simp only [JSValue.add, JSValue.mod, hcs0, if_false]
  rw [replaceInArray_eq_set _ _ _ hdp, roundInt_of_le ((v : Int) + (cfg.cellSize : Int))
    (by omega) (by omega), roundInt_of_le _ (by omega) (by omega)]
  rw [show ((v : Int) + (cfg.cellSize : Int) + -1) = ((v + (cfg.cellSize - 1) : Nat) : Int) by
    omega, tmod_natCast]

theorem iterate_incrementDataValue (cfg : RuntimeConfig) (s : RuntimeState) (v : Nat)
    (hcs : 1 ≤ cfg.cellSize) (hv : s.stack[s.dataPointer]? = some (JSValue.int (v : Int)))
    (hlt : v < cfg.cellSize) (hb : cfg.cellSize ≤ 2 ^ 53) (k : Nat) (hk : 0 < k) :
    Nat.iterate (incrementDataValue cfg) k s =
      { s with
        stack := s.stack.set s.dataPointer (JSValue.int (((v + k) % cfg.cellSize : Nat) : Int))
        instructionPointer := s.instructionPointer + k } := by
  have hdp : s.dataPointer < s.stack.length := (List.getElem?_eq_some_iff.1 hv).1
  induction k with
  | zero => omega
  | succ k ih =>
      rw [Function.iterate_succ_apply']
      by_cases hk0 : k = 0
      · subst hk0
        rw [Function.iterate_zero, id, incrementDataValue_nat cfg s v hcs hv (by omega)]
      · have hm : (v + k) % cfg.cellSize < cfg.cellSize := Nat.mod_lt _ (by omega)
        rw [ih (by omega),
          incrementDataValue_nat cfg _ ((v + k) % cfg.cellSize) hcs
            (by simp only []; rw [List.getElem?_set_self hdp]) (by omega)]
        simp only [List.set_set, Nat.mod_add_mod]
        rfl

theorem iterate_decrementDataValue (cfg : RuntimeConfig) (s : RuntimeState) (v : Nat)
    (hcs : 1 ≤ cfg.cellSize) (hv : s.stack[s.dataPointer]? = some (JSValue.int (v : Int)))
    (hlt : v < cfg.cellSize) (hb : cfg.cellSize ≤ 2 ^ 52) (k : Nat) (hk : 0 < k) :
    Nat.iterate (decrementDataValue cfg) k s =
      { s with
        stack := s.stack.set s.dataPointer
          (JSValue.int (((v + k * (cfg.cellSize - 1)) % cfg.cellSize : Nat) : Int))
        instructionPointer := s.instructionPointer + k } := by
  have hdp : s.dataPointer < s.stack.length := (List.getElem?_eq_some_iff.1 hv).1
  induction k with
  | zero => omega
  | succ k ih =>
      rw [Function.iterate_succ_apply']
      by_cases hk0 : k = 0
      · subst hk0
        rw [Function.iterate_zero, id, decrementDataValue_nat cfg s v hcs hv (by omega)]
        simp
      · have hm : (v + k * (cfg.cellSize - 1)) % cfg.cellSize < cfg.cellSize :=
          Nat.mod_lt _ (by omega)
        rw [ih (by omega),
          decrementDataValue_nat cfg _ ((v + k * (cfg.cellSize - 1)) % cfg.cellSize) hcs
            (by simp only []; rw [List.getElem?_set_self hdp]) (by omega)]
        simp only [List.set_set, Nat.mod_add_mod]
        rw [show v + k * (cfg.cellSize - 1) + (cfg.cellSize - 1)
          = v + (k + 1) * (cfg.cellSize - 1) by ring]
        rfl

theorem set_getElem?_self {α : Type} (l : List α) (i : Nat) (x : α) (h : l[i]? = some x) :
    l.set i x = l := by
  apply List.ext_getElem?
  intro j
  by_cases hj : i = j
  · subst hj
    rw [List.getElem?_set_self (List.getElem?_eq_some_iff.1 h).1, h]
  · rw [List.getElem?_set_ne hj]

theorem decrement_stuck (s : RuntimeState) (hs : s.stack = [JSValue.int 9007199254740989])
    (hd : s.dataPointer = 0) :
    (decrementDataValue
        { commandMappings := Index.commandMappings, cellSize := 9007199254740991 } s).stack
      = [JSValue.int 9007199254740989] ∧
    (decrementDataValue
        { commandMappings := Index.commandMappings, cellSize := 9007199254740991 } s).dataPointer
      = 0 := by
  unfold decrementDataValue RuntimeState.cell
  simp only [hs, hd]
  exact ⟨by decide, trivial⟩

theorem iterate_decrement_stuck (k : Nat) :
    (Nat.iterate
        (decrementDataValue
          { commandMappings := Index.commandMappings, cellSize := 9007199254740991 })
        (k + 3)
        { program := ["-"], stack := [JSValue.int 2], dataPointer := 0,
          instructionPointer := 0 }).stack = [JSValue.int 9007199254740989] ∧
    (Nat.iterate
        (decrementDataValue
          { commandMappings := Index.commandMappings, cellSize := 9007199254740991 })
        (k + 3)
        { program := ["-"], stack := [JSValue.int 2], dataPointer := 0,
          instructionPointer := 0 }).dataPointer = 0 := by
  induction k with
  | zero => exact ⟨by decide, rfl⟩
  | succ k ih =>
      rw [show k + 1 + 3 = (k + 3) + 1 by omega, Function.iterate_succ_apply']
      exact decrement_stuck _ ih.1 ih.2

/-- C11, as the code has it: the sums are sums of doubles.  With the cell modulus
`2 ^ 53 - 1 = 9007199254740991` and a cell holding `2`, the first decrement computes
`2 + (2 ^ 53 - 1)`, which is rounded to `2 ^ 53`, and stores `0`; the third stores
`2 ^ 53 - 3 = 9007199254740989`, and every further decrement stores that value again:
after `cellSize` decrements the cell does not hold `2`. -/
theorem decrement_wrap_fails_on_large_modulus :
    (Nat.iterate
        (decrementDataValue
          { commandMappings := Index.commandMappings, cellSize := 9007199254740991 })
        9007199254740991
        { program := ["-"], stack := [JSValue.int 2], dataPointer := 0,
          instructionPointer := 0 }).stack = [JSValue.int 9007199254740989] ∧
    (decrementDataValue
        { commandMappings := Index.commandMappings, cellSize := 9007199254740991 }
        { program := ["-"], stack := [JSValue.int 2], dataPointer := 0,
          instructionPointer := 0 }).stack = [JSValue.int 0] :=
  ⟨(iterate_decrement_stuck 9007199254740988).1, by decide⟩

/-- C11, amended: with a cell modulus from `1` to `2 ^ 52`, on a state whose data pointer
is inside the tape and whose current cell holds an integer `v` with `0 ≤ v < cellSize`,
the increment applied `cellSize` times gives the cell back its value, and so does the
decrement applied `cellSize` times: the tape is the same and the instruction pointer has
advanced by `cellSize`; after any number of applications every other cell of the tape
is as it was. -/
theorem cell_wrap_around (cfg : RuntimeConfig) (s : RuntimeState) (v : Nat)
    (hcs : 1 ≤ cfg.cellSize) (hb : cfg.cellSize ≤ 2 ^ 52)
    (hv : s.stack[s.dataPointer]? = some (JSValue.int (v : Int)))
    (hlt : v < cfg.cellSize) :
    Nat.iterate (incrementDataValue cfg) cfg.cellSize s =
      { s with instructionPointer := s.instructionPointer + cfg.cellSize } ∧
    Nat.iterate (decrementDataValue cfg) cfg.cellSize s =
      { s with instructionPointer := s.instructionPointer + cfg.cellSize } ∧
    (∀ k i, i ≠ s.dataPointer →
      (Nat.iterate (incrementDataValue cfg) k s).stack[i]? = s.stack[i]? ∧
      (Nat.iterate (decrementDataValue cfg) k s).stack[i]? = s.stack[i]?) := by
  have hb' : cfg.cellSize ≤ 2 ^ 53 := by omega
  refine ⟨?_, ?_, ?_⟩
  · rw [iterate_incrementDataValue cfg s v hcs hv hlt hb' cfg.cellSize (by omega)]
    rw [Nat.add_mod_right, Nat.mod_eq_of_lt hlt, set_getElem?_self _ _ _ hv]
  · rw [iterate_decrementDataValue cfg s v hcs hv hlt hb cfg.cellSize (by omega)]
    rw [Nat.add_mul_mod_self_left, Nat.mod_eq_of_lt hlt, set_getElem?_self _ _ _ hv]
  · intro k i hi
    by_cases hk : k = 0
    · subst hk
      exact ⟨rfl, rfl⟩
    · rw [iterate_incrementDataValue cfg s v hcs hv hlt hb' k (by omega),
        iterate_decrementDataValue cfg s v hcs hv hlt hb k (by omega)]
      exact ⟨List.getElem?_set_ne (Ne.symm hi), List.getElem?_set_ne (Ne.symm hi)⟩

theorem cell_wrap_around_witness :
    1 ≤ Index.parserConfig.cellSize ∧ Index.parserConfig.cellSize ≤ 2 ^ 52 ∧
    ({ program := ["+"], stack := [JSValue.int 0, JSValue.int 7], dataPointer := 1,
       instructionPointer := 0 } : RuntimeState).stack[1]? = some (JSValue.int ((7 : Nat) : Int)) ∧
    7 < Index.parserConfig.cellSize ∧
    Nat.iterate (incrementDataValue Index.parserConfig) Index.parserConfig.cellSize
        { program := ["+"], stack := [JSValue.int 0, JSValue.int 7], dataPointer := 1,
          instructionPointer := 0 } =
      { program := ["+"], stack := [JSValue.int 0, JSValue.int 7], dataPointer := 1,
        instructionPointer := 0 + Index.parserConfig.cellSize } :=
  ⟨by decide, by decide, rfl, by decide,
    (cell_wrap_around Index.parserConfig
      { program := ["+"], stack := [JSValue.int 0, JSValue.int 7], dataPointer := 1,
        instructionPointer := 0 } 7 (by decide) (by decide) rfl (by decide)).1⟩

/-! ## Defaults, frame, sanitation -/

/-- C17: a configuration that gives neither the tape size nor the cell modulus has a
tape of 30000 cells and the modulus 255: the increment of a cell holding 254 stores 0,
the decrement of a cell holding 0 stores 254, the input 254 is stored and the input 255
is rejected, and with integer inputs every cell of every yielded state is an integer
from 0 to 254. -/
theorem default_configuration (cm : CommandMappings) (program : List String) :
    ({ commandMappings := cm } : RuntimeConfig).stackSize = 30000 ∧
    ({ commandMappings := cm } : RuntimeConfig).cellSize = 255 ∧
    (_initState program ({ commandMappings := cm } : RuntimeConfig).stackSize).stack.length
      = 30000 ∧
    (∀ s : RuntimeState, s.stack[s.dataPointer]? = some (JSValue.int 254) →
      incrementDataValue { commandMappings := cm } s =
        { s with
          stack := s.stack.set s.dataPointer (JSValue.int 0)
          instructionPointer := s.instructionPointer + 1 }) ∧
    (∀ s : RuntimeState, s.stack[s.dataPointer]? = some (JSValue.int 0) →
      decrementDataValue { commandMappings := cm } s =
        { s with
          stack := s.stack.set s.dataPointer (JSValue.int 254)
          instructionPointer := s.instructionPointer + 1 }) ∧
    (∀ s : RuntimeState,
      readInputValue { commandMappings := cm } (JSValue.int 255) s =
        Except.error (RuntimeError.inputOutOfRange 255 (JSValue.int 255) s.instructionPointer)) ∧
    (∀ s : RuntimeState,
      readInputValue { commandMappings := cm } (JSValue.int 254) s =
        Except.ok { s with
          stack := _replaceInArray s.stack s.dataPointer (JSValue.int 254)
          instructionPointer := s.instructionPointer + 1 }) ∧
    (∀ (onReadInput : Nat → JSValue), (∀ k, ∃ z : Int, onReadInput k = JSValue.int z) →
      ∀ (pulls : Nat), ∀ m ∈ (runtime program { commandMappings := cm } onReadInput pulls).yielded,
        m.state.stack.length = 30000 ∧
          ∀ c ∈ m.state.stack, ∃ v : Int, c = JSValue.int v ∧ 0 ≤ v ∧ v ≤ 254) := by
  refine ⟨rfl, rfl, by simp only [_initState, List.length_replicate], ?_, ?_, ?_, ?_, ?_⟩
  · intro s hs
    rw [incrementDataValue_nat { commandMappings := cm } s 254 (by show (1 : Nat) ≤ 255; omega) hs
      (by norm_num)]
    simp
  · intro s hs
    exact decrementDataValue_nat { commandMappings := cm } s 0 (by show (1 : Nat) ≤ 255; omega) hs
      (by show 0 + 255 ≤ 2 ^ 53; norm_num)
  · intro s
    rfl
  · intro s
    rfl
  · intro onReadInput hin pulls m hm
    have h := runtime_yielded_induction program { commandMappings := cm } onReadInput
      (fun m => WellFormed program { commandMappings := cm } m ∧
        CellsInRange { commandMappings := cm } m.state.stack)
      ⟨wellFormed_init program _ (by show (1 : Nat) ≤ 30000; omega), by
        intro c hc
        simp only [_initState] at hc
        exact ⟨0, List.eq_of_mem_replicate hc, le_refl _, by show (0 : Int) < ((255 : Nat) : Int); omega⟩⟩
      (fun m m' hm h => advance_cellsInRange program _ onReadInput (by show (1 : Nat) ≤ 255; omega) hin m m' hm h)
      pulls m hm
    refine ⟨h.1.2.1, ?_⟩
    intro c hc
    obtain ⟨v, h1, h2, h3⟩ := h.2 c hc
    have h4 : v < 255 := h3
    exact ⟨v, h1, h2, by omega⟩

/-- C19: a successful execution of a command from a state whose data pointer is inside
the tape returns a state with the same program and a tape of the same length, in which
every cell other than the current one is as it was; only the two cell commands and the
read command change the tape, and only the two pointer commands change the data
pointer. -/
theorem step_frame (cfg : RuntimeConfig) (onReadInput : Nat → JSValue) (command : Command)
    (m m' : Machine) (h : execute cfg onReadInput command m = Except.ok m')
    (hdp : m.state.dataPointer < m.state.stack.length) :
    m'.state.program = m.state.program ∧
    m'.state.stack.length = m.state.stack.length ∧
    (∀ i, i ≠ m.state.dataPointer → m'.state.stack[i]? = m.state.stack[i]?) ∧
    (command ≠ Command.incrementDataValue → command ≠ Command.decrementDataValue →
      command ≠ Command.readInputValue → m'.state.stack = m.state.stack) ∧
    (command ≠ Command.incrementDataPointer → command ≠ Command.decrementDataPointer →
      m'.state.dataPointer = m.state.dataPointer) := by
  have hother : ∀ (x : JSValue) (i : Nat), i ≠ m.state.dataPointer →
      (_replaceInArray m.state.stack m.state.dataPointer x)[i]? = m.state.stack[i]? := by
    intro x i hi
    rw [replaceInArray_eq_set _ _ _ hdp, List.getElem?_set_ne (Ne.symm hi)]
  rcases execute_ok_state cfg onReadInput command m m' h with
    ⟨hc, h1⟩ | ⟨hc, h1⟩ | ⟨hc, h1⟩ | ⟨hc, h1⟩ | ⟨hc, h1⟩ | ⟨hc, h1⟩ | ⟨hc, h1⟩ | ⟨hc, h1⟩
  · rw [((incrementDataPointer_ok_iff cfg m.state m'.state).1 h1).2]
    exact ⟨rfl, rfl, fun _ _ => rfl, fun _ _ _ => rfl, fun hn _ => absurd hc hn⟩
  · rw [((decrementDataPointer_ok_iff m.state m'.state).1 h1).2]
    exact ⟨rfl, rfl, fun _ _ => rfl, fun _ _ _ => rfl, fun _ hn => absurd hc hn⟩
  · rw [h1]
    exact ⟨rfl, replaceInArray_length _ _ _ hdp, fun i hi => hother _ i hi,
      fun hn _ _ => absurd hc hn, fun _ _ => rfl⟩
  · rw [h1]
    exact ⟨rfl, replaceInArray_length _ _ _ hdp, fun i hi => hother _ i hi,
      fun _ hn _ => absurd hc hn, fun _ _ => rfl⟩
  · rw [h1]
    exact ⟨rfl, rfl, fun _ _ => rfl, fun _ _ _ => rfl, fun _ _ => rfl⟩
  · rw [((readInputValue_ok_iff cfg _ m.state m'.state).1 h1).2.2.2]
    exact ⟨rfl, replaceInArray_length _ _ _ hdp, fun i hi => hother _ i hi,
      fun _ _ hn => absurd hc hn, fun _ _ => rfl⟩
  · obtain ⟨j, -, h3⟩ := (jumpForward_ok_iff cfg.commandMappings m.state m'.state).1 h1
    rw [h3]
    exact ⟨rfl, rfl, fun _ _ => rfl, fun _ _ _ => rfl, fun _ _ => rfl⟩
  · obtain ⟨j, -, h3⟩ := (jumpBackwards_ok_iff cfg.commandMappings m.state m'.state).1 h1
    rw [h3]
    exact ⟨rfl, rfl, fun _ _ => rfl, fun _ _ _ => rfl, fun _ _ => rfl⟩

theorem step_frame_witness :
    execute Index.parserConfig (fun _ => JSValue.int 0) Command.incrementDataValue
        { state := { program := ["+"], stack := [JSValue.int 3, JSValue.int 4],
                     dataPointer := 1, instructionPointer := 0 },
          inputsRead := 0, outputs := [] } =
      Except.ok
        { state := { program := ["+"], stack := [JSValue.int 3, JSValue.int 5],
                     dataPointer := 1, instructionPointer := 1 },
          inputsRead := 0, outputs := [] } ∧
    (1 : Nat) < [JSValue.int 3, JSValue.int 4].length ∧
    ∀ i, i ≠ 1 → [JSValue.int 3, JSValue.int 5][i]? = [JSValue.int 3, JSValue.int 4][i]? :=
  ⟨rfl, by decide,
    (step_frame Index.parserConfig (fun _ => JSValue.int 0) Command.incrementDataValue
      { state := { program := ["+"], stack := [JSValue.int 3, JSValue.int 4],
                   dataPointer := 1, instructionPointer := 0 },
        inputsRead := 0, outputs := [] }
      { state := { program := ["+"], stack := [JSValue.int 3, JSValue.int 5],
                   dataPointer := 1, instructionPointer := 1 },
        inputsRead := 0, outputs := [] } rfl (by decide)).2.2.1⟩

/-- C16, as the code has it: the class of the regular expression contains the range from
`+` to `>`, so the digit `1` of the program text `1+` is handed to the engine, which has
no command for it and fails with the invalid instruction error at position `0`. -/
theorem sanitation_keeps_digit :
    Index.program "1+" = ["1", "+"] ∧
    commands Index.commandMappings "1" = none ∧
    (runtime (Index.program "1+") Index.parserConfig (fun _ => JSValue.int 0) 1).outcome
      = Outcome.failed (RuntimeError.invalidInstruction "1" 0) := by
  decide

/-! ## Runs of straight-line blocks and loops -/

theorem path_append (cfg : RuntimeConfig) (onReadInput : Nat → JSValue) :
    ∀ (ys zs : List Machine) (m m1 m2 : Machine),
      Path cfg onReadInput m ys m1 → Path cfg onReadInput m1 zs m2 →
        Path cfg onReadInput m (ys ++ zs) m2 := by
  intro ys
  induction ys with
  | nil =>
      intro zs m m1 m2 h1 h2
      simp only [Path] at h1
      subst h1
      exact h2
  | cons y ys ih =>
      intro zs m m1 m2 h1 h2
      exact ⟨h1.1, ih zs y m1 m2 h1.2 h2⟩

theorem runFrom_path (cfg : RuntimeConfig) (onReadInput : Nat → JSValue) :
    ∀ (ys : List Machine) (m m' : Machine) (p : Nat), Path cfg onReadInput m ys m' →
      runFrom cfg onReadInput (ys.length + p) m =
        { yielded := ys ++ (runFrom cfg onReadInput p m').yielded
          outcome := (runFrom cfg onReadInput p m').outcome } := by
  intro ys
  induction ys with
  | nil =>
      intro m m' p h
      simp only [Path] at h
      subst h
      simp
  | cons y ys ih =>
      intro m m' p h
      rw [show (y :: ys).length + p = (ys.length + p) + 1 by simp; omega, runFrom, h.1]
      simp only [ih y m' p h.2, List.cons_append]

/-- A path from the initial machine to a machine at which the loop of the generator
ends gives the whole run. -/
theorem runtime_of_path (program : List String) (cfg : RuntimeConfig)
    (onReadInput : Nat → JSValue) (ys : List Machine) (m' : Machine) (pulls : Nat)
    (hpath : Path cfg onReadInput
      { state := _initState program cfg.stackSize, inputsRead := 0, outputs := [] } ys m')
    (hend : advance cfg onReadInput m' = Advance.finished) (hp : ys.length < pulls) :
    runtime program cfg onReadInput pulls =
      { yielded :=
          { state := _initState program cfg.stackSize, inputsRead := 0, outputs := [] } :: ys
        outcome := Outcome.completed } := by
  obtain ⟨p, rfl⟩ : ∃ p, pulls = ys.length + (p + 1) := ⟨pulls - ys.length - 1, by omega⟩
  have hlast : runFrom cfg onReadInput (p + 1) m'
      = { yielded := [], outcome := Outcome.completed } := by
    rw [runFrom, hend]
  unfold runtime
  simp only []
  rw [runFrom_path cfg onReadInput ys _ m' (p + 1) hpath, hlast, List.append_nil]

/-- A block of `n` increments of the current cell, from instruction position `i`. -/
theorem path_increments (cfg : RuntimeConfig) (onReadInput : Nat → JSValue)
    (hcm : cfg.commandMappings = Index.commandMappings) (hcs : 1 ≤ cfg.cellSize)
    (program : List String) (dataPointer inputsRead : Nat) (outputs : List JSValue) :
    ∀ (n i v : Nat) (stack : List JSValue),
      (∀ t, t < n → program[i + t]? = some "+") →
      stack[dataPointer]? = some (JSValue.int (v : Int)) → v < cfg.cellSize →
      v + n ≤ 2 ^ 53 →
      ∃ ys, Path cfg onReadInput
          { state := { program := program, stack := stack, dataPointer := dataPointer,
                       instructionPointer := i },
            inputsRead := inputsRead, outputs := outputs } ys
          { state := { program := program,
                       stack := stack.set dataPointer
                         (JSValue.int (((v + n) % cfg.cellSize : Nat) : Int)),
                       dataPointer := dataPointer, instructionPointer := i + n },
            inputsRead := inputsRead, outputs := outputs } ∧
        ys.length = n ∧
        ∀ y ∈ ys, y.state.dataPointer = dataPointer ∧ y.outputs = outputs ∧
          y.state.instructionPointer ≤ i + n := by
  intro n
  induction n with
  | zero =>
      intro i v stack _ hv hlt _
      refine ⟨[], ?_, rfl, by simp⟩
      simp only [Path, Nat.add_zero, Nat.mod_eq_of_lt hlt, set_getElem?_self _ _ _ hv]
  | succ n ih =>
      intro i v stack hprog hv hlt hex
      have hdp : dataPointer < stack.length := (List.getElem?_eq_some_iff.1 hv).1
      have hmod := Nat.mod_le (v + 1) cfg.cellSize
      have hc : commands cfg.commandMappings "+" = some Command.incrementDataValue := by
        rw [hcm]
        decide
      have hstep : advance cfg onReadInput
          { state := { program := program, stack := stack, dataPointer := dataPointer,
                       instructionPointer := i },
            inputsRead := inputsRead, outputs := outputs } =
          Advance.yielded
            { state := { program := program,
                         stack := stack.set dataPointer
                           (JSValue.int (((v + 1) % cfg.cellSize : Nat) : Int)),
                         dataPointer := dataPointer, instructionPointer := i + 1 },
              inputsRead := inputsRead, outputs := outputs } := by
        refine advance_of_execute cfg onReadInput _ _ "+" Command.incrementDataValue
          (by simpa using hprog 0 (by omega)) hc ?_
        simp only [execute]
        rw [incrementDataValue_nat cfg _ v hcs hv (by omega)]
      obtain ⟨ys, h1, h2, h3⟩ := ih (i + 1) ((v + 1) % cfg.cellSize)
        (stack.set dataPointer (JSValue.int (((v + 1) % cfg.cellSize : Nat) : Int)))
        (fun t ht => by
          have := hprog (t + 1) (by omega)
          rw [show i + 1 + t = i + (t + 1) by omega]
          exact this)
        (List.getElem?_set_self hdp) (Nat.mod_lt _ (by omega)) (by omega)
      rw [List.set_set, Nat.mod_add_mod, show v + 1 + n = v + (n + 1) by omega,
        show i + 1 + n = i + (n + 1) by omega] at h1
      refine ⟨_ :: ys, ⟨hstep, h1⟩, by simp [h2], ?_⟩
      intro y hy
      simp only [List.mem_cons] at hy
      rcases hy with hy | hy
      · subst hy
        exact ⟨rfl, rfl, by simp only []; omega⟩
      · obtain ⟨a, b, c⟩ := h3 y hy
        exact ⟨a, b, by omega⟩

theorem getLast?_cons_concat {α : Type} (a x : α) (ys : List α) :
    (a :: (ys ++ [x])).getLast? = some x := by
  rw [← List.cons_append, List.getLast?_concat]

theorem getElem?_replicate_append_left (k t : Nat) (c : String) (rest : List String) (h : t < k) :
    (List.replicate k c ++ rest)[t]? = some c := by
  rw [List.getElem?_append_left (by simpa using h), List.getElem?_replicate]
  simp [h]

theorem getElem?_replicate_append_right (k t : Nat) (c : String) (rest : List String) :
    (List.replicate k c ++ rest)[k + t]? = rest[t]? := by
  rw [List.getElem?_append_right (by simp)]
  simp

/-- C14: with the symbols of the command line, a cell modulus and a tape size of at
least one, the program made of `k` times `+` and one `.` hands exactly one value to the
output sink, `k mod cellSize`; the data pointer is `0` in every yielded state; the run
ends normally and its last state has instruction pointer `k + 1`.  The output command
itself returns the state it was given with the instruction pointer advanced by one.
The program is a JavaScript array, which has fewer than `2 ^ 32` elements. -/
theorem output_program (cfg : RuntimeConfig) (onReadInput : Nat → JSValue) (k pulls : Nat)
    (hcm : cfg.commandMappings = Index.commandMappings) (hcs : 1 ≤ cfg.cellSize)
    (hN : 1 ≤ cfg.stackSize) (hp : k + 1 < pulls)
    (hlen : (List.replicate k "+" ++ ["."]).length < 2 ^ 32) :
    (runtime (List.replicate k "+" ++ ["."]) cfg onReadInput pulls).outputs
      = [JSValue.int ((k % cfg.cellSize : Nat) : Int)] ∧
    (∀ m ∈ (runtime (List.replicate k "+" ++ ["."]) cfg onReadInput pulls).yielded,
      m.state.dataPointer = 0) ∧
    (runtime (List.replicate k "+" ++ ["."]) cfg onReadInput pulls).outcome
      = Outcome.completed ∧
    (∃ m, (runtime (List.replicate k "+" ++ ["."]) cfg onReadInput pulls).yielded.getLast?
        = some m ∧ m.state.instructionPointer = k + 1) ∧
    (runtime (List.replicate k "+" ++ ["."]) cfg onReadInput pulls).yielded.length = k + 2 ∧
    (∀ s : RuntimeState, outputDataValue s
      = (s.cell, { s with instructionPointer := s.instructionPointer + 1 })) := by
  have h0 : (List.replicate cfg.stackSize (JSValue.int 0))[0]? = some (JSValue.int ((0 : Nat) : Int)) := by
    rw [List.getElem?_replicate]
    simp
    omega
  obtain ⟨ys, h1, h2, h3⟩ := path_increments cfg onReadInput hcm hcs
    (List.replicate k "+" ++ ["."]) 0 0 [] k 0 0 (List.replicate cfg.stackSize (JSValue.int 0))
    (fun t ht => by
      rw [Nat.zero_add]
      exact getElem?_replicate_append_left k t "+" _ ht)
    h0 (by omega)
    (by
      simp only [List.length_append, List.length_replicate, List.length_singleton] at hlen
      omega)
  simp only [Nat.zero_add] at h1 h3
  have hdp : 0 < (List.replicate cfg.stackSize (JSValue.int 0)).length := by
    simp
    omega
  have hc : commands cfg.commandMappings "." = some Command.outputDataValue := by
    rw [hcm]
    decide
  have hstep : advance cfg onReadInput
      { state := { program := List.replicate k "+" ++ ["."],
                   stack := (List.replicate cfg.stackSize (JSValue.int 0)).set 0
                     (JSValue.int ((k % cfg.cellSize : Nat) : Int)),
                   dataPointer := 0, instructionPointer := k },
        inputsRead := 0, outputs := [] } =
      Advance.yielded
        { state := { program := List.replicate k "+" ++ ["."],
                     stack := (List.replicate cfg.stackSize (JSValue.int 0)).set 0
                       (JSValue.int ((k % cfg.cellSize : Nat) : Int)),
                     dataPointer := 0, instructionPointer := k + 1 },
          inputsRead := 0, outputs := [JSValue.int ((k % cfg.cellSize : Nat) : Int)] } := by
    refine advance_of_execute cfg onReadInput _ _ "." Command.outputDataValue
      (by simp) hc ?_
    simp only [execute, outputDataValue, List.nil_append]
    rw [cell_eq_of_getElem? _ _ (by simp only []; exact List.getElem?_set_self hdp)]
  have hend : advance cfg onReadInput
      { state := { program := List.replicate k "+" ++ ["."],
                   stack := (List.replicate cfg.stackSize (JSValue.int 0)).set 0
                     (JSValue.int ((k % cfg.cellSize : Nat) : Int)),
                   dataPointer := 0, instructionPointer := k + 1 },
        inputsRead := 0, outputs := [JSValue.int ((k % cfg.cellSize : Nat) : Int)] }
      = Advance.finished := by
    rw [advance_finished_iff]
    simp
  have hpath := path_append cfg onReadInput ys [_] _ _ _ h1 ⟨hstep, rfl⟩
  have hrun := runtime_of_path (List.replicate k "+" ++ ["."]) cfg onReadInput _ _ pulls
    hpath hend (by simp [h2]; omega)
  rw [hrun]
  refine ⟨?_, ?_, rfl, ?_, by simp [h2], fun s => rfl⟩
  · simp only [Run.outputs, getLast?_cons_concat]
  · intro m hm
    simp only [List.mem_cons, List.mem_append, List.mem_singleton, List.not_mem_nil,
      or_false] at hm
    rcases hm with hm | hm | hm
    · subst hm
      rfl
    · exact (h3 m hm).1
    · subst hm
      rfl
  · exact ⟨_, getLast?_cons_concat _ _ _, rfl⟩

theorem output_program_witness :
    (runtime ["+", "+", "."] Index.parserConfig (fun _ => JSValue.int 0) 4).outputs
      = [JSValue.int 2] ∧
    (runtime ["+", "+", "."] Index.parserConfig (fun _ => JSValue.int 0) 4).outcome
      = Outcome.completed ∧
    ∃ m, (runtime ["+", "+", "."] Index.parserConfig (fun _ => JSValue.int 0) 4).yielded.getLast?
        = some m ∧ m.state.instructionPointer = 2 + 1 :=
  ⟨(output_program Index.parserConfig (fun _ => JSValue.int 0) 2 4 rfl (by decide) (by decide)
      (by decide) (by decide)).1,
    (output_program Index.parserConfig (fun _ => JSValue.int 0) 2 4 rfl (by decide) (by decide)
      (by decide) (by decide)).2.2.1,
    (output_program Index.parserConfig (fun _ => JSValue.int 0) 2 4 rfl (by decide) (by decide)
      (by decide) (by decide)).2.2.2.1⟩

theorem runFrom_of_path (cfg : RuntimeConfig) (onReadInput : Nat → JSValue)
    (ys : List Machine) (m m' : Machine) (pulls : Nat) (hpath : Path cfg onReadInput m ys m')
    (hend : advance cfg onReadInput m' = Advance.finished) (hp : ys.length < pulls) :
    runFrom cfg onReadInput pulls m = { yielded := ys, outcome := Outcome.completed } := by
  obtain ⟨p, rfl⟩ : ∃ p, pulls = ys.length + (p + 1) := ⟨pulls - ys.length - 1, by omega⟩
  have hlast : runFrom cfg onReadInput (p + 1) m'
      = { yielded := [], outcome := Outcome.completed } := by
    rw [runFrom, hend]
  rw [runFrom_path cfg onReadInput ys _ m' (p + 1) hpath, hlast, List.append_nil]

/-- The loop body `-` at position `a`, closed by `]` at `a + 1` whose match is the
position before `a`: from a cell holding `n + 1` the body runs `n + 1` times and the
loop is left with the cell at `0`. -/
theorem path_countdown (cfg : RuntimeConfig) (onReadInput : Nat → JSValue)
    (hcm : cfg.commandMappings = Index.commandMappings)
    (program : List String) (dataPointer inputsRead a b : Nat) (outputs : List JSValue)
    (hminus : program[a]? = some "-") (hclose : program[a + 1]? = some "]")
    (hback : _findMatchingToken program (a + 1) "[" Direction.desc = some b)
    (hba : b + 1 = a) :
    ∀ (n : Nat) (stack : List JSValue),
      n + 1 < cfg.cellSize → n + 1 + cfg.cellSize ≤ 2 ^ 53 →
      stack[dataPointer]? = some (JSValue.int ((n + 1 : Nat) : Int)) →
      ∃ ys, Path cfg onReadInput
          { state := { program := program, stack := stack, dataPointer := dataPointer,
                       instructionPointer := a },
            inputsRead := inputsRead, outputs := outputs } ys
          { state := { program := program,
                       stack := stack.set dataPointer (JSValue.int ((0 : Nat) : Int)),
                       dataPointer := dataPointer, instructionPointer := a + 2 },
            inputsRead := inputsRead, outputs := outputs } ∧
        ys.length = 2 * (n + 1) ∧
        ys.countP (fun y => decide (y.state.instructionPointer = a + 1)) = n + 1 := by
  have hcminus : commands cfg.commandMappings "-" = some Command.decrementDataValue := by
    rw [hcm]
    decide
  have hcclose : commands cfg.commandMappings "]" = some Command.jumpBackwards := by
    rw [hcm]
    decide
  have hjb : cfg.commandMappings.JUMP_FORWARD = "[" := by
    rw [hcm]
    rfl
  intro n
  induction n with
  | zero =>
      intro stack hlt hex hv
      have hdp : dataPointer < stack.length := (List.getElem?_eq_some_iff.1 hv).1
      have hs1 : advance cfg onReadInput
          { state := { program := program, stack := stack, dataPointer := dataPointer,
                       instructionPointer := a },
            inputsRead := inputsRead, outputs := outputs } =
          Advance.yielded
            { state := { program := program,
                         stack := stack.set dataPointer (JSValue.int ((0 : Nat) : Int)),
                         dataPointer := dataPointer, instructionPointer := a + 1 },
              inputsRead := inputsRead, outputs := outputs } := by
        refine advance_of_execute cfg onReadInput _ _ "-" Command.decrementDataValue hminus
          hcminus ?_
        simp only [execute]
        rw [decrementDataValue_nat cfg _ (0 + 1) (by omega) hv (by omega)]
        rw [show (0 + 1 + (cfg.cellSize - 1)) % cfg.cellSize = 0 by
          rw [show 0 + 1 + (cfg.cellSize - 1) = cfg.cellSize by omega, Nat.mod_self]]
      have hs2 : advance cfg onReadInput
          { state := { program := program,
                       stack := stack.set dataPointer (JSValue.int ((0 : Nat) : Int)),
                       dataPointer := dataPointer, instructionPointer := a + 1 },
            inputsRead := inputsRead, outputs := outputs } =
          Advance.yielded
            { state := { program := program,
                         stack := stack.set dataPointer (JSValue.int ((0 : Nat) : Int)),
                         dataPointer := dataPointer, instructionPointer := a + 2 },
              inputsRead := inputsRead, outputs := outputs } := by
        refine advance_of_execute cfg onReadInput _ _ "]" Command.jumpBackwards hclose
          hcclose ?_
        simp only [execute, jumpBackwards, hjb, hback, Except.map]
        rw [cell_eq_of_getElem? _ _ (by simp only []; exact List.getElem?_set_self hdp)]
        simp
      exact ⟨[_, _], ⟨hs1, hs2, rfl⟩, rfl, by simp [List.countP_cons]⟩
  | succ n ih =>
      intro stack hlt hex hv
      have hdp : dataPointer < stack.length := (List.getElem?_eq_some_iff.1 hv).1
      have hs1 : advance cfg onReadInput
          { state := { program := program, stack := stack, dataPointer := dataPointer,
                       instructionPointer := a },
            inputsRead := inputsRead, outputs := outputs } =
          Advance.yielded
            { state := { program := program,
                         stack := stack.set dataPointer (JSValue.int ((n + 1 : Nat) : Int)),
                         dataPointer := dataPointer, instructionPointer := a + 1 },
              inputsRead := inputsRead, outputs := outputs } := by
        refine advance_of_execute cfg onReadInput _ _ "-" Command.decrementDataValue hminus
          hcminus ?_
        simp only [execute]
        rw [decrementDataValue_nat cfg _ (n + 1 + 1) (by omega) hv (by omega)]
        rw [show (n + 1 + 1 + (cfg.cellSize - 1)) % cfg.cellSize = n + 1 by
          rw [show n + 1 + 1 + (cfg.cellSize - 1) = n + 1 + cfg.cellSize by omega,
            Nat.add_mod_right, Nat.mod_eq_of_lt (by omega)]]
      have hs2 : advance cfg onReadInput
          { state := { program := program,
                       stack := stack.set dataPointer (JSValue.int ((n + 1 : Nat) : Int)),
                       dataPointer := dataPointer, instructionPointer := a + 1 },
            inputsRead := inputsRead, outputs := outputs } =
          Advance.yielded
            { state := { program := program,
                         stack := stack.set dataPointer (JSValue.int ((n + 1 : Nat) : Int)),
                         dataPointer := dataPointer, instructionPointer := a },
              inputsRead := inputsRead, outputs := outputs } := by
        refine advance_of_execute cfg onReadInput _ _ "]" Command.jumpBackwards hclose
          hcclose ?_
        simp only [execute, jumpBackwards, hjb, hback, Except.map]
        rw [cell_eq_of_getElem? _ _ (by simp only []; exact List.getElem?_set_self hdp)]
        have hne : JSValue.int ((n + 1 : Nat) : Int) ≠ JSValue.int 0 := by
          intro h
          injection h with h
          omega
        simp only [hne, ne_eq, not_false_eq_true, if_true, hba]
      obtain ⟨ys, h1, h2, h3⟩ := ih
        (stack.set dataPointer (JSValue.int ((n + 1 : Nat) : Int))) (by omega) (by omega)
        (List.getElem?_set_self hdp)
      rw [List.set_set] at h1
      refine ⟨_ :: _ :: ys, ⟨hs1, hs2, h1⟩, by simp [h2]; omega, ?_⟩
      simp only [List.countP_cons, h3]
      simp

theorem getLast?_states_of_path (cfg : RuntimeConfig) (onReadInput : Nat → JSValue) :
    ∀ (zs : List Machine) (m m' : Machine), Path cfg onReadInput m zs m' →
      ((m :: zs).map Machine.state).getLast? = some m'.state := by
  intro zs
  induction zs with
  | nil =>
      intro m m' hm
      simp only [Path] at hm
      subst hm
      rfl
  | cons z zs ih =>
      intro m m' hm
      have := ih z m' hm.2
      simp only [List.map_cons, List.getLast?_cons_cons] at this ⊢
      exact this

theorem findMatchingToken_countdown (k : Nat) :
    _findMatchingToken (List.replicate k "+" ++ ["[", "-", "]"]) k "]" = some (k + 2) := by
  have h0 : (List.replicate k "+" ++ ["[", "-", "]"])[k]? = some "[" := by
    simpa using getElem?_replicate_append_right k 0 "+" ["[", "-", "]"]
  have hd : (List.replicate k "+" ++ ["[", "-", "]"]).drop k = ["[", "-", "]"] :=
    List.drop_left' (by simp)
  unfold _findMatchingToken
  simp only []
  rw [h0, hd]
  simp [scanAsc]

/-- C13, as the code has it: the sums are sums of doubles.  With the cell modulus
`2 ^ 53 = 9007199254740992` and `k = 1`, the `-` of `+[-]` computes `1 + 2 ^ 53`, which
is rounded to `2 ^ 53`, and stores `2 ^ 53 - 1` instead of `0`: the loop body runs a
second time and the run yields 7 states, not 5. -/
theorem countdown_fails_on_large_modulus :
    (runtime ["+", "[", "-", "]"]
        { commandMappings := Index.commandMappings, stackSize := 1,
          cellSize := 9007199254740992 }
        (fun _ => JSValue.int 0) 7).outcome = Outcome.completed ∧
    (runtime ["+", "[", "-", "]"]
        { commandMappings := Index.commandMappings, stackSize := 1,
          cellSize := 9007199254740992 }
        (fun _ => JSValue.int 0) 7).states.length = 7 ∧
    (runtime ["+", "[", "-", "]"]
        { commandMappings := Index.commandMappings, stackSize := 1,
          cellSize := 9007199254740992 }
        (fun _ => JSValue.int 0) 7).states.countP
      (fun s => decide (s.instructionPointer = 3)) = 2 := by
  decide

/-- C13, amended: with the symbols of the command line, for `1 ≤ k < cellSize` with
`k + cellSize ≤ 2 ^ 53` and a tape of at least one cell, the program made of `k` times
`+` followed by `[-]` yields exactly
`3k + 2` states and ends normally; its last state has a tape of zeros, data pointer `0`
and instruction pointer `k + 3`; and exactly `k` of the states have instruction pointer
`k + 2`, the position after the loop body `-`, which only an execution of that `-`
produces. -/
theorem countdown_program (cfg : RuntimeConfig) (onReadInput : Nat → JSValue) (k pulls : Nat)
    (hcm : cfg.commandMappings = Index.commandMappings) (hk1 : 1 ≤ k)
    (hk : k < cfg.cellSize) (hb : k + cfg.cellSize ≤ 2 ^ 53) (hN : 1 ≤ cfg.stackSize)
    (hp : 3 * k + 1 < pulls) :
    (runtime (List.replicate k "+" ++ ["[", "-", "]"]) cfg onReadInput pulls).states.length
      = 3 * k + 2 ∧
    (runtime (List.replicate k "+" ++ ["[", "-", "]"]) cfg onReadInput pulls).outcome
      = Outcome.completed ∧
    (runtime (List.replicate k "+" ++ ["[", "-", "]"]) cfg onReadInput pulls).states.getLast?
      = some { program := List.replicate k "+" ++ ["[", "-", "]"],
               stack := List.replicate cfg.stackSize (JSValue.int 0),
               dataPointer := 0, instructionPointer := k + 3 } ∧
    (runtime (List.replicate k "+" ++ ["[", "-", "]"]) cfg onReadInput pulls).states.countP
      (fun s => decide (s.instructionPointer = k + 2)) = k := by
  obtain ⟨n, rfl⟩ : ∃ n, k = n + 1 := ⟨k - 1, by omega⟩
  have hfwd := findMatchingToken_countdown (n + 1)
  have hP0 : (List.replicate (n + 1) "+" ++ ["[", "-", "]"])[n + 1]? = some "[" := by
    simpa using getElem?_replicate_append_right (n + 1) 0 "+" ["[", "-", "]"]
  have hP1 : (List.replicate (n + 1) "+" ++ ["[", "-", "]"])[n + 1 + 1]? = some "-" := by
    simpa using getElem?_replicate_append_right (n + 1) 1 "+" ["[", "-", "]"]
  have hP2 : (List.replicate (n + 1) "+" ++ ["[", "-", "]"])[n + 1 + 1 + 1]? = some "]" := by
    simpa using getElem?_replicate_append_right (n + 1) 2 "+" ["[", "-", "]"]
  obtain ⟨hlt, hget⟩ := List.getElem?_eq_some_iff.1 hP0
  have hback := (findMatchingToken_symmetric _ (n + 1) (n + 1 + 2) "]" hlt hfwd).2.2.2
  rw [hget] at hback
  have h0 : (List.replicate cfg.stackSize (JSValue.int 0))[0]?
      = some (JSValue.int ((0 : Nat) : Int)) := by
    rw [List.getElem?_replicate]
    simp
    omega
  have hdp : 0 < (List.replicate cfg.stackSize (JSValue.int 0)).length := by
    simp
    omega
  obtain ⟨ys1, a1, a2, a3⟩ := path_increments cfg onReadInput hcm (by omega)
    (List.replicate (n + 1) "+" ++ ["[", "-", "]"]) 0 0 [] (n + 1) 0 0
    (List.replicate cfg.stackSize (JSValue.int 0))
    (fun t ht => by
      rw [Nat.zero_add]
      exact getElem?_replicate_append_left (n + 1) t "+" _ ht)
    h0 (by omega) (by omega)
  simp only [Nat.zero_add, Nat.mod_eq_of_lt hk] at a1 a3
  have hcopen : commands cfg.commandMappings "[" = some Command.jumpForward := by
    rw [hcm]
    decide
  have hjb : cfg.commandMappings.JUMP_BACKWARDS = "]" := by
    rw [hcm]
    rfl
  have hstep : advance cfg onReadInput
      { state := { program := List.replicate (n + 1) "+" ++ ["[", "-", "]"],
                   stack := (List.replicate cfg.stackSize (JSValue.int 0)).set 0
                     (JSValue.int ((n + 1 : Nat) : Int)),
                   dataPointer := 0, instructionPointer := n + 1 },
        inputsRead := 0, outputs := [] } =
      Advance.yielded
        { state := { program := List.replicate (n + 1) "+" ++ ["[", "-", "]"],
                     stack := (List.replicate cfg.stackSize (JSValue.int 0)).set 0
                       (JSValue.int ((n + 1 : Nat) : Int)),
                     dataPointer := 0, instructionPointer := n + 1 + 1 },
          inputsRead := 0, outputs := [] } := by
    refine advance_of_execute cfg onReadInput _ _ "[" Command.jumpForward hP0 hcopen ?_
    simp only [execute, jumpForward, hjb, hfwd, Except.map]
    rw [cell_eq_of_getElem? _ _ (by simp only []; exact List.getElem?_set_self hdp)]
    have hne : JSValue.int ((n + 1 : Nat) : Int) ≠ JSValue.int 0 := by
      intro h
      injection h with h
      omega
    simp only [hne, if_false]
  obtain ⟨ys3, b1, b2, b3⟩ := path_countdown cfg onReadInput hcm
    (List.replicate (n + 1) "+" ++ ["[", "-", "]"]) 0 0 (n + 1 + 1) (n + 1) [] hP1 hP2
    hback rfl n
    ((List.replicate cfg.stackSize (JSValue.int 0)).set 0 (JSValue.int ((n + 1 : Nat) : Int)))
    hk hb (List.getElem?_set_self hdp)
  rw [List.set_set, set_getElem?_self _ _ _ h0] at b1
  have hend : advance cfg onReadInput
      { state := { program := List.replicate (n + 1) "+" ++ ["[", "-", "]"],
                   stack := List.replicate cfg.stackSize (JSValue.int 0),
                   dataPointer := 0, instructionPointer := n + 1 + 1 + 2 },
        inputsRead := 0, outputs := [] }
      = Advance.finished := by
    rw [advance_finished_iff]
    simp
  have hpath := path_append cfg onReadInput ys1 (_ :: ys3) _ _ _ a1 ⟨hstep, b1⟩
  have hrun := runtime_of_path (List.replicate (n + 1) "+" ++ ["[", "-", "]"]) cfg onReadInput
    _ _ pulls hpath hend (by simp [a2, b2]; omega)
  have hzero : ys1.countP (fun y => decide (y.state.instructionPointer = n + 1 + 1 + 1)) = 0 := by
    rw [List.countP_eq_zero]
    intro y hy
    have := (a3 y hy).2.2
    simp only [decide_eq_true_eq]
    omega
  rw [hrun]
  refine ⟨by simp [Run.states, a2, b2]; omega, rfl, ?_, ?_⟩
  · exact getLast?_states_of_path cfg onReadInput _ _ _ hpath
  · simp only [Run.states, List.countP_map, List.countP_cons, List.countP_append,
      Function.comp_def, _initState]
    have e1 : ys1.countP (fun y => decide (y.state.instructionPointer = n + 1 + 2)) = 0 := hzero
    have e3 : ys3.countP (fun y => decide (y.state.instructionPointer = n + 1 + 2)) = n + 1 := b3
    rw [e1, e3]
    simp

theorem countdown_program_witness :
    (runtime ["+", "[", "-", "]"] Index.parserConfig (fun _ => JSValue.int 0) 5).states.length
      = 3 * 1 + 2 ∧
    (runtime ["+", "[", "-", "]"] Index.parserConfig (fun _ => JSValue.int 0) 5).outcome
      = Outcome.completed ∧
    (runtime ["+", "[", "-", "]"] Index.parserConfig (fun _ => JSValue.int 0) 5).states.countP
      (fun s => decide (s.instructionPointer = 1 + 2)) = 1 :=
  ⟨(countdown_program Index.parserConfig (fun _ => JSValue.int 0) 1 5 rfl (by decide)
      (by decide) (by decide) (by decide) (by decide)).1,
    (countdown_program Index.parserConfig (fun _ => JSValue.int 0) 1 5 rfl (by decide)
      (by decide) (by decide) (by decide) (by decide)).2.1,
    (countdown_program Index.parserConfig (fun _ => JSValue.int 0) 1 5 rfl (by decide)
      (by decide) (by decide) (by decide) (by decide)).2.2.2⟩

theorem getLast?_of_path (cfg : RuntimeConfig) (onReadInput : Nat → JSValue) :
    ∀ (zs : List Machine) (m m' : Machine), Path cfg onReadInput m zs m' →
      (m :: zs).getLast? = some m' := by
  intro zs
  induction zs with
  | nil =>
      intro m m' hm
      simp only [Path] at hm
      subst hm
      rfl
  | cons z zs ih =>
      intro m m' hm
      rw [List.getLast?_cons_cons]
      exact ih z m' hm.2

/-- The loop body `+` at position `a`, closed by `]` at `a + 1` whose match is the
position before `a`: from a cell holding `v = cellSize - (d + 1)` the body runs `d + 1`
times and the loop is left with the cell at `0`. -/
theorem path_countup (cfg : RuntimeConfig) (onReadInput : Nat → JSValue)
    (hcm : cfg.commandMappings = Index.commandMappings) (hb : cfg.cellSize ≤ 2 ^ 53)
    (program : List String) (dataPointer inputsRead a b : Nat) (outputs : List JSValue)
    (hplus : program[a]? = some "+") (hclose : program[a + 1]? = some "]")
    (hback : _findMatchingToken program (a + 1) "[" Direction.desc = some b)
    (hba : b + 1 = a) :
    ∀ (d v : Nat) (stack : List JSValue),
      v + (d + 1) = cfg.cellSize → stack[dataPointer]? = some (JSValue.int (v : Int)) →
      ∃ ys, Path cfg onReadInput
          { state := { program := program, stack := stack, dataPointer := dataPointer,
                       instructionPointer := a },
            inputsRead := inputsRead, outputs := outputs } ys
          { state := { program := program,
                       stack := stack.set dataPointer (JSValue.int ((0 : Nat) : Int)),
                       dataPointer := dataPointer, instructionPointer := a + 2 },
            inputsRead := inputsRead, outputs := outputs } ∧
        ys.length = 2 * (d + 1) ∧
        ys.countP (fun y => decide (y.state.instructionPointer = a + 1)) = d + 1 := by
  have hcplus : commands cfg.commandMappings "+" = some Command.incrementDataValue := by
    rw [hcm]
    decide
  have hcclose : commands cfg.commandMappings "]" = some Command.jumpBackwards := by
    rw [hcm]
    decide
  have hjb : cfg.commandMappings.JUMP_FORWARD = "[" := by
    rw [hcm]
    rfl
  intro d
  induction d with
  | zero =>
      intro v stack hsum hv
      have hdp : dataPointer < stack.length := (List.getElem?_eq_some_iff.1 hv).1
      have hs1 : advance cfg onReadInput
          { state := { program := program, stack := stack, dataPointer := dataPointer,
                       instructionPointer := a },
            inputsRead := inputsRead, outputs := outputs } =
          Advance.yielded
            { state := { program := program,
                         stack := stack.set dataPointer (JSValue.int ((0 : Nat) : Int)),
                         dataPointer := dataPointer, instructionPointer := a + 1 },
              inputsRead := inputsRead, outputs := outputs } := by
        refine advance_of_execute cfg onReadInput _ _ "+" Command.incrementDataValue hplus
          hcplus ?_
        simp only [execute]
        rw [incrementDataValue_nat cfg _ v (by omega) hv (by omega)]
        rw [show (v + 1) % cfg.cellSize = 0 by
          rw [show v + 1 = cfg.cellSize by omega, Nat.mod_self]]
      have hs2 : advance cfg onReadInput
          { state := { program := program,
                       stack := stack.set dataPointer (JSValue.int ((0 : Nat) : Int)),
                       dataPointer := dataPointer, instructionPointer := a + 1 },
            inputsRead := inputsRead, outputs := outputs } =
          Advance.yielded
            { state := { program := program,
                         stack := stack.set dataPointer (JSValue.int ((0 : Nat) : Int)),
                         dataPointer := dataPointer, instructionPointer := a + 2 },
              inputsRead := inputsRead, outputs := outputs } := by
        refine advance_of_execute cfg onReadInput _ _ "]" Command.jumpBackwards hclose
          hcclose ?_
        simp only [execute, jumpBackwards, hjb, hback, Except.map]
        rw [cell_eq_of_getElem? _ _ (by simp only []; exact List.getElem?_set_self hdp)]
        simp
      exact ⟨[_, _], ⟨hs1, hs2, rfl⟩, rfl, by simp [List.countP_cons]⟩
  | succ d ih =>
      intro v stack hsum hv
      have hdp : dataPointer < stack.length := (List.getElem?_eq_some_iff.1 hv).1
      have hs1 : advance cfg onReadInput
          { state := { program := program, stack := stack, dataPointer := dataPointer,
                       instructionPointer := a },
            inputsRead := inputsRead, outputs := outputs } =
          Advance.yielded
            { state := { program := program,
                         stack := stack.set dataPointer (JSValue.int ((v + 1 : Nat) : Int)),
                         dataPointer := dataPointer, instructionPointer := a + 1 },
              inputsRead := inputsRead, outputs := outputs } := by
        refine advance_of_execute cfg onReadInput _ _ "+" Command.incrementDataValue hplus
          hcplus ?_
        simp only [execute]
        rw [incrementDataValue_nat cfg _ v (by omega) hv (by omega), Nat.mod_eq_of_lt (by omega)]
      have hs2 : advance cfg onReadInput
          { state := { program := program,
                       stack := stack.set dataPointer (JSValue.int ((v + 1 : Nat) : Int)),
                       dataPointer := dataPointer, instructionPointer := a + 1 },
            inputsRead := inputsRead, outputs := outputs } =
          Advance.yielded
            { state := { program := program,
                         stack := stack.set dataPointer (JSValue.int ((v + 1 : Nat) : Int)),
                         dataPointer := dataPointer, instructionPointer := a },
              inputsRead := inputsRead, outputs := outputs } := by
        refine advance_of_execute cfg onReadInput _ _ "]" Command.jumpBackwards hclose
          hcclose ?_
        simp only [execute, jumpBackwards, hjb, hback, Except.map]
        rw [cell_eq_of_getElem? _ _ (by simp only []; exact List.getElem?_set_self hdp)]
        have hne : JSValue.int ((v + 1 : Nat) : Int) ≠ JSValue.int 0 := by
          intro h
          injection h with h
          omega
        simp only [hne, ne_eq, not_false_eq_true, if_true, hba]
      obtain ⟨ys, h1, h2, h3⟩ := ih (v + 1)
        (stack.set dataPointer (JSValue.int ((v + 1 : Nat) : Int))) (by omega)
        (List.getElem?_set_self hdp)
      rw [List.set_set] at h1
      refine ⟨_ :: _ :: ys, ⟨hs1, hs2, h1⟩, by simp [h2]; omega, ?_⟩
      simp only [List.countP_cons, h3]
      simp

/-- C12, as the code has it: the sums are sums of doubles.  With the cell modulus
`2 ^ 53 + 2 = 9007199254740994` and a cell holding `2 ^ 53`, the `+` of `[+]` computes
`2 ^ 53 + 1`, which is rounded to `2 ^ 53`, so the cell keeps its value: after 9 pulls
the `+` has run four times, more often than `cellSize - v = 2`, and the run has not
ended. -/
theorem increment_loop_fails_on_large_modulus :
    (runFrom
        { commandMappings := Index.commandMappings, stackSize := 1,
          cellSize := 9007199254740994 }
        (fun _ => JSValue.int 0) 9
        { state := { program := ["[", "+", "]"], stack := [JSValue.int 9007199254740992],
                     dataPointer := 0, instructionPointer := 0 },
          inputsRead := 0, outputs := [] }).outcome = Outcome.pending ∧
    (runFrom
        { commandMappings := Index.commandMappings, stackSize := 1,
          cellSize := 9007199254740994 }
        (fun _ => JSValue.int 0) 9
        { state := { program := ["[", "+", "]"], stack := [JSValue.int 9007199254740992],
                     dataPointer := 0, instructionPointer := 0 },
          inputsRead := 0, outputs := [] }).yielded.countP
      (fun y => decide (y.state.instructionPointer = 2)) = 4 ∧
    (runFrom
        { commandMappings := Index.commandMappings, stackSize := 1,
          cellSize := 9007199254740994 }
        (fun _ => JSValue.int 0) 9
        { state := { program := ["[", "+", "]"], stack := [JSValue.int 9007199254740992],
                     dataPointer := 0, instructionPointer := 0 },
          inputsRead := 0, outputs := [] }).yielded.getLast?
      = some { state := { program := ["[", "+", "]"],
                          stack := [JSValue.int 9007199254740992],
                          dataPointer := 0, instructionPointer := 1 },
               inputsRead := 0, outputs := [] } := by
  decide

/-- C12, amended: with the symbols of the command line and a cell modulus of at most
`2 ^ 53`, from a state with program `[+]`, instruction pointer `0` and a current cell
holding `v` with `0 < v < cellSize`, the run
ends normally after `2 (cellSize - v) + 1` further states; exactly `cellSize - v` of
them have instruction pointer `2`, the position after the `+`, which only an execution
of the `+` produces; and the last state has the current cell at `0`, the rest of the
tape as it was, and instruction pointer `3`. -/
theorem increment_loop (cfg : RuntimeConfig) (onReadInput : Nat → JSValue)
    (stack : List JSValue) (dataPointer inputsRead v pulls : Nat) (outputs : List JSValue)
    (hcm : cfg.commandMappings = Index.commandMappings) (hv0 : 0 < v) (hv : v < cfg.cellSize)
    (hb : cfg.cellSize ≤ 2 ^ 53)
    (hcell : stack[dataPointer]? = some (JSValue.int (v : Int)))
    (hp : 2 * (cfg.cellSize - v) + 1 < pulls) :
    (runFrom cfg onReadInput pulls
        { state := { program := ["[", "+", "]"], stack := stack, dataPointer := dataPointer,
                     instructionPointer := 0 },
          inputsRead := inputsRead, outputs := outputs }).outcome = Outcome.completed ∧
    (runFrom cfg onReadInput pulls
        { state := { program := ["[", "+", "]"], stack := stack, dataPointer := dataPointer,
                     instructionPointer := 0 },
          inputsRead := inputsRead, outputs := outputs }).yielded.length
      = 2 * (cfg.cellSize - v) + 1 ∧
    (runFrom cfg onReadInput pulls
        { state := { program := ["[", "+", "]"], stack := stack, dataPointer := dataPointer,
                     instructionPointer := 0 },
          inputsRead := inputsRead, outputs := outputs }).yielded.getLast?
      = some { state := { program := ["[", "+", "]"],
                          stack := stack.set dataPointer (JSValue.int 0),
                          dataPointer := dataPointer, instructionPointer := 3 },
               inputsRead := inputsRead, outputs := outputs } ∧
    (runFrom cfg onReadInput pulls
        { state := { program := ["[", "+", "]"], stack := stack, dataPointer := dataPointer,
                     instructionPointer := 0 },
          inputsRead := inputsRead, outputs := outputs }).yielded.countP
      (fun y => decide (y.state.instructionPointer = 2)) = cfg.cellSize - v := by
  have hcopen : commands cfg.commandMappings "[" = some Command.jumpForward := by
    rw [hcm]
    decide
  have hjb : cfg.commandMappings.JUMP_BACKWARDS = "]" := by
    rw [hcm]
    rfl
  have hfwd : _findMatchingToken ["[", "+", "]"] 0 "]" = some 2 := by decide
  have hback : _findMatchingToken ["[", "+", "]"] (1 + 1) "[" Direction.desc = some 0 := by
    decide
  have hstep : advance cfg onReadInput
      { state := { program := ["[", "+", "]"], stack := stack, dataPointer := dataPointer,
                   instructionPointer := 0 },
        inputsRead := inputsRead, outputs := outputs } =
      Advance.yielded
        { state := { program := ["[", "+", "]"], stack := stack, dataPointer := dataPointer,
                     instructionPointer := 1 },
          inputsRead := inputsRead, outputs := outputs } := by
    refine advance_of_execute cfg onReadInput _ _ "[" Command.jumpForward rfl hcopen ?_
    simp only [execute, jumpForward, hjb, hfwd, Except.map]
    rw [cell_eq_of_getElem? _ _ hcell]
    have hne : JSValue.int (v : Int) ≠ JSValue.int 0 := by
      intro h
      injection h with h
      omega
    simp only [hne, if_false]
  obtain ⟨ys, h1, h2, h3⟩ := path_countup cfg onReadInput hcm hb ["[", "+", "]"] dataPointer
    inputsRead 1 0 outputs rfl rfl hback rfl (cfg.cellSize - v - 1) v stack (by omega) hcell
  have hend : advance cfg onReadInput
      { state := { program := ["[", "+", "]"],
                   stack := stack.set dataPointer (JSValue.int ((0 : Nat) : Int)),
                   dataPointer := dataPointer, instructionPointer := 1 + 2 },
        inputsRead := inputsRead, outputs := outputs }
      = Advance.finished := by
    rw [advance_finished_iff]
    simp
  have hpath : Path cfg onReadInput _ (_ :: ys) _ := ⟨hstep, h1⟩
  have hrun := runFrom_of_path cfg onReadInput _ _ _ pulls hpath hend (by simp [h2]; omega)
  rw [hrun]
  refine ⟨rfl, by simp [h2]; omega, ?_, ?_⟩
  · exact getLast?_of_path cfg onReadInput ys _ _ h1
  · simp only [List.countP_cons]
    have e3 : ys.countP (fun y => decide (y.state.instructionPointer = 2)) =
        cfg.cellSize - v - 1 + 1 := h3
    rw [e3]
    simp
    omega

theorem increment_loop_witness :
    (runFrom { commandMappings := Index.commandMappings, stackSize := 1, cellSize := 4 }
        (fun _ => JSValue.int 0) 6
        { state := { program := ["[", "+", "]"], stack := [JSValue.int 2], dataPointer := 0,
                     instructionPointer := 0 },
          inputsRead := 0, outputs := [] }).outcome = Outcome.completed ∧
    (runFrom { commandMappings := Index.commandMappings, stackSize := 1, cellSize := 4 }
        (fun _ => JSValue.int 0) 6
        { state := { program := ["[", "+", "]"], stack := [JSValue.int 2], dataPointer := 0,
                     instructionPointer := 0 },
          inputsRead := 0, outputs := [] }).yielded.length = 2 * (4 - 2) + 1 :=
  ⟨(increment_loop { commandMappings := Index.commandMappings, stackSize := 1, cellSize := 4 }
      (fun _ => JSValue.int 0) [JSValue.int 2] 0 0 2 6 [] rfl (by decide) (by decide)
      (by decide) rfl (by decide)).1,
    (increment_loop { commandMappings := Index.commandMappings, stackSize := 1, cellSize := 4 }
      (fun _ => JSValue.int 0) [JSValue.int 2] 0 0 2 6 [] rfl (by decide) (by decide)
      (by decide) rfl (by decide)).2.1⟩

end Interpreter
